import Mathlib

/-!
# Verification of `pkg/kredis/types.go`

A shallow embedding of the Redis cluster topology codec (`pkg/kredis/types.go`) and
theorems about it.

Conventions of the embedding:

* a Go `string` is a `List Char` (`Str`); string constants are written `"...".toList`;
* a Go `int` is an `Int` in the range `[-2^63, 2^63)`; the one addition the code performs
  (`last+1` in `HashSlots.String`) wraps explicitly;
* a Go function returning `(value, error)` is a Lean function returning
  `value × Option Error`: the value returned alongside a non-nil error is kept;
* `nil` and empty slices or maps are identified.
-/

namespace Kredis

/-- Go `string`. -/
abbrev Str := List Char

/-! ## Errors -/

/-- The errors of the package. Go builds them as messages with `errors.New` and
`fmt.Errorf`; each constructor stands for one message format. -/
inductive Error where
  /-- The message `a RedisInstance cannot be empty` (EmptyInput). -/
  | emptyInstance : Error
  /-- The message `parsing "s": too many components: "surplus"` (TooManyComponents). -/
  | tooManyComponents (s : Str) (surplus : List Str) : Error
  /-- The message `parsing part i: cause` (PartError). -/
  | part (i : Nat) (cause : Error) : Error
  /-- The message `"s" is not a valid cluster node address` (MalformedAddress). -/
  | invalidAddress (s : Str) : Error
  /-- The message `unrecognized flag "part"` (UnknownFlag). -/
  | unrecognizedFlag (part : Str) : Error
  /-- The error of `strconv.Atoi` on `s`: invalid syntax. -/
  | notANumber (s : Str) : Error
  /-- The error of `strconv.Atoi` on `s`: value out of range. -/
  | outOfRange (s : Str) : Error
  /-- The message `parsing "s": unknown hash slot format` (UnknownFormat). -/
  | unknownHashSlotFormat (s : Str) : Error
  /-- The message `parsing "s": not enough parts` (TooFewFields). -/
  | notEnoughParts (s : Str) : Error
  /-- The message `parsing "s": cause`, wrapping the error of a constituent. -/
  | parsing (s : Str) (cause : Error) : Error
  /-- The message `parsing line i of cluster nodes: cause` (LineError). -/
  | line (i : Nat) (cause : Error) : Error
  /-- The message of `Self` when a second `myself` node is met (MultipleSelfNodes). -/
  | multipleSelf : Error
  /-- The message of `Self` when no `myself` node is found (NoSelfNode). -/
  | noSelf : Error
  deriving DecidableEq, Repr

/-! ## The Go library functions the package calls -/

/-- Go `strings.Split(s, sep)` for a separator `sep` of one character: the pieces of `s`
between the occurrences of `sep`; always at least one piece. -/
def Split (sep : Char) : Str → List Str
  | [] => [[]]
  | c :: cs =>
    if c = sep then [] :: Split sep cs
    else
      match Split sep cs with
      | [] => [[c]]
      | p :: ps => (c :: p) :: ps

/-- Go `strings.Join(parts, sep)`. -/
def Join (sep : Str) : List Str → Str
  | [] => []
  | [p] => p
  | p :: q :: ps => p ++ sep ++ Join sep (q :: ps)

/-- Go `unicode.IsSpace`: the code points with the Unicode White_Space property. -/
def isSpace (c : Char) : Bool :=
  let n := c.toNat
  (9 ≤ n && n ≤ 13) || n = 32 || n = 0x85 || n = 0xA0 || n = 0x1680 ||
  (0x2000 ≤ n && n ≤ 0x200a) || n = 0x2028 || n = 0x2029 || n = 0x202f ||
  n = 0x205f || n = 0x3000

/-- Go `strings.TrimSpace`: `s` without its leading and trailing white space. -/
def TrimSpace (s : Str) : Str :=
  ((s.dropWhile isSpace).reverse.dropWhile isSpace).reverse

/-- The ASCII digits `0` to `9`. -/
def isDigit (c : Char) : Bool := 48 ≤ c.toNat && c.toNat ≤ 57

/-- The value of an ASCII digit. -/
def digitVal (c : Char) : Nat := c.toNat - 48

/-- The ASCII digit of a value below ten. -/
def digitChar (d : Nat) : Char := Char.ofNat (48 + d)

/-- The largest `uint64`. -/
def maxUint64 : Nat := 2 ^ 64 - 1

/-- The largest `int64` plus one. -/
def int64Cutoff : Nat := 2 ^ 63

/-- The outcome of the digit loop of Go `strconv.ParseUint`. -/
inductive UintResult where
  | ok (n : Nat) : UintResult
  | badSyntax : UintResult
  | overflow : UintResult
  deriving DecidableEq, Repr

/-- The digit loop of Go `strconv.ParseUint(s, 10, 64)`: a character that is not a digit
is a syntax error; a value that leaves `uint64` is a range error, reported as soon as it is
detected. -/
def parseUintLoop : Str → Nat → UintResult
  | [], n => .ok n
  | c :: cs, n =>
    if isDigit c then
      if n ≥ maxUint64 / 10 + 1 then .overflow
      else if n * 10 + digitVal c > maxUint64 then .overflow
      else parseUintLoop cs (n * 10 + digitVal c)
    else .badSyntax

/-- Go `strconv.ParseUint(s, 10, 64)`. -/
def ParseUint (s : Str) : UintResult :=
  if s = [] then .badSyntax else parseUintLoop s 0

/-- The unsigned part of Go `strconv.ParseInt`: `neg` tells whether a minus sign was
read, `s0` is the whole text (for the error) and `s` the text after the sign. -/
def parseSigned (s0 : Str) (neg : Bool) (s : Str) : Int × Option Error :=
  match ParseUint s with
  | .badSyntax => (0, some (.notANumber s0))
  | .overflow =>
    if neg then (-(int64Cutoff : Int), some (.outOfRange s0))
    else ((int64Cutoff : Int) - 1, some (.outOfRange s0))
  | .ok un =>
    if !neg && un ≥ int64Cutoff then ((int64Cutoff : Int) - 1, some (.outOfRange s0))
    else if neg && un > int64Cutoff then (-(int64Cutoff : Int), some (.outOfRange s0))
    else if neg then (-(un : Int), none)
    else ((un : Int), none)

/-- Go `strconv.Atoi` on a 64-bit platform: an optional sign followed by decimal digits,
with a value in `int64`. On a syntax error the value is `0`, on a range error the nearest
bound. -/
def Atoi (s : Str) : Int × Option Error :=
  match s with
  | [] => (0, some (.notANumber s))
  | c :: cs =>
    if c = '+' then parseSigned s false cs
    else if c = '-' then parseSigned s true cs
    else parseSigned s false s

/-- The decimal digits of `n`, most significant first, put in front of `acc`; `fuel`
bounds the number of digits. -/
def utoaAux : Nat → Nat → Str → Str
  | 0, _, acc => acc
  | fuel + 1, n, acc =>
    if n < 10 then digitChar n :: acc
    else utoaAux fuel (n / 10) (digitChar (n % 10) :: acc)

/-- The decimal text of a natural number, as Go formats an unsigned value. -/
def utoa (n : Nat) : Str := utoaAux (n + 1) n []

/-- Go `strconv.Itoa` (and the verb `%d` of `fmt`): the decimal text of an integer. -/
def Itoa (i : Int) : Str :=
  if i < 0 then '-' :: utoa (-i).toNat else utoa i.toNat

/-- Go `sort.Ints`: the ascending sort of a list of integers. -/
def sortInts (l : List Int) : List Int := l.insertionSort (fun a b => a ≤ b)

/-- Go `sort.Strings` compares strings byte by byte; on valid text this is the
lexicographic order of the code points. `strLt a b` is `a < b` in that order. -/
def strLt : Str → Str → Bool
  | _, [] => false
  | [], _ :: _ => true
  | a :: as, b :: bs =>
    if a.toNat < b.toNat then true
    else if b.toNat < a.toNat then false
    else strLt as bs

/-- The order `a ≤ b` of Go strings. -/
def strLe (a b : Str) : Bool := !strLt b a

/-- Go `sort.Strings`: the ascending sort of a list of strings. -/
def sortStrings (l : List Str) : List Str := l.insertionSort (fun a b => strLe a b = true)

/-- An IPv4 address, the only kind of `net.IP` that a text without `:` can denote. -/
structure IPv4 where
  a : Nat
  b : Nat
  c : Nat
  d : Nat
  deriving DecidableEq, Repr

/-- Go `net.IP` as `ParseClusterNodeAddress` produces it: `none` is the `nil` IP. -/
abbrev IP := Option IPv4

/-- One field of a dotted-decimal address, as Go `net.ParseIP` reads it: one or more
digits, no leading zero in front of another digit, a value of at most 255. -/
def parseOctet (s : Str) : Option Nat :=
  match s with
  | [] => none
  | c :: cs =>
    if !(c :: cs).all isDigit then none
    else if c = '0' && cs ≠ [] then none
    else
      match parseUintLoop (c :: cs) 0 with
      | .ok n => if n ≤ 255 then some n else none
      | _ => none

/-- Go `net.ParseIP` on a text that contains no `:` (the first group of the address
pattern never does): four dotted decimal fields, or `nil`. -/
def ParseIP (s : Str) : IP :=
  match Split '.' s with
  | [f1, f2, f3, f4] =>
    match parseOctet f1, parseOctet f2, parseOctet f3, parseOctet f4 with
    | some a, some b, some c, some d => some ⟨a, b, c, d⟩
    | _, _, _, _ => none
  | _ => none

/-- Go `net.IP.String` of an IPv4 address: the dotted decimal form. -/
def IPv4.String (ip : IPv4) : Str :=
  utoa ip.a ++ '.' :: utoa ip.b ++ '.' :: utoa ip.c ++ '.' :: utoa ip.d

/-! ## RedisInstance and MasterGroup -/

/-- A Redis instance, master or slave (the Endpoint of the specification). -/
structure RedisInstance where
  Hostname : Str
  Port : Str
  deriving DecidableEq, Repr

/-- The zero value of `RedisInstance`. -/
def RedisInstance.zero : RedisInstance := ⟨[], []⟩

/-- The method `RedisInstance.String`: `fmt.Sprintf("%s:%s", i.Hostname, i.Port)`. -/
def RedisInstance.String (i : RedisInstance) : Str := i.Hostname ++ ':' :: i.Port

/-- The function `ParseRedisInstance`. -/
def ParseRedisInstance (s : Str) : RedisInstance × Option Error :=
  let s := TrimSpace s
  if s = [] then (RedisInstance.zero, some .emptyInstance)
  else
    match Split ':' s with
    | [c0] => (⟨TrimSpace c0, "6379".toList⟩, none)
    | [c0, c1] => (⟨TrimSpace c0, TrimSpace c1⟩, none)
    | components => (RedisInstance.zero, some (.tooManyComponents s (components.drop 2)))

/-- A list of Redis instances of one logical group (the EndpointGroup). -/
abbrev MasterGroup := List RedisInstance

/-- The method `MasterGroup.String`: the members joined by commas. -/
def MasterGroup.String (g : MasterGroup) : Str :=
  Join [','] (g.map RedisInstance.String)

/-- The loop of `ParseMasterGroup` over the parts from index `i` on, `masterGroup` being
the instances parsed so far. On an error the returned group is `nil`. -/
def ParseMasterGroup.loop : List Str → Nat → MasterGroup → MasterGroup × Option Error
  | [], _, masterGroup => (masterGroup, none)
  | part :: parts, i, masterGroup =>
    match ParseRedisInstance part with
    | (_, some err) => ([], some (.part i err))
    | (redisInstance, none) => ParseMasterGroup.loop parts (i + 1) (masterGroup ++ [redisInstance])

/-- The function `ParseMasterGroup`. -/
def ParseMasterGroup (s : Str) : MasterGroup × Option Error :=
  let s := TrimSpace s
  if s = [] then ([], none)
  else ParseMasterGroup.loop (Split ',' s) 0 []

/-! ## Cluster node identifiers and addresses -/

/-- A cluster node identifier: a Go string type. -/
abbrev ClusterNodeID := Str

/-- The method `ClusterNodeID.String`: the empty identifier is shown as `-`. -/
def ClusterNodeID.String (i : ClusterNodeID) : Str :=
  if i = [] then ['-'] else i

/-- A cluster node address. -/
structure ClusterNodeAddress where
  IP : IP
  Port : Str
  ClusterPort : Str
  deriving DecidableEq, Repr

/-- The zero value of `ClusterNodeAddress`. -/
def ClusterNodeAddress.zero : ClusterNodeAddress := ⟨none, [], []⟩

/-- The result of `clusterNodeAddressRegexp.FindStringSubmatch(s)` for the pattern
`^([^:]*):([0-9]*)(@([0-9]*))?$`: the five submatches (whole match and groups 1 to 4, an
unmatched group being empty), or `nil` when `s` does not match. -/
def FindStringSubmatch (s : Str) : List Str :=
  let g1 := s.takeWhile (fun c => c ≠ ':')
  match s.dropWhile (fun c => c ≠ ':') with
  | [] => []
  | _ :: r =>
    let g2 := r.takeWhile isDigit
    match r.dropWhile isDigit with
    | [] => [s, g1, g2, [], []]
    | c :: g4 =>
      if c = '@' && g4.all isDigit then [s, g1, g2, c :: g4, g4] else []

/-- The function `ParseClusterNodeAddress`. -/
def ParseClusterNodeAddress (s : Str) : ClusterNodeAddress × Option Error :=
  match FindStringSubmatch s with
  | [_, m1, m2, _, m4] => (⟨ParseIP m1, m2, m4⟩, none)
  | _ => (ClusterNodeAddress.zero, some (.invalidAddress s))

/-- The method `ClusterNodeAddress.String`. -/
def ClusterNodeAddress.String (a : ClusterNodeAddress) : Str :=
  let buffer : Str :=
    match a.IP with
    | some ip => ip.String
    | none => []
  let buffer := buffer ++ ':' :: a.Port
  if a.ClusterPort ≠ [] then buffer ++ '@' :: a.ClusterPort else buffer

/-! ## Cluster node flags -/

/-- The seven flag constants `FlagMyself` ... `FlagNoAddress` of type `ClusterNodeFlag`. -/
inductive ClusterNodeFlag where
  | FlagMyself : ClusterNodeFlag
  | FlagMaster : ClusterNodeFlag
  | FlagSlave : ClusterNodeFlag
  | FlagProbableFail : ClusterNodeFlag
  | FlagFail : ClusterNodeFlag
  | FlagHandshake : ClusterNodeFlag
  | FlagNoAddress : ClusterNodeFlag
  deriving DecidableEq, Repr

open ClusterNodeFlag

/-- The string value of a flag constant: `string(flag)`. -/
def ClusterNodeFlag.name : ClusterNodeFlag → Str
  | FlagMyself => "myself".toList
  | FlagMaster => "master".toList
  | FlagSlave => "slave".toList
  | FlagProbableFail => "fail?".toList
  | FlagFail => "fail".toList
  | FlagHandshake => "handshake".toList
  | FlagNoAddress => "noaddr".toList

/-- The constant `flagNoFlags`, which indicates the absence of flags. -/
def flagNoFlags : Str := "noflags".toList

/-- The seven flags, in the order of their declaration. Go ranges over a map in an
unspecified order; this list fixes one order for the embedding, and `String` sorts what it
collects with `sort.Strings`, so that its result is the same for every order
(`String_range_order`). -/
def allFlags : List ClusterNodeFlag :=
  [FlagMyself, FlagMaster, FlagSlave, FlagProbableFail, FlagFail, FlagHandshake, FlagNoAddress]

/-- The seven flags in the ascending order of their names; used to state what `String`
returns, not by `String` itself. -/
def flagsByName : List ClusterNodeFlag :=
  [FlagFail, FlagProbableFail, FlagHandshake, FlagMaster, FlagMyself, FlagNoAddress, FlagSlave]

/-- The type `ClusterNodeFlags`, a `map[ClusterNodeFlag]bool` used as a set: the set of the
keys of the map, which are among the seven constants and are each mapped to `true` (the
only maps that the package builds). -/
abbrev ClusterNodeFlags := Finset ClusterNodeFlag

/-- The method `ClusterNodeFlags.String`. -/
def ClusterNodeFlags.String (f : ClusterNodeFlags) : Str :=
  if f.card = 0 then flagNoFlags
  else
    let s := (allFlags.filter (fun flag => flag ∈ f)).map ClusterNodeFlag.name
    Join [','] (sortStrings s)

/-- The conversion `ClusterNodeFlag(part)` followed by the first `case` of the `switch`
of `ParseClusterNodeFlags`: the flag constant equal to `part`, if any. -/
def flagOfName (part : Str) : Option ClusterNodeFlag :=
  if part = FlagMyself.name then some FlagMyself
  else if part = FlagMaster.name then some FlagMaster
  else if part = FlagSlave.name then some FlagSlave
  else if part = FlagProbableFail.name then some FlagProbableFail
  else if part = FlagFail.name then some FlagFail
  else if part = FlagHandshake.name then some FlagHandshake
  else if part = FlagNoAddress.name then some FlagNoAddress
  else none

/-- The loop of `ParseClusterNodeFlags` over the remaining parts, `result` being the set
built so far. -/
def ParseClusterNodeFlags.loop : List Str → ClusterNodeFlags → ClusterNodeFlags × Option Error
  | [], result => (result, none)
  | part :: parts, result =>
    match flagOfName part with
    | some flag => ParseClusterNodeFlags.loop parts (insert flag result)
    | none =>
      if part = flagNoFlags then (∅, none)
      else (result, some (.unrecognizedFlag part))

/-- The function `ParseClusterNodeFlags`. -/
def ParseClusterNodeFlags (s : Str) : ClusterNodeFlags × Option Error :=
  ParseClusterNodeFlags.loop (Split ',' s) ∅

/-! ## Hash slots -/

/-- The type `HashSlots`, a list of hash slots. -/
abbrev HashSlots := List Int

/-- The value of a Go `int` expression: the integer `x` wrapped into `[-2^63, 2^63)`. -/
def wrapInt (x : Int) : Int := (x + 2 ^ 63) % 2 ^ 64 - 2 ^ 63

/-- The closure `addSlot` of `HashSlots.String`: appends the text of one run to `parts`. -/
def HashSlots.addSlot (parts : List Str) (b e : Int) : List Str :=
  if b ≠ e then parts ++ [Itoa b ++ '-' :: Itoa e] else parts ++ [Itoa b]

/-- The loop of `HashSlots.String` over the remaining slots; the state is `parts`,
`begin` and `last`. Returns the state after the loop. -/
def HashSlots.loop : List Int → List Str → Int → Int → List Str × Int × Int
  | [], parts, b, last => (parts, b, last)
  | slot :: rest, parts, b, last =>
    if b < 0 then HashSlots.loop rest parts slot slot
    else if slot = wrapInt (last + 1) then HashSlots.loop rest parts b slot
    else HashSlots.loop rest (HashSlots.addSlot parts b last) slot slot

/-- The method `HashSlots.String`. -/
def HashSlots.String (s : HashSlots) : Str :=
  if s.length = 0 then []
  else
    match HashSlots.loop s [] (-1) (-1) with
    | (parts, b, last) => Join [' '] (HashSlots.addSlot parts b last)

/-- The loop of `ParseHashSlots` over the parts, `slots` being the slots read so far. -/
def ParseHashSlots.loop (s : Str) : List Str → HashSlots → HashSlots × Option Error
  | [], slots => (slots, none)
  | part :: parts, slots =>
    match Atoi part with
    | (_, some err) => (slots, some (.parsing s err))
    | (slot, none) => ParseHashSlots.loop s parts (slots ++ [slot])

/-- The function `ParseHashSlots`: parses a hash slot or a hash slot range. -/
def ParseHashSlots (s : Str) : HashSlots × Option Error :=
  let parts := Split '-' s
  if parts.length = 1 ∨ parts.length = 2 then ParseHashSlots.loop s parts []
  else ([], some (.unknownHashSlotFormat s))

/-! ## Cluster nodes -/

/-- The type `ClusterNodeLinkState`: a Go string type. -/
abbrev ClusterNodeLinkState := Str

/-- The constant `LinkStateConnected`. -/
def LinkStateConnected : ClusterNodeLinkState := "connected".toList

/-- The constant `LinkStateDisconnected`. -/
def LinkStateDisconnected : ClusterNodeLinkState := "disconnected".toList

/-- The type `ClusterNode`. -/
structure ClusterNode where
  ID : ClusterNodeID
  Address : ClusterNodeAddress
  Flags : ClusterNodeFlags
  MasterID : ClusterNodeID
  PingSent : Int
  PongReceived : Int
  Epoch : Int
  LinkState : ClusterNodeLinkState
  Slots : HashSlots
  deriving DecidableEq

/-- The zero value of `ClusterNode`. -/
def ClusterNode.zero : ClusterNode :=
  ⟨[], ClusterNodeAddress.zero, ∅, [], 0, 0, 0, [], []⟩

/-- The loop of `ParseClusterNode` over the parts after the eighth, `result` being the node
built so far. On an error the slots appended so far stay in `result`. -/
def ParseClusterNode.slotsLoop (s : Str) : List Str → ClusterNode → ClusterNode × Option Error
  | [], result => (result, none)
  | part :: parts, result =>
    match ParseHashSlots part with
    | (_, some err) => (result, some (.parsing s err))
    | (slots, none) =>
      ParseClusterNode.slotsLoop s parts { result with Slots := result.Slots ++ slots }

/-- The function `ParseClusterNode`: parses one line of the reply to `CLUSTER NODES`. The
node returned alongside an error holds the fields assigned before the failure. -/
def ParseClusterNode (s : Str) : ClusterNode × Option Error :=
  match Split ' ' s with
  | p0 :: p1 :: p2 :: p3 :: p4 :: p5 :: p6 :: p7 :: rest =>
    let result := { ClusterNode.zero with ID := p0 }
    match ParseClusterNodeAddress p1 with
    | (address, some err) => ({ result with Address := address }, some (.parsing s err))
    | (address, none) =>
      let result := { result with Address := address }
      match ParseClusterNodeFlags p2 with
      | (flags, some err) => ({ result with Flags := flags }, some (.parsing s err))
      | (flags, none) =>
        let result := { result with Flags := flags }
        let result := if p3 ≠ ['-'] then { result with MasterID := p3 } else result
        match Atoi p4 with
        | (pingSent, some err) => ({ result with PingSent := pingSent }, some (.parsing s err))
        | (pingSent, none) =>
          let result := { result with PingSent := pingSent }
          match Atoi p5 with
          | (pongReceived, some err) =>
            ({ result with PongReceived := pongReceived }, some (.parsing s err))
          | (pongReceived, none) =>
            let result := { result with PongReceived := pongReceived }
            match Atoi p6 with
            | (epoch, some err) => ({ result with Epoch := epoch }, some (.parsing s err))
            | (epoch, none) =>
              let result := { result with Epoch := epoch, LinkState := p7, Slots := [] }
              match ParseClusterNode.slotsLoop s rest result with
              | (result, some err) => (result, some err)
              | (result, none) => ({ result with Slots := sortInts result.Slots }, none)
  | _ => (ClusterNode.zero, some (.notEnoughParts s))

/-- The method `ClusterNode.String`. -/
def ClusterNode.String (n : ClusterNode) : Str :=
  let buffer : Str :=
    ClusterNodeID.String n.ID ++ ' ' :: n.Address.String ++ ' ' :: n.Flags.String ++
    ' ' :: ClusterNodeID.String n.MasterID ++ ' ' :: Itoa n.PingSent ++
    ' ' :: Itoa n.PongReceived ++ ' ' :: Itoa n.Epoch ++ ' ' :: n.LinkState
  if n.Slots.length > 0 then buffer ++ ' ' :: HashSlots.String n.Slots else buffer

/-- The type `ClusterNodes`, a list of cluster nodes. -/
abbrev ClusterNodes := List ClusterNode

/-- The loop of `ParseClusterNodes` over the lines from index `i` on, `nodes` being the
nodes parsed so far. On an error the nodes parsed so far are returned with it. -/
def ParseClusterNodes.loop : List Str → Nat → ClusterNodes → ClusterNodes × Option Error
  | [], _, nodes => (nodes, none)
  | line :: lines, i, nodes =>
    if line = [] then ParseClusterNodes.loop lines (i + 1) nodes
    else
      match ParseClusterNode line with
      | (_, some err) => (nodes, some (.line i err))
      | (node, none) => ParseClusterNodes.loop lines (i + 1) (nodes ++ [node])

/-- The function `ParseClusterNodes`: parses the reply to `CLUSTER NODES`. -/
def ParseClusterNodes (s : Str) : ClusterNodes × Option Error :=
  ParseClusterNodes.loop (Split '\n' s) 0 []

/-- The method `ClusterNodes.String`: the nodes joined by newlines. -/
def ClusterNodes.String (n : ClusterNodes) : Str :=
  Join ['\n'] (n.map ClusterNode.String)

/-- The loop of `ClusterNodes.Self` over the remaining nodes, `result` being the node kept
so far (the zero node at the start). -/
def ClusterNodes.Self.loop : List ClusterNode → ClusterNode → ClusterNode × Option Error
  | [], result =>
    if result.ID = [] then (result, some .noSelf) else (result, none)
  | node :: rest, result =>
    if FlagMyself ∈ node.Flags then
      if result.ID ≠ [] then (result, some .multipleSelf)
      else ClusterNodes.Self.loop rest node
    else ClusterNodes.Self.loop rest result

/-- The method `ClusterNodes.Self`: returns the `myself` node if one is found. -/
def ClusterNodes.Self (n : ClusterNodes) : ClusterNode × Option Error :=
  ClusterNodes.Self.loop n ClusterNode.zero

/-! ## The end-to-end example of the documentation -/

/-- The line of the end-to-end scenario. -/
def exampleLine : Str :=
  ("07c37dfeb235213a872192d90877d0cd55635b91 127.0.0.1:30004@31004 slave " ++
   "e7d1eecce10fd6bb5eb35b9f99a514335d9ba9ca 0 1426238317239 4 connected").toList

/-- The node of the end-to-end scenario. -/
def exampleNode : ClusterNode where
  ID := "07c37dfeb235213a872192d90877d0cd55635b91".toList
  Address := ⟨some ⟨127, 0, 0, 1⟩, "30004".toList, "31004".toList⟩
  Flags := {FlagSlave}
  MasterID := "e7d1eecce10fd6bb5eb35b9f99a514335d9ba9ca".toList
  PingSent := 0
  PongReceived := 1426238317239
  Epoch := 4
  LinkState := LinkStateConnected
  Slots := []

/-- A text with no white space at either end. -/
def Trimmed (s : Str) : Prop :=
  (∀ c, s.head? = some c → isSpace c = false) ∧ (∀ c, s.getLast? = some c → isSpace c = false)

/-- A node with the empty identifier that carries the flag `myself`; `ParseClusterNodes`
returns it for the line ` :1 myself - 0 0 0 connected`. -/
def anonymousSelf : ClusterNode :=
  { ClusterNode.zero with
    Address := ⟨none, "1".toList, []⟩
    Flags := {FlagMyself}
    LinkState := LinkStateConnected }

/-- A node with the identifier `b` that carries the flag `myself`; `ParseClusterNodes`
returns it for the line `b :2 myself - 0 0 0 connected`. -/
def namedSelf : ClusterNode :=
  { ClusterNode.zero with
    ID := "b".toList
    Address := ⟨none, "2".toList, []⟩
    Flags := {FlagMyself}
    LinkState := LinkStateConnected }

/-- The consecutive integers `lo, lo+1, ..., hi` (none when `hi < lo`). -/
def consecutive (lo hi : Int) : List Int :=
  (List.range (hi - lo + 1).toNat).map (fun (i : Nat) => lo + Int.ofNat i)

/-- The maximal runs of consecutive integers of a sequence, as pairs of first and last
element: `runsFrom b last rest` are the runs of a sequence whose already scanned part is
the run from `b` to `last` and whose remaining part is `rest`. -/
def runsFrom : Int → Int → List Int → List (Int × Int)
  | b, last, [] => [(b, last)]
  | b, last, x :: xs =>
    if x = last + 1 then runsFrom b x xs else (b, last) :: runsFrom x x xs

/-- The maximal runs of consecutive integers of a sequence. -/
def maximalRuns : List Int → List (Int × Int)
  | [] => []
  | x :: xs => runsFrom x x xs

/-- The text of one run: `low-high`, or the bare `low` for a singleton. -/
def formatRun (r : Int × Int) : Str :=
  if r.1 = r.2 then Itoa r.1 else Itoa r.1 ++ '-' :: Itoa r.2

/-- A node with its slots left out: all the fields of `n` but `Slots`. -/
def withoutSlots (n : ClusterNode) : ClusterNode := { n with Slots := [] }

/-- The invariants of a node that `ParseClusterNode` returns without an error. -/
structure ClusterNode.WellFormed (n : ClusterNode) : Prop where
  id_no_space : ' ' ∉ n.ID
  port_digits : ∀ c ∈ n.Address.Port, isDigit c = true
  clusterPort_digits : ∀ c ∈ n.Address.ClusterPort, isDigit c = true
  ip_octets : ∀ ip, n.Address.IP = some ip → ip.a ≤ 255 ∧ ip.b ≤ 255 ∧ ip.c ≤ 255 ∧ ip.d ≤ 255
  master_no_space : ' ' ∉ n.MasterID
  master_not_dash : n.MasterID ≠ ['-']
  pingSent_range : -2 ^ 63 ≤ n.PingSent ∧ n.PingSent < 2 ^ 63
  pongReceived_range : -2 ^ 63 ≤ n.PongReceived ∧ n.PongReceived < 2 ^ 63
  epoch_range : -2 ^ 63 ≤ n.Epoch ∧ n.Epoch < 2 ^ 63
  linkState_no_space : ' ' ∉ n.LinkState
  slots_range : ∀ x ∈ n.Slots, 0 ≤ x ∧ x < 2 ^ 63
  slots_sorted : n.Slots.Sorted (fun a b => a ≤ b)

/-- The slots that are read back from the text of a slot list: the first and the last
slot of each maximal run. -/
def runEnds (s : HashSlots) : HashSlots :=
  ((maximalRuns s).map (fun r => if r.1 = r.2 then [r.1] else [r.1, r.2])).flatten

/-- A reply to `CLUSTER NODES` with two nodes, the first one owning the slots `0`, `1`
and `5`. -/
def twoNodeText : Str :=
  ("a 1.2.3.4:5@6 master,myself - 0 1 2 connected 0-1 5\n" ++
   "b :7 slave a 3 4 5 disconnected").toList

/-- A reply to `CLUSTER NODES` with two nodes: the first has the empty identifier, the
second owns the slots `1`, `2` and `3`. -/
def lossyText : Str :=
  (" :1 master - 0 0 0 connected\n" ++
   "b :2 master - 0 0 0 connected 1 2 3").toList

/-- The loop of `NewHashSlotsFromRange`: `for ; begin <= end; begin += step`, the addition
wrapping as Go's does. `fuel` bounds the number of times the condition is evaluated; the
result is `none` when the loop has not ended within `fuel`. -/
def NewHashSlotsFromRange.loop : Nat → Int → Int → Int → HashSlots → Option HashSlots
  | 0, _, _, _, _ => none
  | fuel + 1, b, e, step, slots =>
    if b ≤ e then NewHashSlotsFromRange.loop fuel (wrapInt (b + step)) e step (slots ++ [b])
    else some slots

/-- The function `NewHashSlotsFromRange(begin, end, step)`, run with `fuel`. -/
def NewHashSlotsFromRange (fuel : Nat) (b e step : Int) : Option HashSlots :=
  NewHashSlotsFromRange.loop fuel b e step []

/-! # Lemmas and theorems -/

/-! ## Lemmas on `Split` and `Join` -/

theorem Split_ne_nil (sep : Char) (s : Str) : Split sep s ≠ [] := by
  induction s with
  | nil => simp [Split]
  | cons c cs ih =>
    unfold Split
    split
    · simp
    · split <;> simp

theorem Split_cons_sep (sep : Char) (s : Str) : Split sep (sep :: s) = [] :: Split sep s := by
  simp [Split]

theorem Split_cons_ne (sep c : Char) (s : Str) (h : c ≠ sep) :
    Split sep (c :: s) = (c :: (Split sep s).headD []) :: (Split sep s).tail := by
  rw [Split, if_neg h]
  cases hs : Split sep s with
  | nil => exact absurd hs (Split_ne_nil sep s)
  | cons p ps => simp

theorem Split_of_not_mem (sep : Char) (s : Str) (h : sep ∉ s) : Split sep s = [s] := by
  induction s with
  | nil => simp [Split]
  | cons c cs ih =>
    have hc : c ≠ sep := fun e => h (by simp [e])
    have hcs : sep ∉ cs := fun e => h (by simp [e])
    rw [Split_cons_ne sep c cs hc, ih hcs]
    simp

theorem Split_append_sep (sep : Char) (a b : Str) (h : sep ∉ a) :
    Split sep (a ++ sep :: b) = a :: Split sep b := by
  induction a with
  | nil => simp [Split]
  | cons c cs ih =>
    have hc : c ≠ sep := fun e => h (by simp [e])
    have hcs : sep ∉ cs := fun e => h (by simp [e])
    rw [List.cons_append, Split_cons_ne sep c _ hc, ih hcs]
    simp

theorem Split_Join (sep : Char) (parts : List Str) (hne : parts ≠ [])
    (h : ∀ p ∈ parts, sep ∉ p) : Split sep (Join [sep] parts) = parts := by
  induction parts with
  | nil => exact absurd rfl hne
  | cons p ps ih =>
    cases ps with
    | nil => simpa [Join] using Split_of_not_mem sep p (h p (by simp))
    | cons q qs =>
      have hp : sep ∉ p := h p (by simp)
      have := ih (by simp) (fun x hx => h x (by simp [hx]))
      simp only [Join, List.append_assoc, List.singleton_append]
      rw [Split_append_sep sep p _ hp, this]

theorem Join_Split (sep : Char) (s : Str) : Join [sep] (Split sep s) = s := by
  induction s with
  | nil => simp [Split, Join]
  | cons c cs ih =>
    by_cases hc : c = sep
    · subst hc
      rw [Split_cons_sep]
      cases hs : Split c cs with
      | nil => exact absurd hs (Split_ne_nil c cs)
      | cons p ps => rw [hs] at ih; simp [Join, ih]
    · rw [Split_cons_ne sep c cs hc]
      cases hs : Split sep cs with
      | nil => exact absurd hs (Split_ne_nil sep cs)
      | cons p ps =>
        rw [hs] at ih
        cases ps with
        | nil => simpa [Join] using ih
        | cons q qs => simp only [Join] at ih; simp [Join, ih]

theorem not_mem_of_mem_Split (sep : Char) (s : Str) (p : Str) (h : p ∈ Split sep s) :
    sep ∉ p := by
  induction s generalizing p with
  | nil => simp [Split] at h; simp [h]
  | cons c cs ih =>
    by_cases hc : c = sep
    · subst hc
      rw [Split_cons_sep] at h
      rcases List.mem_cons.1 h with h | h
      · simp [h]
      · exact ih p h
    · rw [Split_cons_ne sep c cs hc] at h
      cases hs : Split sep cs with
      | nil => exact absurd hs (Split_ne_nil sep cs)
      | cons q qs =>
        rw [hs] at h ih
        simp only [List.headD_cons, List.tail_cons, List.mem_cons] at h
        rcases h with h | h
        · subst h
          have := ih q (by simp)
          simp only [List.mem_cons, not_or]
          exact ⟨fun e => hc e.symm, this⟩
        · exact ih p (by simp [h])

theorem length_Split (sep : Char) (s : Str) : (Split sep s).length = s.count sep + 1 := by
  induction s with
  | nil => simp [Split]
  | cons c cs ih =>
    by_cases hc : c = sep
    · subst hc
      rw [Split_cons_sep]
      simp [ih]
    · rw [Split_cons_ne sep c cs hc]
      have hne := Split_ne_nil sep cs
      rw [List.count_cons_of_ne (fun e => hc e.symm)]
      rw [← ih]
      cases hs : Split sep cs with
      | nil => exact absurd hs hne
      | cons q qs => simp

/-- The first piece of `Split` is the text before the first separator and the remaining
pieces are the split of what follows it. -/
theorem Split_eq_takeWhile (sep : Char) (s : Str) :
    Split sep s = s.takeWhile (fun c => c ≠ sep) ::
      (match s.dropWhile (fun c => c ≠ sep) with
       | [] => []
       | _ :: r => Split sep r) := by
  induction s with
  | nil => simp [Split]
  | cons c cs ih =>
    by_cases hc : c = sep
    · subst hc
      rw [Split_cons_sep]
      simp
    · rw [Split_cons_ne sep c cs hc, ih]
      simp [hc]

/-! ## Lemmas on `TrimSpace` -/

theorem dropWhile_eq_self_of_head (p : Char → Bool) (l : Str)
    (h : ∀ c, l.head? = some c → p c = false) : l.dropWhile p = l := by
  cases l with
  | nil => rfl
  | cons c cs => simp [List.dropWhile, h c (by simp)]

theorem head_dropWhile (p : Char → Bool) (l : Str) (c : Char)
    (h : (l.dropWhile p).head? = some c) : p c = false := by
  induction l with
  | nil => simp at h
  | cons a as ih =>
    by_cases ha : p a = true
    · rw [List.dropWhile_cons_of_pos ha] at h
      exact ih h
    · rw [List.dropWhile_cons_of_neg ha] at h
      simp at h
      subst h
      simpa using ha

theorem TrimSpace_of_Trimmed (s : Str) (h : Trimmed s) : TrimSpace s = s := by
  unfold TrimSpace
  rw [dropWhile_eq_self_of_head isSpace s h.1,
    dropWhile_eq_self_of_head isSpace s.reverse (by simpa using h.2)]
  simp

theorem Trimmed_TrimSpace (s : Str) : Trimmed (TrimSpace s) := by
  unfold TrimSpace
  constructor
  · intro c hc
    rw [List.head?_reverse] at hc
    obtain ⟨t, ht⟩ := List.dropWhile_suffix isSpace (l := (s.dropWhile isSpace).reverse)
    have hne : List.dropWhile isSpace (s.dropWhile isSpace).reverse ≠ [] := by
      intro e; rw [e] at hc; simp at hc
    have h2 : (s.dropWhile isSpace).reverse.getLast? = some c := by
      rw [← ht, List.getLast?_append_of_ne_nil _ hne]; exact hc
    rw [List.getLast?_reverse] at h2
    exact head_dropWhile isSpace s c h2
  · intro c hc
    rw [List.getLast?_reverse] at hc
    exact head_dropWhile isSpace _ c hc

theorem TrimSpace_idem (s : Str) : TrimSpace (TrimSpace s) = TrimSpace s :=
  TrimSpace_of_Trimmed _ (Trimmed_TrimSpace s)

theorem mem_of_mem_TrimSpace (s : Str) (c : Char) (h : c ∈ TrimSpace s) : c ∈ s := by
  unfold TrimSpace at h
  rw [List.mem_reverse] at h
  have h1 := (List.dropWhile_suffix isSpace).subset h
  rw [List.mem_reverse] at h1
  exact (List.dropWhile_suffix isSpace).subset h1

/-! ## `ParseRedisInstance` -/

/-- The result of `ParseRedisInstance` in terms of the trimmed text and the number of its
colons. -/
theorem ParseRedisInstance_eq (s : Str) :
    ParseRedisInstance s =
      if TrimSpace s = [] then (RedisInstance.zero, some .emptyInstance)
      else if (TrimSpace s).count ':' = 0 then (⟨TrimSpace s, "6379".toList⟩, none)
      else if (TrimSpace s).count ':' = 1 then
        (⟨TrimSpace ((TrimSpace s).takeWhile (fun c => c ≠ ':')),
          TrimSpace ((TrimSpace s).dropWhile (fun c => c ≠ ':')).tail⟩, none)
      else (RedisInstance.zero,
        some (.tooManyComponents (TrimSpace s) ((Split ':' (TrimSpace s)).drop 2))) := by
  unfold ParseRedisInstance
  simp only
  have htr := Trimmed_TrimSpace s
  generalize TrimSpace s = t at htr ⊢
  by_cases ht : t = []
  · simp [ht]
  · rw [if_neg ht, if_neg ht]
    rw [Split_eq_takeWhile ':' t]
    by_cases h0 : t.count ':' = 0
    · rw [if_pos h0]
      have hmem : ':' ∉ t := List.count_eq_zero.1 h0
      have hall : ∀ c ∈ t, (fun c => decide (c ≠ ':')) c = true := by
        intro c hc
        have : c ≠ ':' := fun e => hmem (by rw [← e]; exact hc)
        simpa using this
      rw [List.takeWhile_eq_self_iff.2 hall, List.dropWhile_eq_nil_iff.2 hall]
      simp only
      rw [TrimSpace_of_Trimmed t htr]
    · rw [if_neg h0]
      have hsplit : t = t.takeWhile (fun c => c ≠ ':') ++ t.dropWhile (fun c => c ≠ ':') :=
        (List.takeWhile_append_dropWhile _ t).symm
      have hnc : ':' ∉ t.takeWhile (fun c => decide (c ≠ ':')) := by
        intro hm
        have := List.mem_takeWhile_imp hm
        simp at this
      cases hd : t.dropWhile (fun c => decide (c ≠ ':')) with
      | nil =>
        exfalso
        apply h0
        rw [hd, List.append_nil] at hsplit
        rw [hsplit]
        exact List.count_eq_zero.2 hnc
      | cons a r =>
        have ha : a = ':' := by
          have := head_dropWhile (fun c => decide (c ≠ ':')) t a (by rw [hd]; simp)
          simpa using this
        subst ha
        have hcount : t.count ':' = r.count ':' + 1 := by
          conv_lhs => rw [hsplit, hd]
          rw [List.count_append, List.count_eq_zero.2 hnc]
          simp
        simp only [List.tail_cons]
        by_cases h1 : t.count ':' = 1
        · rw [if_pos h1]
          have hr : ':' ∉ r := List.count_eq_zero.1 (by omega)
          rw [Split_of_not_mem ':' r hr]
        · rw [if_neg h1]
          have hlen := length_Split ':' r
          have hr2 : 2 ≤ (Split ':' r).length := by omega
          cases hs : Split ':' r with
          | nil => rw [hs] at hr2; simp at hr2
          | cons x xs =>
            cases xs with
            | nil => rw [hs] at hr2; simp at hr2
            | cons y ys => simp

/-- Claim C7. `ParseRedisInstance` by cases on the trimmed text: empty, the parse fails with
the empty-input error; no colon, the host is the trimmed text and the port is `6379`; one
colon, host and port are the trimmed parts before and after it; two colons or more, the
parse fails with the too-many-components error. In particular `redis-0` gives
`redis-0` and `6379`, `redis-0:7000` gives `redis-0` and `7000`, and `a:b:c` fails. -/
theorem C7_ParseRedisInstance_cases :
    (∀ s : Str, ParseRedisInstance s =
      if TrimSpace s = [] then (RedisInstance.zero, some .emptyInstance)
      else if (TrimSpace s).count ':' = 0 then (⟨TrimSpace s, "6379".toList⟩, none)
      else if (TrimSpace s).count ':' = 1 then
        (⟨TrimSpace ((TrimSpace s).takeWhile (fun c => c ≠ ':')),
          TrimSpace ((TrimSpace s).dropWhile (fun c => c ≠ ':')).tail⟩, none)
      else (RedisInstance.zero,
        some (.tooManyComponents (TrimSpace s) ((Split ':' (TrimSpace s)).drop 2)))) ∧
    ParseRedisInstance "redis-0".toList = (⟨"redis-0".toList, "6379".toList⟩, none) ∧
    ParseRedisInstance "redis-0:7000".toList = (⟨"redis-0".toList, "7000".toList⟩, none) ∧
    ParseRedisInstance "a:b:c".toList =
      (RedisInstance.zero, some (.tooManyComponents "a:b:c".toList ["c".toList])) :=
  ⟨ParseRedisInstance_eq, by decide, by decide, by decide⟩

/-! ## `ParseMasterGroup` and `MasterGroup.String` -/

theorem isSpace_colon : isSpace ':' = false := by decide

theorem Trimmed_instance (h p : Str) (hh : Trimmed h) (hp : Trimmed p) :
    Trimmed (h ++ ':' :: p) := by
  constructor
  · intro c hc
    cases h with
    | nil => simp at hc; subst hc; exact isSpace_colon
    | cons a as => exact hh.1 c (by simpa using hc)
  · intro c hc
    rw [List.getLast?_append_of_ne_nil _ (by simp)] at hc
    cases p with
    | nil => simp at hc; subst hc; exact isSpace_colon
    | cons a as =>
      rw [List.getLast?_cons_cons] at hc
      exact hp.2 c hc

/-- What a successful `ParseRedisInstance` returns: host and port are trimmed and free of
colons, and their characters come from the input (the default port apart). -/
theorem ParseRedisInstance_ok (p : Str) (r : RedisInstance)
    (h : ParseRedisInstance p = (r, none)) :
    Trimmed r.Hostname ∧ Trimmed r.Port ∧ ':' ∉ r.Hostname ∧ ':' ∉ r.Port ∧
      (∀ c ∈ r.Hostname, c ∈ p) ∧ (∀ c ∈ r.Port, c ∈ p ∨ isDigit c = true) := by
  rw [ParseRedisInstance_eq] at h
  split at h
  · simp at h
  · split at h
    · rename_i h0
      injection h with h1 _
      subst h1
      have hport : ':' ∉ "6379".toList := by decide
      refine ⟨Trimmed_TrimSpace p, ?_, List.count_eq_zero.1 h0, hport,
        fun c hc => mem_of_mem_TrimSpace p c hc, ?_⟩
      · constructor <;> intro c hc <;> simp at hc <;> subst hc <;> decide
      · intro c hc
        right
        simp at hc
        rcases hc with rfl | rfl | rfl | rfl <;> decide
    · split at h
      · rename_i h0 h1
        injection h with h2 _
        subst h2
        have hsplit : TrimSpace p = (TrimSpace p).takeWhile (fun c => c ≠ ':') ++
            (TrimSpace p).dropWhile (fun c => c ≠ ':') :=
          (List.takeWhile_append_dropWhile _ _).symm
        have hnc : ':' ∉ (TrimSpace p).takeWhile (fun c => decide (c ≠ ':')) := by
          intro hm
          have := List.mem_takeWhile_imp hm
          simp at this
        have hnc2 : ':' ∉ ((TrimSpace p).dropWhile (fun c => decide (c ≠ ':'))).tail := by
          intro hm
          have hc1 : (TrimSpace p).count ':' =
              ((TrimSpace p).dropWhile (fun c => decide (c ≠ ':'))).count ':' := by
            conv_lhs => rw [hsplit]
            rw [List.count_append, List.count_eq_zero.2 hnc]
            simp
          cases hd : (TrimSpace p).dropWhile (fun c => decide (c ≠ ':')) with
          | nil => rw [hd] at hm; simp at hm
          | cons a r =>
            have ha : a = ':' := by
              have := head_dropWhile (fun c => decide (c ≠ ':')) (TrimSpace p) a
                (by rw [hd]; simp)
              simpa using this
            subst ha
            rw [hd] at hm hc1
            simp only [List.tail_cons] at hm
            have : 0 < r.count ':' := List.count_pos_iff.2 hm
            simp at hc1
            omega
        refine ⟨Trimmed_TrimSpace _, Trimmed_TrimSpace _,
          fun hm => hnc (mem_of_mem_TrimSpace _ _ hm),
          fun hm => hnc2 (mem_of_mem_TrimSpace _ _ hm), ?_, ?_⟩
        · intro c hc
          exact mem_of_mem_TrimSpace p c
            ((List.takeWhile_prefix _).subset (mem_of_mem_TrimSpace _ _ hc))
        · intro c hc
          left
          exact mem_of_mem_TrimSpace p c
            ((List.dropWhile_suffix _).subset (List.mem_of_mem_tail (mem_of_mem_TrimSpace _ _ hc)))
      · simp at h

/-- An instance with trimmed, colon-free host and port is read back from its text. -/
theorem ParseRedisInstance_String (r : RedisInstance) (hh : Trimmed r.Hostname)
    (hp : Trimmed r.Port) (hch : ':' ∉ r.Hostname) (hcp : ':' ∉ r.Port) :
    ParseRedisInstance r.String = (r, none) := by
  rw [ParseRedisInstance_eq]
  unfold RedisInstance.String
  rw [TrimSpace_of_Trimmed _ (Trimmed_instance _ _ hh hp)]
  have hall : ∀ c ∈ r.Hostname, (fun c => decide (c ≠ ':')) c = true := by
    intro c hc
    have : c ≠ ':' := fun e => hch (by rw [← e]; exact hc)
    simpa using this
  have htw : (r.Hostname ++ ':' :: r.Port).takeWhile (fun c => decide (c ≠ ':')) = r.Hostname := by
    rw [List.takeWhile_append_of_pos hall]
    simp
  have hdw : (r.Hostname ++ ':' :: r.Port).dropWhile (fun c => decide (c ≠ ':')) = ':' :: r.Port := by
    rw [List.dropWhile_append_of_pos hall]
    simp
  have hcount : (r.Hostname ++ ':' :: r.Port).count ':' = 1 := by
    rw [List.count_append, List.count_eq_zero.2 hch, List.count_cons_self,
      List.count_eq_zero.2 hcp]
  rw [if_neg (by simp), if_neg (by omega), if_pos hcount, htw, hdw]
  simp only [List.tail_cons]
  rw [TrimSpace_of_Trimmed _ hh, TrimSpace_of_Trimmed _ hp]

/-- A successful loop of `ParseMasterGroup` appends the instance of each part. -/
theorem ParseMasterGroup_loop_ok (parts : List Str) (i : Nat) (acc g : MasterGroup)
    (h : ParseMasterGroup.loop parts i acc = (g, none)) :
    ∃ rs, g = acc ++ rs ∧ List.Forall₂ (fun p r => ParseRedisInstance p = (r, none)) parts rs := by
  induction parts generalizing i acc with
  | nil =>
    simp [ParseMasterGroup.loop] at h
    exact ⟨[], by simp [h], List.Forall₂.nil⟩
  | cons p ps ih =>
    rw [ParseMasterGroup.loop] at h
    split at h
    · simp at h
    · rename_i r hr
      obtain ⟨rs, hg, hrs⟩ := ih _ _ h
      exact ⟨r :: rs, by simp [hg], List.Forall₂.cons hr hrs⟩

theorem ParseMasterGroup_loop_of_forall (parts : List Str) (i : Nat) (acc rs : MasterGroup)
    (h : List.Forall₂ (fun p r => ParseRedisInstance p = (r, none)) parts rs) :
    ParseMasterGroup.loop parts i acc = (acc ++ rs, none) := by
  induction h generalizing i acc with
  | nil => simp [ParseMasterGroup.loop]
  | cons hr _ ih =>
    rw [ParseMasterGroup.loop, hr]
    simp only
    rw [ih]
    simp

theorem Forall₂_exists_left {α β : Type} (R : α → β → Prop) (l1 : List α) (l2 : List β)
    (h : List.Forall₂ R l1 l2) (b : β) (hb : b ∈ l2) : ∃ a ∈ l1, R a b := by
  induction h with
  | nil => simp at hb
  | cons hr _ ih =>
    rcases List.mem_cons.1 hb with rfl | hb
    · exact ⟨_, by simp, hr⟩
    · obtain ⟨a, ha, hab⟩ := ih hb
      exact ⟨a, by simp [ha], hab⟩

theorem Trimmed_Join (sep : Char) (l : List Str)
    (h : ∀ p ∈ l, Trimmed p ∧ p ≠ []) (hne : l ≠ []) :
    Trimmed (Join [sep] l) ∧ Join [sep] l ≠ [] := by
  induction l with
  | nil => exact absurd rfl hne
  | cons p ps ih =>
    cases ps with
    | nil => simpa [Join] using h p (by simp)
    | cons q qs =>
      obtain ⟨ht, hn⟩ := ih (fun x hx => h x (by simp [hx])) (by simp)
      obtain ⟨hpt, hpn⟩ := h p (by simp)
      simp only [Join, List.append_assoc, List.singleton_append]
      refine ⟨⟨?_, ?_⟩, by simp [hpn]⟩
      · intro c hc
        apply hpt.1 c
        cases p with
        | nil => exact absurd rfl hpn
        | cons a as => simpa using hc
      · intro c hc
        rw [List.getLast?_append_of_ne_nil _ (by simp)] at hc
        cases hj : Join [sep] (q :: qs) with
        | nil => exact absurd hj hn
        | cons a as =>
          rw [hj, List.getLast?_cons_cons] at hc
          rw [hj] at ht
          exact ht.2 c hc

/-- Claim C8. EndpointGroup round trip: a group returned by a successful `ParseMasterGroup`
is returned again, unchanged, by `ParseMasterGroup` applied to its `String`. The empty
group formats to the empty text, which parses to the empty group. -/
theorem C8_MasterGroup_round_trip :
    (∀ (t : Str) (g : MasterGroup), ParseMasterGroup t = (g, none) →
      ParseMasterGroup (MasterGroup.String g) = (g, none)) ∧
    MasterGroup.String [] = [] ∧ ParseMasterGroup [] = ([], none) := by
  refine ⟨?_, by decide, by decide⟩
  intro t g h
  unfold ParseMasterGroup at h
  simp only at h
  split at h
  · injection h with h1 _
    subst h1
    decide
  · obtain ⟨rs, hg, hrs⟩ := ParseMasterGroup_loop_ok _ _ _ _ h
    simp only [List.nil_append] at hg
    subst hg
    have hnec : Split ',' (TrimSpace t) ≠ [] := Split_ne_nil _ _
    have hgne : g ≠ [] := by
      intro e
      rw [e] at hrs
      exact hnec (List.length_eq_zero.1 (by simpa using hrs.length_eq))
    -- facts about every member
    have hmem : ∀ r ∈ g, Trimmed r.Hostname ∧ Trimmed r.Port ∧ ':' ∉ r.Hostname ∧
        ':' ∉ r.Port ∧ ',' ∉ r.String := by
      intro r hr
      obtain ⟨p, hp, hpr⟩ := Forall₂_exists_left _ _ _ hrs r hr
      obtain ⟨h1, h2, h3, h4, h5, h6⟩ := ParseRedisInstance_ok p r hpr
      have hcomma : ',' ∉ p := not_mem_of_mem_Split ',' _ p hp
      refine ⟨h1, h2, h3, h4, ?_⟩
      unfold RedisInstance.String
      simp only [List.mem_append, List.mem_cons, not_or]
      refine ⟨fun hm => hcomma (h5 _ hm), by decide, ?_⟩
      intro hm
      rcases h6 _ hm with h7 | h7
      · exact hcomma h7
      · exact absurd h7 (by decide)
    have hstr : ∀ s ∈ g.map RedisInstance.String, Trimmed s ∧ s ≠ [] := by
      intro s hs
      obtain ⟨r, hr, rfl⟩ := List.mem_map.1 hs
      obtain ⟨h1, h2, _, _, _⟩ := hmem r hr
      exact ⟨Trimmed_instance _ _ h1 h2, by simp [RedisInstance.String]⟩
    obtain ⟨hT, hN⟩ := Trimmed_Join ',' _ hstr (by simpa using hgne)
    unfold ParseMasterGroup MasterGroup.String
    simp only
    rw [TrimSpace_of_Trimmed _ hT, if_neg hN,
      Split_Join ',' _ (by simpa using hgne)
        (fun s hs => by
          obtain ⟨r, hr, rfl⟩ := List.mem_map.1 hs
          exact (hmem r hr).2.2.2.2)]
    have hback : List.Forall₂ (fun p r => ParseRedisInstance p = (r, none))
        (g.map RedisInstance.String) g := by
      rw [List.forall₂_map_left_iff]
      apply List.forall₂_same.2
      intro r hr
      obtain ⟨h1, h2, h3, h4, _⟩ := hmem r hr
      exact ParseRedisInstance_String r h1 h2 h3 h4
    rw [ParseMasterGroup_loop_of_forall _ 0 [] g hback]
    simp

/-- Witness of claim C8 at the text `a:1, b`. -/
theorem C8_MasterGroup_round_trip_witness :
    ParseMasterGroup "a:1, b".toList =
        ([⟨"a".toList, "1".toList⟩, ⟨"b".toList, "6379".toList⟩], none) ∧
      ParseMasterGroup (MasterGroup.String [⟨"a".toList, "1".toList⟩, ⟨"b".toList, "6379".toList⟩]) =
        ([⟨"a".toList, "1".toList⟩, ⟨"b".toList, "6379".toList⟩], none) :=
  ⟨by decide, C8_MasterGroup_round_trip.1 "a:1, b".toList _ (by decide)⟩

/-! ## The end-to-end scenario -/

set_option maxRecDepth 100000 in
/-- Claim C6. End-to-end scenario: `ParseClusterNode` on the example line succeeds with the
node of identifier `07c3...`, address `127.0.0.1`, port `30004`, cluster port `31004`, flag
set `{slave}`, master `e7d1...`, ping `0`, pong `1426238317239`, epoch `4`, link state
`connected` and no slots; and `ClusterNode.String` of that node is the line again. -/
theorem C6_end_to_end :
    ParseClusterNode exampleLine =
      (⟨"07c37dfeb235213a872192d90877d0cd55635b91".toList,
        ⟨some ⟨127, 0, 0, 1⟩, "30004".toList, "31004".toList⟩,
        {FlagSlave},
        "e7d1eecce10fd6bb5eb35b9f99a514335d9ba9ca".toList,
        0, 1426238317239, 4, "connected".toList, []⟩, none) ∧
    (ParseClusterNode exampleLine).1 = exampleNode ∧
    ClusterNode.String (ParseClusterNode exampleLine).1 = exampleLine := by
  decide

/-! ## `ClusterNodes.Self` on nodes with the empty identifier -/

/-- Claim C3, the code at the failing input: the list parsed from
` :1 myself - 0 0 0 connected` has exactly one node and that node carries `myself`, and
`Self` returns the error of the missing `myself` node. -/
theorem C3_Self_empty_id :
    ParseClusterNodes " :1 myself - 0 0 0 connected".toList = ([anonymousSelf], none) ∧
    FlagMyself ∈ anonymousSelf.Flags ∧
    ClusterNodes.Self [anonymousSelf] = (anonymousSelf, some .noSelf) := by
  decide

/-- Claim C4, the code at the failing input: the list parsed from the two lines
` :1 myself - 0 0 0 connected` and `b :2 myself - 0 0 0 connected` has two nodes that carry
`myself`, and `Self` returns the second one without an error. -/
theorem C4_Self_two_selves :
    ParseClusterNodes " :1 myself - 0 0 0 connected\nb :2 myself - 0 0 0 connected".toList =
      ([anonymousSelf, namedSelf], none) ∧
    FlagMyself ∈ anonymousSelf.Flags ∧ FlagMyself ∈ namedSelf.Flags ∧
    ClusterNodes.Self [anonymousSelf, namedSelf] = (namedSelf, none) := by
  decide

/-! ## `ParseHashSlots` on a range -/

/-- Claim C1, the code at the failing input: `[1, 2, 3]` formats to `1-3`, which
`ParseHashSlots` reads as the two slots `1` and `3`; parsing every token of the text,
concatenating and sorting gives `[1, 3]`. -/
theorem C1_range_not_expanded :
    HashSlots.String [1, 2, 3] = "1-3".toList ∧
    ParseHashSlots "1-3".toList = ([1, 3], none) ∧
    sortInts (((Split ' ' (HashSlots.String [1, 2, 3])).map
      (fun token => (ParseHashSlots token).1)).flatten) = [1, 3] := by
  decide

/-! ## The order of Go strings -/

theorem Char_eq_of_toNat_eq (a b : Char) (h : a.toNat = b.toNat) : a = b := by
  apply Char.ext
  apply UInt32.ext
  exact h

theorem strLt_asymm (a b : Str) (h : strLt a b = true) : strLt b a = false := by
  induction a generalizing b with
  | nil =>
    cases b with
    | nil => rfl
    | cons y ys => rfl
  | cons x xs ih =>
    cases b with
    | nil => simp [strLt] at h
    | cons y ys =>
      simp only [strLt] at h ⊢
      by_cases h1 : x.toNat < y.toNat
      · rw [if_neg (by omega), if_pos h1]
      · rw [if_neg h1] at h
        by_cases h2 : y.toNat < x.toNat
        · rw [if_pos h2] at h; simp at h
        · rw [if_neg h2] at h
          rw [if_neg h2, if_neg h1]
          exact ih ys h

theorem strLt_trichotomy (a b : Str) (h1 : strLt a b = false) (h2 : strLt b a = false) :
    a = b := by
  induction a generalizing b with
  | nil =>
    cases b with
    | nil => rfl
    | cons y ys => simp [strLt] at h1
  | cons x xs ih =>
    cases b with
    | nil => simp [strLt] at h2
    | cons y ys =>
      simp only [strLt] at h1 h2
      by_cases hxy : x.toNat < y.toNat
      · rw [if_pos hxy] at h1; simp at h1
      · rw [if_neg hxy] at h1
        by_cases hyx : y.toNat < x.toNat
        · rw [if_pos hyx] at h2; simp at h2
        · rw [if_neg hyx] at h1 h2
          rw [if_neg hxy] at h2
          have hc : x = y := Char_eq_of_toNat_eq x y (by omega)
          rw [hc, ih ys h1 h2]

/-- If `c < a` then `b < a` or `c < b`: the order `≤` of strings is transitive. -/
theorem strLt_cotrans (a b c : Str) (h : strLt c a = true) :
    strLt b a = true ∨ strLt c b = true := by
  induction a generalizing b c with
  | nil => simp [strLt] at h
  | cons x xs ih =>
    cases b with
    | nil =>
      left
      rfl
    | cons y ys =>
      cases c with
      | nil => right; rfl
      | cons z zs =>
        simp only [strLt] at h ⊢
        by_cases hzx : z.toNat < x.toNat
        · by_cases hyx : y.toNat < x.toNat
          · left; rw [if_pos hyx]
          · right
            rw [if_pos (by omega)]
        · rw [if_neg hzx] at h
          by_cases hxz : x.toNat < z.toNat
          · rw [if_pos hxz] at h; simp at h
          · rw [if_neg hxz] at h
            by_cases hyx : y.toNat < x.toNat
            · left; rw [if_pos hyx]
            · by_cases hxy : x.toNat < y.toNat
              · right; rw [if_pos (by omega)]
              · rw [if_neg hyx, if_neg hxy, if_neg (by omega), if_neg (by omega)]
                exact ih ys zs h

theorem strLe_isTotal : IsTotal Str (fun a b => strLe a b = true) :=
  ⟨fun a b => by
    unfold strLe
    by_cases h : strLt b a = true
    · right; rw [strLt_asymm b a h]; rfl
    · left; simpa using h⟩

theorem strLe_isTrans : IsTrans Str (fun a b => strLe a b = true) :=
  ⟨fun a b c hab hbc => by
    unfold strLe at hab hbc ⊢
    by_contra hcon
    have hca : strLt c a = true := by simpa using hcon
    rcases strLt_cotrans a b c hca with h | h
    · rw [h] at hab; simp at hab
    · rw [h] at hbc; simp at hbc⟩

theorem strLe_isAntisymm : IsAntisymm Str (fun a b => strLe a b = true) :=
  ⟨fun a b hab hba => by
    unfold strLe at hab hba
    exact strLt_trichotomy a b (by simpa using hba) (by simpa using hab)⟩

/-- What `sort.Strings` returns is in ascending order. -/
theorem sortStrings_sorted (l : List Str) :
    (sortStrings l).Sorted (fun a b => strLe a b = true) := by
  haveI := strLe_isTotal
  haveI := strLe_isTrans
  exact List.sorted_insertionSort _ l

/-- What `sort.Strings` returns is a rearrangement of its argument. -/
theorem sortStrings_perm (l : List Str) : (sortStrings l).Perm l :=
  List.perm_insertionSort _ l

/-- Two lists of the same strings, sorted by `sort.Strings`, are equal: the result of the
sort does not depend on the order in which the strings were collected. -/
theorem sortStrings_eq_of_perm (l1 l2 : List Str) (h : l1.Perm l2) :
    sortStrings l1 = sortStrings l2 := by
  haveI := strLe_isAntisymm
  exact List.eq_of_perm_of_sorted
    ((sortStrings_perm l1).trans (h.trans (sortStrings_perm l2).symm))
    (sortStrings_sorted l1) (sortStrings_sorted l2)

/-! ## Flag sets -/

theorem flagOfName_name (flag : ClusterNodeFlag) : flagOfName flag.name = some flag := by
  cases flag <;> decide

theorem name_ne_noflags (flag : ClusterNodeFlag) : flag.name ≠ flagNoFlags := by
  cases flag <;> decide

theorem comma_not_mem_name (flag : ClusterNodeFlag) : ',' ∉ flag.name := by
  cases flag <;> decide

theorem space_not_mem_name (flag : ClusterNodeFlag) : ' ' ∉ flag.name := by
  cases flag <;> decide

theorem newline_not_mem_name (flag : ClusterNodeFlag) : '\n' ∉ flag.name := by
  cases flag <;> decide

theorem mem_Join (sep : Str) (l : List Str) (c : Char) (h : c ∈ Join sep l) :
    c ∈ sep ∨ ∃ p ∈ l, c ∈ p := by
  induction l with
  | nil => simp [Join] at h
  | cons p ps ih =>
    cases ps with
    | nil => exact Or.inr ⟨p, by simp, by simpa [Join] using h⟩
    | cons q qs =>
      simp only [Join, List.append_assoc, List.mem_append] at h
      rcases h with h | h | h
      · exact Or.inr ⟨p, by simp, h⟩
      · exact Or.inl h
      · rcases ih h with h | ⟨x, hx, hc⟩
        · exact Or.inl h
        · exact Or.inr ⟨x, by simp [hx], hc⟩

theorem mem_allFlags (flag : ClusterNodeFlag) : flag ∈ allFlags := by
  cases flag <;> decide

theorem name_of_flagOfName (part : Str) (flag : ClusterNodeFlag)
    (h : flagOfName part = some flag) : part = flag.name := by
  unfold flagOfName at h
  repeat' split at h
  all_goals first
    | (injection h with h; subst h; assumption)
    | simp at h

theorem mem_flagsByName (flag : ClusterNodeFlag) : flag ∈ flagsByName := by
  cases flag <;> decide

theorem name_injective (a b : ClusterNodeFlag) (h : a.name = b.name) : a = b := by
  have ha := flagOfName_name a
  rw [h, flagOfName_name] at ha
  injection ha with ha
  exact ha.symm

theorem allFlags_nodup : allFlags.Nodup := by decide

/-- The flags in the order of their declaration and in the order of their names are the
same flags. -/
theorem allFlags_perm_flagsByName : allFlags.Perm flagsByName := by decide

/-- The names of the seven flags, in the order of `flagsByName`, are strictly ascending. -/
theorem flagsByName_names_sorted :
    (flagsByName.map ClusterNodeFlag.name).Pairwise
      (fun a b => strLt a b = true ∧ strLe a b = true) := by
  decide

/-- The names of the flags of a set, taken in the order of `flagsByName`. -/
theorem names_pairwise (f : ClusterNodeFlags) :
    ((flagsByName.filter (fun flag => flag ∈ f)).map ClusterNodeFlag.name).Pairwise
      (fun a b => strLt a b = true ∧ strLe a b = true) :=
  List.Pairwise.sublist (List.Sublist.map _ (List.filter_sublist _)) flagsByName_names_sorted

/-- What `sort.Strings` makes of the names that `String` collects: the names of the flags
of the set in ascending order. -/
theorem sortStrings_names (f : ClusterNodeFlags) :
    sortStrings ((allFlags.filter (fun flag => flag ∈ f)).map ClusterNodeFlag.name) =
      (flagsByName.filter (fun flag => flag ∈ f)).map ClusterNodeFlag.name := by
  rw [sortStrings_eq_of_perm _ _ ((allFlags_perm_flagsByName.filter _).map _)]
  unfold sortStrings
  apply List.Sorted.insertionSort_eq
  exact (names_pairwise f).imp (fun h => h.2)

/-- The text of a non-empty flag set, as the method computes it: the collected names,
sorted by `sort.Strings` and joined by commas. -/
theorem String_eq_sort (f : ClusterNodeFlags) (h : f ≠ ∅) :
    f.String = Join [',']
      (sortStrings ((allFlags.filter (fun flag => flag ∈ f)).map ClusterNodeFlag.name)) := by
  unfold ClusterNodeFlags.String
  rw [if_neg (by simpa using h)]

/-- The text of a non-empty flag set: the names of its flags in ascending order, joined
by commas. -/
theorem String_of_ne_empty (f : ClusterNodeFlags) (h : f ≠ ∅) :
    f.String =
      Join [','] ((flagsByName.filter (fun flag => flag ∈ f)).map ClusterNodeFlag.name) := by
  rw [String_eq_sort f h, sortStrings_names]

/-- The text of a flag set does not depend on the order in which the map is ranged over:
for every list `keys` of the flags of the set, each once, sorting and joining the names
of `keys` gives `String`. -/
theorem String_range_order (f : ClusterNodeFlags) (h : f ≠ ∅) (keys : List ClusterNodeFlag)
    (hnodup : keys.Nodup) (hkeys : ∀ flag, flag ∈ keys ↔ flag ∈ f) :
    Join [','] (sortStrings (keys.map ClusterNodeFlag.name)) = f.String := by
  rw [String_eq_sort f h]
  congr 1
  apply sortStrings_eq_of_perm
  apply List.Perm.map
  apply (List.perm_ext_iff_of_nodup hnodup (allFlags_nodup.filter _)).2
  intro flag
  rw [hkeys, List.mem_filter]
  simp [mem_allFlags]

theorem names_ne_nil (f : ClusterNodeFlags) (h : f ≠ ∅) :
    (flagsByName.filter (fun flag => flag ∈ f)).map ClusterNodeFlag.name ≠ [] := by
  obtain ⟨x, hx⟩ := Finset.nonempty_iff_ne_empty.2 h
  intro e
  have : x.name ∈ (flagsByName.filter (fun flag => flag ∈ f)).map ClusterNodeFlag.name :=
    List.mem_map.2 ⟨x, List.mem_filter.2 ⟨mem_flagsByName x, by simpa using hx⟩, rfl⟩
  rw [e] at this
  simp at this

theorem Split_String_of_ne_empty (f : ClusterNodeFlags) (h : f ≠ ∅) :
    Split ',' f.String =
      (flagsByName.filter (fun flag => flag ∈ f)).map ClusterNodeFlag.name := by
  rw [String_of_ne_empty f h]
  apply Split_Join ',' _ (names_ne_nil f h)
  intro p hp
  obtain ⟨x, _, rfl⟩ := List.mem_map.1 hp
  exact comma_not_mem_name x

theorem String_ne_noflags (f : ClusterNodeFlags) (h : f ≠ ∅) : f.String ≠ flagNoFlags := by
  intro e
  have h1 := Split_String_of_ne_empty f h
  rw [e] at h1
  have h2 : Split ',' flagNoFlags = [flagNoFlags] := by decide
  rw [h2] at h1
  have : flagNoFlags ∈ (flagsByName.filter (fun flag => flag ∈ f)).map ClusterNodeFlag.name := by
    rw [← h1]; simp
  obtain ⟨x, _, hx⟩ := List.mem_map.1 this
  exact name_ne_noflags x hx

theorem strLt_irrefl (a : Str) : strLt a a = false := by
  induction a with
  | nil => rfl
  | cons c cs ih => simp [strLt, ih]

/-- Claim C9. NodeFlagSet sentinel law: `noflags` parses to the empty set; the empty set
formats to `noflags`; a non-empty set formats to the names of its flags, each once, joined
by commas in strictly ascending lexicographic order (hence without a repeated name), and
never formats to `noflags`. -/
theorem C9_sentinel_law :
    ParseClusterNodeFlags flagNoFlags = (∅, none) ∧
    ClusterNodeFlags.String ∅ = "noflags".toList ∧
    (∀ f : ClusterNodeFlags, f ≠ ∅ →
      ∃ names : List Str, f.String = Join [','] names ∧
        names.Pairwise (fun a b => strLt a b = true) ∧ names.Nodup ∧
        (∀ x, x ∈ names ↔ ∃ flag ∈ f, ClusterNodeFlag.name flag = x) ∧
        f.String ≠ "noflags".toList) := by
  refine ⟨by decide, by decide, ?_⟩
  intro f hf
  -- the names are what `sort.Strings` returns for the collected names
  have hperm := sortStrings_perm ((allFlags.filter (fun flag => flag ∈ f)).map ClusterNodeFlag.name)
  have hsorted :=
    sortStrings_sorted ((allFlags.filter (fun flag => flag ∈ f)).map ClusterNodeFlag.name)
  have hnodup :
      (sortStrings ((allFlags.filter (fun flag => flag ∈ f)).map ClusterNodeFlag.name)).Nodup :=
    hperm.nodup_iff.2
      ((allFlags_nodup.filter _).map (fun a b hab => name_injective a b hab))
  refine ⟨_, String_eq_sort f hf, ?_, hnodup, ?_, String_ne_noflags f hf⟩
  · refine (List.Pairwise.and hsorted hnodup).imp ?_
    intro a b hab
    obtain ⟨hle, hne⟩ := hab
    by_contra hlt
    unfold strLe at hle
    exact hne (strLt_trichotomy a b (by simpa using hlt) (by simpa using hle))
  · intro x
    rw [hperm.mem_iff]
    constructor
    · intro hx
      obtain ⟨flag, hflag, rfl⟩ := List.mem_map.1 hx
      exact ⟨flag, by simpa using (List.mem_filter.1 hflag).2, rfl⟩
    · rintro ⟨flag, hflag, rfl⟩
      exact List.mem_map.2
        ⟨flag, List.mem_filter.2 ⟨mem_allFlags flag, by simpa using hflag⟩, rfl⟩

/-- Witness of claim C9 at the set of `slave` and `fail`, which formats to `fail,slave`. -/
theorem C9_sentinel_law_witness :
    ({FlagSlave, FlagFail} : ClusterNodeFlags) ≠ ∅ ∧
    ClusterNodeFlags.String {FlagSlave, FlagFail} = "fail,slave".toList ∧
    ∃ names : List Str, ClusterNodeFlags.String {FlagSlave, FlagFail} = Join [','] names ∧
      names.Pairwise (fun a b => strLt a b = true) ∧ names.Nodup ∧
      (∀ x, x ∈ names ↔ ∃ flag ∈ ({FlagSlave, FlagFail} : ClusterNodeFlags),
        ClusterNodeFlag.name flag = x) ∧
      ClusterNodeFlags.String {FlagSlave, FlagFail} ≠ "noflags".toList :=
  ⟨by decide, by decide, C9_sentinel_law.2.2 {FlagSlave, FlagFail} (by decide)⟩

/-- The loop of `ParseClusterNodeFlags` runs through a prefix of recognised names. -/
theorem ParseClusterNodeFlags_loop_prefix (pre rest : List Str) (acc : ClusterNodeFlags)
    (h : ∀ p ∈ pre, flagOfName p ≠ none) :
    ParseClusterNodeFlags.loop (pre ++ rest) acc =
      ParseClusterNodeFlags.loop rest (pre.foldl (fun a p =>
        match flagOfName p with
        | some flag => insert flag a
        | none => a) acc) := by
  induction pre generalizing acc with
  | nil => rfl
  | cons p ps ih =>
    have hp := h p (by simp)
    cases hf : flagOfName p with
    | none => exact absurd hf hp
    | some flag =>
      rw [List.cons_append, ParseClusterNodeFlags.loop, hf]
      simp only [List.foldl_cons, hf]
      exact ih _ (fun q hq => h q (by simp [hq]))

/-- Claim C10, as the code has it: when the first token that is not one of the seven flag
names is not the sentinel `noflags` either, `ParseClusterNodeFlags` fails with the
unrecognised-flag error for that token. -/
theorem C10_unknown_flag_rejected (s : Str) (pre post : List Str) (token : Str)
    (hsplit : Split ',' s = pre ++ token :: post)
    (hpre : ∀ p ∈ pre, flagOfName p ≠ none)
    (hunknown : flagOfName token = none) (hsentinel : token ≠ flagNoFlags) :
    (ParseClusterNodeFlags s).2 = some (.unrecognizedFlag token) := by
  unfold ParseClusterNodeFlags
  rw [hsplit, ParseClusterNodeFlags_loop_prefix pre _ _ hpre, ParseClusterNodeFlags.loop, hunknown]
  simp only
  rw [if_neg hsentinel]

/-- Witness of claim C10 at the text `master,bogus,noflags`. -/
theorem C10_unknown_flag_rejected_witness :
    (ParseClusterNodeFlags "master,bogus,noflags".toList).2 =
      some (.unrecognizedFlag "bogus".toList) :=
  C10_unknown_flag_rejected "master,bogus,noflags".toList ["master".toList]
    ["noflags".toList] "bogus".toList (by decide) (by decide) (by decide) (by decide)

/-- Claim C10, the claim as stated fails: the text `noflags,bogus` has the token `bogus`,
which is neither a flag name nor the sentinel, and `ParseClusterNodeFlags` returns the
empty set without an error. -/
theorem C10_unknown_after_sentinel_accepted :
    (∃ token ∈ Split ',' "noflags,bogus".toList,
      flagOfName token = none ∧ token ≠ flagNoFlags) ∧
    ParseClusterNodeFlags "noflags,bogus".toList = (∅, none) := by
  decide

/-- The loop of `ParseClusterNodeFlags` on the names of a list of flags inserts them. -/
theorem ParseClusterNodeFlags_loop_names (l : List ClusterNodeFlag) (acc : ClusterNodeFlags) :
    ParseClusterNodeFlags.loop (l.map ClusterNodeFlag.name) acc =
      (l.foldl (fun a flag => insert flag a) acc, none) := by
  induction l generalizing acc with
  | nil => rfl
  | cons x xs ih =>
    rw [List.map_cons, ParseClusterNodeFlags.loop, flagOfName_name]
    simp only [List.foldl_cons]
    exact ih _

theorem mem_foldl_insert (l : List ClusterNodeFlag) (acc : ClusterNodeFlags)
    (x : ClusterNodeFlag) :
    x ∈ l.foldl (fun a flag => insert flag a) acc ↔ x ∈ acc ∨ x ∈ l := by
  induction l generalizing acc with
  | nil => simp
  | cons y ys ih =>
    simp only [List.foldl_cons, List.mem_cons]
    rw [ih, Finset.mem_insert]
    tauto

/-- Flag-set round trip: the text of a flag set parses to that set. -/
theorem ParseClusterNodeFlags_String (f : ClusterNodeFlags) :
    ParseClusterNodeFlags f.String = (f, none) := by
  by_cases h : f = ∅
  · subst h; decide
  · unfold ParseClusterNodeFlags
    rw [Split_String_of_ne_empty f h, ParseClusterNodeFlags_loop_names]
    congr 1
    ext x
    rw [mem_foldl_insert]
    simp [mem_flagsByName]

/-- The text of a flag set has no space and no newline. -/
theorem String_flags_chars (f : ClusterNodeFlags) : ' ' ∉ f.String ∧ '\n' ∉ f.String := by
  by_cases h : f = ∅
  · subst h; decide
  · rw [String_of_ne_empty f h]
    constructor <;> intro hm <;> rcases mem_Join _ _ _ hm with hm | ⟨p, hp, hm⟩
    · simp at hm
    · obtain ⟨x, _, rfl⟩ := List.mem_map.1 hp
      exact space_not_mem_name x hm
    · simp at hm
    · obtain ⟨x, _, rfl⟩ := List.mem_map.1 hp
      exact newline_not_mem_name x hm

/-! ## `HashSlots.String` -/

theorem wrapInt_succ_eq_iff (x last : Int) (hx : 0 ≤ x ∧ x < 2 ^ 63)
    (hl : 0 ≤ last ∧ last < 2 ^ 63) : x = wrapInt (last + 1) ↔ x = last + 1 := by
  unfold wrapInt
  by_cases h : last + 1 < 2 ^ 63
  · have : (last + 1 + 2 ^ 63) % 2 ^ 64 = last + 1 + 2 ^ 63 :=
      Int.emod_eq_of_lt (by omega) (by omega)
    rw [this]; omega
  · have hl2 : last = 2 ^ 63 - 1 := by omega
    subst hl2
    norm_num
    omega

theorem addSlot_eq (parts : List Str) (b e : Int) :
    HashSlots.addSlot parts b e = parts ++ [formatRun (b, e)] := by
  unfold HashSlots.addSlot formatRun
  by_cases h : b = e <;> simp [h]

/-- The loop of `HashSlots.String` followed by the last `addSlot` writes the maximal runs. -/
theorem HashSlots_loop_runs (rest : List Int) (parts : List Str) (b last : Int)
    (hb : 0 ≤ b) (hl : 0 ≤ last ∧ last < 2 ^ 63) (hrest : ∀ x ∈ rest, 0 ≤ x ∧ x < 2 ^ 63) :
    HashSlots.addSlot (HashSlots.loop rest parts b last).1 (HashSlots.loop rest parts b last).2.1
        (HashSlots.loop rest parts b last).2.2 =
      parts ++ (runsFrom b last rest).map formatRun := by
  induction rest generalizing parts b last with
  | nil => simp [HashSlots.loop, runsFrom, addSlot_eq]
  | cons x xs ih =>
    have hx := hrest x (by simp)
    have hxs : ∀ y ∈ xs, 0 ≤ y ∧ y < 2 ^ 63 := fun y hy => hrest y (by simp [hy])
    rw [HashSlots.loop, if_neg (by omega), runsFrom]
    by_cases h : x = last + 1
    · rw [if_pos ((wrapInt_succ_eq_iff x last hx hl).2 h), if_pos h]
      exact ih parts b x hb hx hxs
    · rw [if_neg (fun e => h ((wrapInt_succ_eq_iff x last hx hl).1 e)), if_neg h]
      rw [ih _ x x hx.1 hx hxs, addSlot_eq]
      simp

theorem HashSlots_String_eq_runs (s : HashSlots) (hs : ∀ x ∈ s, 0 ≤ x ∧ x < 2 ^ 63) :
    HashSlots.String s = Join [' '] ((maximalRuns s).map formatRun) := by
  cases s with
  | nil => simp [HashSlots.String, maximalRuns, Join]
  | cons x xs =>
    have hx := hs x (by simp)
    have hxs : ∀ y ∈ xs, 0 ≤ y ∧ y < 2 ^ 63 := fun y hy => hs y (by simp [hy])
    unfold HashSlots.String
    rw [if_neg (by simp)]
    simp only [maximalRuns]
    have hloop : HashSlots.loop (x :: xs) [] (-1) (-1) = HashSlots.loop xs [] x x := by
      rw [HashSlots.loop, if_pos (by decide)]
    rw [hloop]
    have := HashSlots_loop_runs xs [] x x hx.1 hx hxs
    simp only [List.nil_append] at this
    rw [← this]

theorem consecutive_self (x : Int) : consecutive x x = [x] := by
  simp [consecutive, List.range_succ]

theorem consecutive_succ (b last : Int) (h : b ≤ last) :
    consecutive b (last + 1) = consecutive b last ++ [last + 1] := by
  unfold consecutive
  have h1 : (last + 1 - b + 1).toNat = (last - b + 1).toNat + 1 := by omega
  rw [h1, List.range_succ, List.map_append]
  congr 1
  simp only [List.map_cons, List.map_nil, List.cons.injEq, and_true, Int.ofNat_eq_coe]
  have h2 : ((last - b + 1).toNat : Int) = last - b + 1 := Int.toNat_of_nonneg (by omega)
  rw [h2]
  ring

theorem runsFrom_cover (rest : List Int) (b last : Int) (h : b ≤ last) :
    ((runsFrom b last rest).map (fun r => consecutive r.1 r.2)).flatten =
      consecutive b last ++ rest := by
  induction rest generalizing b last with
  | nil => simp [runsFrom]
  | cons x xs ih =>
    rw [runsFrom]
    by_cases hx : x = last + 1
    · rw [if_pos hx, ih b x (by omega), hx, consecutive_succ b last h]
      simp
    · rw [if_neg hx]
      simp only [List.map_cons, List.flatten_cons]
      rw [ih x x (le_refl x), consecutive_self]
      simp

theorem runsFrom_le (rest : List Int) (b last : Int) (h : b ≤ last) :
    ∀ r ∈ runsFrom b last rest, r.1 ≤ r.2 := by
  induction rest generalizing b last with
  | nil => simp [runsFrom, h]
  | cons x xs ih =>
    rw [runsFrom]
    by_cases hx : x = last + 1
    · rw [if_pos hx]; exact ih b x (by omega)
    · rw [if_neg hx]
      intro r hr
      rcases List.mem_cons.1 hr with rfl | hr
      · exact h
      · exact ih x x (le_refl x) r hr

theorem runsFrom_head (rest : List Int) (b last : Int) :
    ∃ e tl, runsFrom b last rest = (b, e) :: tl := by
  induction rest generalizing b last with
  | nil => exact ⟨last, [], rfl⟩
  | cons x xs ih =>
    rw [runsFrom]
    by_cases hx : x = last + 1
    · rw [if_pos hx]; exact ih b x
    · rw [if_neg hx]; exact ⟨last, _, rfl⟩

theorem runsFrom_maximal (rest : List Int) (b last : Int) :
    (runsFrom b last rest).Chain' (fun r r' => r'.1 ≠ r.2 + 1) := by
  induction rest generalizing b last with
  | nil => simp [runsFrom]
  | cons x xs ih =>
    rw [runsFrom]
    by_cases hx : x = last + 1
    · rw [if_pos hx]; exact ih b x
    · rw [if_neg hx]
      obtain ⟨e, tl, htl⟩ := runsFrom_head xs x x
      have := ih x x
      rw [htl] at this ⊢
      exact List.Chain'.cons hx this

/-- Claim C5. `HashSlots.String` folds maximal contiguous runs: the text of a strictly
ascending sequence of non-negative Go integers (below `2^63`) is the texts of its runs
joined by single spaces, where the runs
are runs of consecutive integers that make up the sequence in order, no run can be
extended by the run that follows it, and a run is written `low-high`, or bare `low` when
it is a singleton. The empty sequence formats to the empty text and `[1,2,3,5,7,8,9]`
to `1-3 5 7-9`. -/
theorem C5_String_folds_maximal_runs :
    (∀ s : HashSlots, (∀ x ∈ s, 0 ≤ x ∧ x < 2 ^ 63) → s.Pairwise (fun a b => a < b) →
      ∃ runs : List (Int × Int),
        (runs.map (fun r => consecutive r.1 r.2)).flatten = s ∧
        (∀ r ∈ runs, r.1 ≤ r.2) ∧
        runs.Chain' (fun r r' => r'.1 ≠ r.2 + 1) ∧
        HashSlots.String s = Join [' '] (runs.map (fun r =>
          if r.1 = r.2 then Itoa r.1 else Itoa r.1 ++ '-' :: Itoa r.2))) ∧
    HashSlots.String [] = [] ∧
    HashSlots.String [1, 2, 3, 5, 7, 8, 9] = "1-3 5 7-9".toList := by
  refine ⟨?_, by decide, by decide⟩
  intro s hs _
  refine ⟨maximalRuns s, ?_, ?_, ?_, HashSlots_String_eq_runs s hs⟩
  · cases s with
    | nil => simp [maximalRuns]
    | cons x xs =>
      simp only [maximalRuns]
      rw [runsFrom_cover xs x x (le_refl x), consecutive_self]
      simp
  · cases s with
    | nil => simp [maximalRuns]
    | cons x xs => exact runsFrom_le xs x x (le_refl x)
  · cases s with
    | nil => simp [maximalRuns]
    | cons x xs => exact runsFrom_maximal xs x x

/-- Witness of claim C5 at `[1, 2, 3, 5, 7, 8, 9]`, whose runs are `1-3`, `5` and `7-9`. -/
theorem C5_String_folds_maximal_runs_witness :
    ∃ runs : List (Int × Int),
      (runs.map (fun r => consecutive r.1 r.2)).flatten = [1, 2, 3, 5, 7, 8, 9] ∧
      (∀ r ∈ runs, r.1 ≤ r.2) ∧
      runs.Chain' (fun r r' => r'.1 ≠ r.2 + 1) ∧
      HashSlots.String [1, 2, 3, 5, 7, 8, 9] = Join [' '] (runs.map (fun r =>
        if r.1 = r.2 then Itoa r.1 else Itoa r.1 ++ '-' :: Itoa r.2)) :=
  C5_String_folds_maximal_runs.1 [1, 2, 3, 5, 7, 8, 9] (by decide) (by decide)

/-! ## Decimal texts -/

theorem isDigit_digitChar (d : Nat) (h : d < 10) : isDigit (digitChar d) = true := by
  interval_cases d <;> decide

theorem digitVal_digitChar (d : Nat) (h : d < 10) : digitVal (digitChar d) = d := by
  interval_cases d <;> decide

theorem digitChar_eq_zero (d : Nat) (h : d < 10) (h0 : digitChar d = '0') : d = 0 := by
  interval_cases d <;> first | rfl | (exact absurd h0 (by decide))

theorem utoaAux_fuel (f1 f2 n : Nat) (acc : Str) (h1 : n < f1) (h2 : n < f2) :
    utoaAux f1 n acc = utoaAux f2 n acc := by
  induction f1 generalizing f2 n acc with
  | zero => omega
  | succ f1 ih =>
    cases f2 with
    | zero => omega
    | succ f2 =>
      rw [utoaAux, utoaAux]
      by_cases h : n < 10
      · rw [if_pos h, if_pos h]
      · rw [if_neg h, if_neg h]
        exact ih f2 (n / 10) _ (by omega) (by omega)

theorem utoaAux_acc (f n : Nat) (acc : Str) (h : n < f) :
    utoaAux f n acc = utoaAux f n [] ++ acc := by
  induction f generalizing n acc with
  | zero => omega
  | succ f ih =>
    rw [utoaAux, utoaAux]
    by_cases h10 : n < 10
    · rw [if_pos h10, if_pos h10]; rfl
    · rw [if_neg h10, if_neg h10, ih (n / 10) _ (by omega), ih (n / 10) [_] (by omega)]
      simp

theorem utoa_lt_ten (n : Nat) (h : n < 10) : utoa n = [digitChar n] := by
  rw [utoa, utoaAux, if_pos h]

theorem utoa_ge_ten (n : Nat) (h : 10 ≤ n) :
    utoa n = utoa (n / 10) ++ [digitChar (n % 10)] := by
  rw [utoa, utoaAux, if_neg (by omega), utoaAux_acc n (n / 10) _ (by omega),
    utoaAux_fuel n (n / 10 + 1) (n / 10) [] (by omega) (by omega)]
  rfl

theorem utoa_ne_nil (n : Nat) : utoa n ≠ [] := by
  by_cases h : n < 10
  · rw [utoa_lt_ten n h]; simp
  · rw [utoa_ge_ten n (by omega)]; simp

theorem utoa_digits (n : Nat) : ∀ c ∈ utoa n, isDigit c = true := by
  induction n using Nat.strong_induction_on with
  | _ n ih =>
    by_cases h : n < 10
    · rw [utoa_lt_ten n h]
      intro c hc
      simp at hc
      subst hc
      exact isDigit_digitChar n h
    · rw [utoa_ge_ten n (by omega)]
      intro c hc
      rcases List.mem_append.1 hc with hc | hc
      · exact ih (n / 10) (by omega) c hc
      · simp at hc
        subst hc
        exact isDigit_digitChar _ (Nat.mod_lt _ (by decide))

/-- A decimal text starts with `0` only when it is the text `0`. -/
theorem utoa_head_zero (n : Nat) (tl : Str) (h : utoa n = '0' :: tl) : n = 0 := by
  induction n using Nat.strong_induction_on generalizing tl with
  | _ n ih =>
    by_cases h10 : n < 10
    · rw [utoa_lt_ten n h10] at h
      injection h with h _
      exact digitChar_eq_zero n h10 h
    · exfalso
      rw [utoa_ge_ten n (by omega)] at h
      cases hq : utoa (n / 10) with
      | nil => exact utoa_ne_nil _ hq
      | cons a as =>
        rw [hq, List.cons_append] at h
        injection h with h _
        subst h
        have := ih (n / 10) (by omega) as hq
        omega

theorem parseUintLoop_append (a b : Str) (k m : Nat) (h : parseUintLoop a k = .ok m) :
    parseUintLoop (a ++ b) k = parseUintLoop b m := by
  induction a generalizing k with
  | nil => simp [parseUintLoop] at h; subst h; rfl
  | cons c cs ih =>
    rw [parseUintLoop] at h
    rw [List.cons_append, parseUintLoop]
    split at h
    · rw [if_pos (by assumption)]
      split at h
      · simp at h
      · split at h
        · simp at h
        · rename_i h1 h2
          rw [if_neg h1, if_neg h2]
          exact ih _ h
    · simp at h

theorem parseUintLoop_utoa (n : Nat) (h : n ≤ maxUint64) : parseUintLoop (utoa n) 0 = .ok n := by
  induction n using Nat.strong_induction_on with
  | _ n ih =>
    have hmax : maxUint64 = 18446744073709551615 := by decide
    by_cases h10 : n < 10
    · rw [utoa_lt_ten n h10, parseUintLoop, if_pos (isDigit_digitChar n h10),
        if_neg (by rw [hmax]; omega), digitVal_digitChar n h10, if_neg (by omega), parseUintLoop]
      simp
    · rw [utoa_ge_ten n (by omega),
        parseUintLoop_append _ _ 0 (n / 10) (ih (n / 10) (by omega) (by omega)),
        parseUintLoop, if_pos (isDigit_digitChar _ (Nat.mod_lt _ (by decide))),
        if_neg (by rw [hmax]; omega), digitVal_digitChar _ (Nat.mod_lt _ (by decide)),
        if_neg (by omega), parseUintLoop]
      congr 1
      omega

/-- The digit loop succeeds exactly on texts of digits, as long as the value fits. -/
theorem parseUintLoop_ok_digits (s : Str) (k m : Nat) (h : parseUintLoop s k = .ok m) :
    ∀ c ∈ s, isDigit c = true := by
  induction s generalizing k with
  | nil => simp
  | cons c cs ih =>
    rw [parseUintLoop] at h
    split at h
    · rename_i hd
      split at h
      · simp at h
      · split at h
        · simp at h
        · intro x hx
          rcases List.mem_cons.1 hx with rfl | hx
          · exact hd
          · exact ih _ h x hx
    · simp at h

theorem isDigit_not_sign (c : Char) (h : isDigit c = true) : c ≠ '+' ∧ c ≠ '-' := by
  constructor <;> rintro rfl <;> exact absurd h (by decide)

theorem ParseUint_utoa (n : Nat) (h : n ≤ maxUint64) : ParseUint (utoa n) = .ok n := by
  rw [ParseUint, if_neg (utoa_ne_nil n), parseUintLoop_utoa n h]

/-- Integer round trip: `Atoi` reads back the decimal text of every `int64`. -/
theorem Atoi_Itoa (v : Int) (h : -2 ^ 63 ≤ v ∧ v < 2 ^ 63) : Atoi (Itoa v) = (v, none) := by
  have hmax : maxUint64 = 18446744073709551615 := by decide
  have hcut : int64Cutoff = 9223372036854775808 := by decide
  unfold Itoa
  by_cases hv : v < 0
  · rw [if_pos hv, Atoi, if_neg (by decide), if_pos rfl, parseSigned,
      ParseUint_utoa _ (by rw [hmax]; omega)]
    simp only [Bool.not_true, Bool.false_and, Bool.true_and, decide_eq_true_eq]
    rw [if_neg (by simp), if_neg (by rw [hcut]; omega), if_pos trivial]
    congr 1
    omega
  · rw [if_neg hv]
    cases hu : utoa v.toNat with
    | nil => exact absurd hu (utoa_ne_nil _)
    | cons c cs =>
      have hc : isDigit c = true := utoa_digits v.toNat c (by rw [hu]; simp)
      obtain ⟨hp, hm⟩ := isDigit_not_sign c hc
      rw [Atoi, if_neg hp, if_neg hm, ← hu, parseSigned, ParseUint_utoa _ (by rw [hmax]; omega)]
      simp only [Bool.not_false, Bool.true_and, Bool.false_and, decide_eq_true_eq]
      rw [if_neg (by rw [hcut]; omega), if_neg (by simp), if_neg (by simp)]
      congr 1
      omega

theorem parseSigned_ok (s0 s : Str) (neg : Bool) (v : Int) (h : parseSigned s0 neg s = (v, none)) :
    -2 ^ 63 ≤ v ∧ v < 2 ^ 63 ∧ (neg = false → 0 ≤ v) := by
  have hcut : int64Cutoff = 9223372036854775808 := by decide
  unfold parseSigned at h
  split at h
  · simp at h
  · split at h <;> simp at h
  · rename_i un _
    split at h
    · simp at h
    · split at h
      · simp at h
      · rename_i h1 h2
        cases neg with
        | true =>
          simp only [Bool.true_and, decide_eq_true_eq, if_true] at h h2
          simp at h
          rw [hcut] at h2
          exact ⟨by omega, by omega, by simp⟩
        | false =>
          simp only [Bool.not_false, Bool.true_and, decide_eq_true_eq] at h1
          simp at h
          rw [hcut] at h1
          exact ⟨by omega, by omega, fun _ => by omega⟩

/-- A value that `Atoi` returns without an error is an `int64`; it is non-negative when
the text has no minus sign. -/
theorem Atoi_ok (s : Str) (v : Int) (h : Atoi s = (v, none)) :
    -2 ^ 63 ≤ v ∧ v < 2 ^ 63 ∧ ('-' ∉ s → 0 ≤ v) := by
  unfold Atoi at h
  split at h
  · simp at h
  · rename_i c cs
    split at h
    · obtain ⟨h1, h2, h3⟩ := parseSigned_ok _ _ _ _ h
      exact ⟨h1, h2, fun _ => h3 rfl⟩
    · split at h
      · rename_i hc
        obtain ⟨h1, h2, _⟩ := parseSigned_ok _ _ _ _ h
        exact ⟨h1, h2, fun hn => absurd (by simp [hc]) hn⟩
      · obtain ⟨h1, h2, h3⟩ := parseSigned_ok _ _ _ _ h
        exact ⟨h1, h2, fun _ => h3 rfl⟩

theorem Itoa_chars (v : Int) : ∀ c ∈ Itoa v, isDigit c = true ∨ c = '-' := by
  intro c hc
  unfold Itoa at hc
  split at hc
  · rcases List.mem_cons.1 hc with rfl | hc
    · exact Or.inr rfl
    · exact Or.inl (utoa_digits _ c hc)
  · exact Or.inl (utoa_digits _ c hc)

theorem Itoa_nonneg_digits (v : Int) (h : 0 ≤ v) : ∀ c ∈ Itoa v, isDigit c = true := by
  intro c hc
  unfold Itoa at hc
  rw [if_neg (by omega)] at hc
  exact utoa_digits _ c hc

theorem Itoa_ne_nil (v : Int) : Itoa v ≠ [] := by
  unfold Itoa
  split
  · simp
  · exact utoa_ne_nil _

/-! ## Addresses -/

theorem parseOctet_le (s : Str) (n : Nat) (h : parseOctet s = some n) : n ≤ 255 := by
  unfold parseOctet at h
  split at h
  · simp at h
  · split at h
    · simp at h
    · split at h
      · simp at h
      · split at h
        · split at h
          · injection h with h; omega
          · simp at h
        · simp at h

theorem parseOctet_utoa (n : Nat) (h : n ≤ 255) : parseOctet (utoa n) = some n := by
  cases hu : utoa n with
  | nil => exact absurd hu (utoa_ne_nil n)
  | cons c cs =>
    have hd : (c :: cs).all isDigit = true := by
      rw [← hu, List.all_eq_true]
      exact utoa_digits n
    have hz : ¬ ((c = '0' && cs ≠ []) = true) := by
      intro hz
      simp only [Bool.and_eq_true, decide_eq_true_eq] at hz
      obtain ⟨hc, hcs⟩ := hz
      subst hc
      have h0 := utoa_head_zero n cs hu
      subst h0
      rw [utoa_lt_ten 0 (by decide)] at hu
      injection hu with _ hu
      exact hcs hu.symm
    have hp : parseUintLoop (c :: cs) 0 = .ok n := by
      rw [← hu]
      exact parseUintLoop_utoa n (by have : maxUint64 = 18446744073709551615 := by decide
                                     omega)
    unfold parseOctet
    simp only [hd, Bool.not_true, Bool.false_eq_true, if_false, hz, hp, h, if_true]

theorem dot_not_mem_utoa (n : Nat) : '.' ∉ utoa n := fun h =>
  absurd (utoa_digits n _ h) (by decide)

/-- IP round trip: `ParseIP` reads back the dotted text of an address with octets below 256. -/
theorem ParseIP_String (ip : IPv4) (h : ip.a ≤ 255 ∧ ip.b ≤ 255 ∧ ip.c ≤ 255 ∧ ip.d ≤ 255) :
    ParseIP ip.String = some ip := by
  unfold ParseIP IPv4.String
  simp only [List.append_assoc, List.cons_append]
  rw [Split_append_sep '.' _ _ (dot_not_mem_utoa _), Split_append_sep '.' _ _ (dot_not_mem_utoa _),
    Split_append_sep '.' _ _ (dot_not_mem_utoa _), Split_of_not_mem '.' _ (dot_not_mem_utoa _)]
  simp only [parseOctet_utoa _ h.1, parseOctet_utoa _ h.2.1, parseOctet_utoa _ h.2.2.1,
    parseOctet_utoa _ h.2.2.2]

theorem ParseIP_ok (s : Str) (ip : IPv4) (h : ParseIP s = some ip) :
    ip.a ≤ 255 ∧ ip.b ≤ 255 ∧ ip.c ≤ 255 ∧ ip.d ≤ 255 := by
  unfold ParseIP at h
  split at h
  · split at h
    · rename_i h1 h2 h3 h4
      injection h with h
      subst h
      exact ⟨parseOctet_le _ _ h1, parseOctet_le _ _ h2, parseOctet_le _ _ h3,
        parseOctet_le _ _ h4⟩
    · simp at h
  · simp at h

/-- The characters of the dotted text of an address. -/
theorem IPv4_String_chars (ip : IPv4) : ∀ c ∈ ip.String, isDigit c = true ∨ c = '.' := by
  intro c hc
  unfold IPv4.String at hc
  simp only [List.mem_append, List.mem_cons] at hc
  rcases hc with ((hc | hc | hc) | hc | hc) | hc | hc
  all_goals first
    | exact Or.inr hc
    | exact Or.inl (utoa_digits _ c hc)

/-- A well-formed address: what a successful `ParseClusterNodeAddress` returns. -/
theorem ParseClusterNodeAddress_ok (s : Str) (a : ClusterNodeAddress)
    (h : ParseClusterNodeAddress s = (a, none)) :
    (∀ c ∈ a.Port, isDigit c = true) ∧ (∀ c ∈ a.ClusterPort, isDigit c = true) ∧
      (∀ ip, a.IP = some ip → ip.a ≤ 255 ∧ ip.b ≤ 255 ∧ ip.c ≤ 255 ∧ ip.d ≤ 255) := by
  unfold ParseClusterNodeAddress at h
  split at h
  · rename_i w m1 m2 m3 m4 hm
    injection h with h _
    subst h
    simp only
    unfold FindStringSubmatch at hm
    simp only at hm
    split at hm
    · simp at hm
    · rename_i c0 r hr
      split at hm
      · simp only [List.cons.injEq, and_true] at hm
        obtain ⟨_, h1, h2, _, h4⟩ := hm
        subst h1 h2 h4
        refine ⟨?_, by simp, fun ip hip => ParseIP_ok _ ip hip⟩
        intro c hc
        exact List.mem_takeWhile_imp hc
      · rename_i c1 g4 hg
        split at hm
        · rename_i hcond
          simp only [List.cons.injEq, and_true] at hm
          obtain ⟨_, h1, h2, _, h4⟩ := hm
          subst h1 h2 h4
          simp only [Bool.and_eq_true, decide_eq_true_eq, List.all_eq_true] at hcond
          refine ⟨?_, hcond.2, fun ip hip => ParseIP_ok _ ip hip⟩
          intro c hc
          exact List.mem_takeWhile_imp hc
        · simp at hm
  · simp at h

theorem ClusterNodeAddress_String_eq (a : ClusterNodeAddress) :
    a.String = (match a.IP with | some ip => ip.String | none => []) ++
      ':' :: (a.Port ++ (if a.ClusterPort ≠ [] then '@' :: a.ClusterPort else [])) := by
  obtain ⟨ip, port, cport⟩ := a
  cases ip <;> by_cases h : cport = [] <;> simp [ClusterNodeAddress.String, h]

/-- The characters of the text of a well-formed address. -/
theorem ClusterNodeAddress_String_chars (a : ClusterNodeAddress)
    (hp : ∀ c ∈ a.Port, isDigit c = true) (hc : ∀ c ∈ a.ClusterPort, isDigit c = true) :
    ∀ c ∈ a.String, isDigit c = true ∨ c = '.' ∨ c = ':' ∨ c = '@' := by
  intro c hmem
  rw [ClusterNodeAddress_String_eq] at hmem
  simp only [List.mem_append, List.mem_cons] at hmem
  rcases hmem with hmem | hmem | hmem | hmem
  · cases hip : a.IP with
    | none => rw [hip] at hmem; simp at hmem
    | some ip =>
      rw [hip] at hmem
      rcases IPv4_String_chars ip c hmem with h | h
      · exact Or.inl h
      · exact Or.inr (Or.inl h)
  · exact Or.inr (Or.inr (Or.inl hmem))
  · exact Or.inl (hp c hmem)
  · split at hmem
    · rcases List.mem_cons.1 hmem with hmem | hmem
      · exact Or.inr (Or.inr (Or.inr hmem))
      · exact Or.inl (hc c hmem)
    · simp at hmem

/-- The submatches of a text built from a colon-free part, a colon, digits and, when there
are any, an `@` with more digits. -/
theorem FindStringSubmatch_build (t port cport : Str)
    (ht : ∀ c ∈ t, (fun c => decide (c ≠ ':')) c = true)
    (hp : ∀ c ∈ port, isDigit c = true) (hc : ∀ c ∈ cport, isDigit c = true) :
    FindStringSubmatch (t ++ ':' :: (port ++ (if cport ≠ [] then '@' :: cport else []))) =
      [t ++ ':' :: (port ++ (if cport ≠ [] then '@' :: cport else [])), t, port,
        if cport ≠ [] then '@' :: cport else [], cport] := by
  unfold FindStringSubmatch
  simp only
  rw [List.takeWhile_append_of_pos ht, List.dropWhile_append_of_pos ht]
  have h1 : List.takeWhile (fun c => decide (c ≠ ':'))
      (':' :: (port ++ (if cport ≠ [] then '@' :: cport else []))) = [] := by
    rw [List.takeWhile_cons_of_neg (by simp)]
  have h2 : List.dropWhile (fun c => decide (c ≠ ':'))
      (':' :: (port ++ (if cport ≠ [] then '@' :: cport else []))) =
      ':' :: (port ++ (if cport ≠ [] then '@' :: cport else [])) := by
    rw [List.dropWhile_cons_of_neg (by simp)]
  rw [h1, h2]
  simp only [List.append_nil]
  rw [List.takeWhile_append_of_pos hp, List.dropWhile_append_of_pos hp]
  by_cases hcp : cport = []
  · subst hcp
    simp
  · have hat : ¬ (isDigit '@' = true) := by decide
    have hall : cport.all isDigit = true := List.all_eq_true.2 hc
    simp only [ne_eq, hcp, not_false_eq_true, if_true, List.takeWhile_cons_of_neg hat,
      List.dropWhile_cons_of_neg hat, List.append_nil, hall, decide_True, Bool.and_self]

/-- Address round trip: `ParseClusterNodeAddress` reads back the text of a well-formed
address. -/
theorem ParseClusterNodeAddress_String (a : ClusterNodeAddress)
    (hp : ∀ c ∈ a.Port, isDigit c = true) (hc : ∀ c ∈ a.ClusterPort, isDigit c = true)
    (hip : ∀ ip, a.IP = some ip → ip.a ≤ 255 ∧ ip.b ≤ 255 ∧ ip.c ≤ 255 ∧ ip.d ≤ 255) :
    ParseClusterNodeAddress a.String = (a, none) := by
  rw [ClusterNodeAddress_String_eq]
  obtain ⟨ip, port, cport⟩ := a
  cases ip with
  | none =>
    simp only
    unfold ParseClusterNodeAddress
    rw [FindStringSubmatch_build [] port cport (by simp) hp hc]
    have : ParseIP [] = none := by decide
    simp only [this]
  | some i =>
    simp only
    have hnc : ∀ c ∈ i.String, (fun c => decide (c ≠ ':')) c = true := by
      intro c hmem
      rcases IPv4_String_chars i c hmem with h | h
      · have : c ≠ ':' := by rintro rfl; exact absurd h (by decide)
        simpa using this
      · subst h; decide
    unfold ParseClusterNodeAddress
    rw [FindStringSubmatch_build i.String port cport hnc hp hc]
    simp only [ParseIP_String i (hip i rfl)]

/-! ## Hash slot tokens -/

theorem ParseHashSlots_loop_ok (s : Str) (parts : List Str) (acc slots : HashSlots)
    (h : ParseHashSlots.loop s parts acc = (slots, none)) (hparts : ∀ p ∈ parts, '-' ∉ p)
    (hacc : ∀ x ∈ acc, 0 ≤ x ∧ x < 2 ^ 63) : ∀ x ∈ slots, 0 ≤ x ∧ x < 2 ^ 63 := by
  induction parts generalizing acc with
  | nil =>
    simp only [ParseHashSlots.loop, Prod.mk.injEq, and_true] at h
    subst h
    exact hacc
  | cons p ps ih =>
    rw [ParseHashSlots.loop] at h
    split at h
    · simp at h
    · rename_i v hv
      apply ih _ h (fun q hq => hparts q (by simp [hq]))
      intro x hx
      rcases List.mem_append.1 hx with hx | hx
      · exact hacc x hx
      · simp only [List.mem_singleton] at hx
        subst hx
        obtain ⟨_, h2, h3⟩ := Atoi_ok p _ hv
        exact ⟨h3 (hparts p (by simp)), h2⟩

/-- The slots that `ParseHashSlots` returns without an error are non-negative `int64`. -/
theorem ParseHashSlots_ok (s : Str) (slots : HashSlots) (h : ParseHashSlots s = (slots, none)) :
    ∀ x ∈ slots, 0 ≤ x ∧ x < 2 ^ 63 := by
  unfold ParseHashSlots at h
  simp only at h
  split at h
  · exact ParseHashSlots_loop_ok s _ [] slots h (fun p hp => not_mem_of_mem_Split '-' s p hp)
      (by simp)
  · simp at h

theorem minus_not_mem_Itoa (v : Int) (h : 0 ≤ v) : '-' ∉ Itoa v := fun hm =>
  absurd (Itoa_nonneg_digits v h _ hm) (by decide)

theorem space_not_mem_Itoa (v : Int) : ' ' ∉ Itoa v := fun hm => by
  rcases Itoa_chars v _ hm with h | h
  · exact absurd h (by decide)
  · exact absurd h (by decide)

theorem newline_not_mem_Itoa (v : Int) : '\n' ∉ Itoa v := fun hm => by
  rcases Itoa_chars v _ hm with h | h
  · exact absurd h (by decide)
  · exact absurd h (by decide)

/-- The text of a run of non-negative slots parses to its first and last slot. -/
theorem ParseHashSlots_formatRun (r : Int × Int) (h1 : 0 ≤ r.1 ∧ r.1 < 2 ^ 63)
    (h2 : 0 ≤ r.2 ∧ r.2 < 2 ^ 63) :
    ParseHashSlots (formatRun r) = (if r.1 = r.2 then [r.1] else [r.1, r.2], none) := by
  obtain ⟨a, b⟩ := r
  simp only at h1 h2 ⊢
  unfold ParseHashSlots formatRun
  simp only
  by_cases hab : a = b
  · subst hab
    rw [if_pos rfl, if_pos rfl, Split_of_not_mem '-' _ (minus_not_mem_Itoa a h1.1)]
    simp only [List.length_singleton, true_or, if_true]
    rw [ParseHashSlots.loop, Atoi_Itoa a ⟨by omega, h1.2⟩]
    simp [ParseHashSlots.loop]
  · rw [if_neg hab, if_neg hab, Split_append_sep '-' _ _ (minus_not_mem_Itoa a h1.1),
      Split_of_not_mem '-' _ (minus_not_mem_Itoa b h2.1)]
    simp only [List.length_cons, List.length_singleton, List.length_nil, zero_add,
      Nat.reduceAdd, OfNat.ofNat_ne_one, or_true, if_true]
    rw [ParseHashSlots.loop, Atoi_Itoa a ⟨by omega, h1.2⟩]
    simp only
    rw [ParseHashSlots.loop, Atoi_Itoa b ⟨by omega, h2.2⟩]
    simp [ParseHashSlots.loop]

theorem space_not_mem_formatRun (r : Int × Int) : ' ' ∉ formatRun r := by
  unfold formatRun
  split
  · exact space_not_mem_Itoa _
  · simp only [List.mem_append, List.mem_cons, not_or]
    exact ⟨space_not_mem_Itoa _, by decide, space_not_mem_Itoa _⟩

theorem newline_not_mem_formatRun (r : Int × Int) : '\n' ∉ formatRun r := by
  unfold formatRun
  split
  · exact newline_not_mem_Itoa _
  · simp only [List.mem_append, List.mem_cons, not_or]
    exact ⟨newline_not_mem_Itoa _, by decide, newline_not_mem_Itoa _⟩

/-- The elements of the runs of a sequence are elements of the sequence. -/
theorem runsFrom_mem (rest : List Int) (b last : Int) :
    ∀ r ∈ runsFrom b last rest, (r.1 = b ∨ r.1 ∈ rest) ∧ (r.2 = last ∨ r.2 ∈ rest) := by
  induction rest generalizing b last with
  | nil => simp [runsFrom]
  | cons x xs ih =>
    rw [runsFrom]
    intro r hr
    split at hr
    · obtain ⟨h1, h2⟩ := ih b x r hr
      refine ⟨?_, ?_⟩
      · rcases h1 with h1 | h1
        · exact Or.inl h1
        · exact Or.inr (by simp [h1])
      · rcases h2 with h2 | h2
        · exact Or.inr (by simp [h2])
        · exact Or.inr (by simp [h2])
    · rcases List.mem_cons.1 hr with rfl | hr
      · exact ⟨Or.inl rfl, Or.inl rfl⟩
      · obtain ⟨h1, h2⟩ := ih x x r hr
        refine ⟨?_, ?_⟩
        · rcases h1 with h1 | h1
          · exact Or.inr (by simp [h1])
          · exact Or.inr (by simp [h1])
        · rcases h2 with h2 | h2
          · exact Or.inr (by simp [h2])
          · exact Or.inr (by simp [h2])

theorem maximalRuns_mem (s : List Int) : ∀ r ∈ maximalRuns s, r.1 ∈ s ∧ r.2 ∈ s := by
  cases s with
  | nil => simp [maximalRuns]
  | cons x xs =>
    intro r hr
    obtain ⟨h1, h2⟩ := runsFrom_mem xs x x r hr
    constructor
    · rcases h1 with h1 | h1 <;> simp [h1]
    · rcases h2 with h2 | h2 <;> simp [h2]

theorem maximalRuns_ne_nil (s : List Int) (h : s ≠ []) : maximalRuns s ≠ [] := by
  cases s with
  | nil => exact absurd rfl h
  | cons x xs =>
    obtain ⟨e, tl, htl⟩ := runsFrom_head xs x x
    simp [maximalRuns, htl]

/-! ## One node line -/

theorem slotsLoop_ok (s : Str) (toks : List Str) (res res' : ClusterNode)
    (h : ParseClusterNode.slotsLoop s toks res = (res', none)) :
    (∀ tok ∈ toks, (ParseHashSlots tok).2 = none) ∧
      res' = { res with
        Slots := res.Slots ++ (toks.map (fun tok => (ParseHashSlots tok).1)).flatten } := by
  induction toks generalizing res with
  | nil =>
    simp only [ParseClusterNode.slotsLoop, Prod.mk.injEq, and_true] at h
    subst h
    simp
  | cons tok toks ih =>
    rw [ParseClusterNode.slotsLoop] at h
    split at h
    · simp at h
    · rename_i slots hs
      obtain ⟨h1, h2⟩ := ih _ h
      refine ⟨?_, ?_⟩
      · intro t ht
        rcases List.mem_cons.1 ht with rfl | ht
        · rw [hs]
        · exact h1 t ht
      · rw [h2]
        simp [hs]

theorem slotsLoop_of_ok (s : Str) (toks : List Str) (res : ClusterNode)
    (h : ∀ tok ∈ toks, (ParseHashSlots tok).2 = none) :
    ParseClusterNode.slotsLoop s toks res =
      ({ res with
        Slots := res.Slots ++ (toks.map (fun tok => (ParseHashSlots tok).1)).flatten }, none) := by
  induction toks generalizing res with
  | nil => simp [ParseClusterNode.slotsLoop]
  | cons tok toks ih =>
    have h1 : ParseHashSlots tok = ((ParseHashSlots tok).1, none) := by
      rw [← h tok (by simp)]
    rw [ParseClusterNode.slotsLoop, h1]
    simp only
    rw [ih _ (fun t ht => h t (by simp [ht]))]
    simp

/-- What a successful `ParseClusterNode` returns, field by field. -/
theorem ParseClusterNode_ok (line : Str) (n : ClusterNode)
    (h : ParseClusterNode line = (n, none)) :
    ∃ p0 p1 p2 p3 p4 p5 p6 p7 rest,
      Split ' ' line = p0 :: p1 :: p2 :: p3 :: p4 :: p5 :: p6 :: p7 :: rest ∧
      n.ID = p0 ∧
      ParseClusterNodeAddress p1 = (n.Address, none) ∧
      ParseClusterNodeFlags p2 = (n.Flags, none) ∧
      n.MasterID = (if p3 ≠ ['-'] then p3 else []) ∧
      Atoi p4 = (n.PingSent, none) ∧
      Atoi p5 = (n.PongReceived, none) ∧
      Atoi p6 = (n.Epoch, none) ∧
      n.LinkState = p7 ∧
      (∀ tok ∈ rest, (ParseHashSlots tok).2 = none) ∧
      n.Slots = sortInts ((rest.map (fun tok => (ParseHashSlots tok).1)).flatten) := by
  unfold ParseClusterNode at h
  split at h
  · rename_i p0 p1 p2 p3 p4 p5 p6 p7 rest hsplit
    refine ⟨p0, p1, p2, p3, p4, p5, p6, p7, rest, hsplit, ?_⟩
    simp only at h
    split at h
    · simp at h
    · rename_i address haddr
      split at h
      · simp at h
      · rename_i flags hflags
        split at h
        · simp at h
        · rename_i ping hping
          split at h
          · simp at h
          · rename_i pong hpong
            split at h
            · simp at h
            · rename_i epoch hepoch
              split at h
              · simp at h
              · rename_i res hres
                obtain ⟨hall, hres'⟩ := slotsLoop_ok _ _ _ _ hres
                simp only [Prod.mk.injEq, and_true] at h
                rw [hres'] at h
                rw [← h]
                by_cases hp3 : p3 = ['-']
                · simp only [hp3, ne_eq, not_true_eq_false, if_false, ClusterNode.zero,
                    List.nil_append]
                  exact ⟨trivial, haddr, hflags, trivial, hping, hpong, hepoch, trivial, hall, trivial⟩
                · simp only [hp3, ne_eq, not_false_eq_true, if_true, ClusterNode.zero,
                    List.nil_append]
                  exact ⟨trivial, haddr, hflags, trivial, hping, hpong, hepoch, trivial, hall, trivial⟩
  · simp at h

theorem mem_sortInts (l : List Int) (x : Int) : x ∈ sortInts l ↔ x ∈ l :=
  (List.perm_insertionSort _ l).mem_iff

theorem sorted_sortInts (l : List Int) : (sortInts l).Sorted (fun a b => a ≤ b) :=
  List.sorted_insertionSort _ l

/-- A node that `ParseClusterNode` returns without an error is well formed. -/
theorem ParseClusterNode_wellFormed (line : Str) (n : ClusterNode)
    (h : ParseClusterNode line = (n, none)) : n.WellFormed := by
  obtain ⟨p0, p1, p2, p3, p4, p5, p6, p7, rest, hsplit, hid, haddr, _, hmaster, hping, hpong,
    hepoch, hlink, hrest, hslots⟩ := ParseClusterNode_ok line n h
  have hpart : ∀ p ∈ Split ' ' line, ' ' ∉ p := fun p hp => not_mem_of_mem_Split ' ' line p hp
  rw [hsplit] at hpart
  obtain ⟨ha1, ha2, ha3⟩ := ParseClusterNodeAddress_ok p1 _ haddr
  refine ⟨?_, ha1, ha2, ha3, ?_, ?_, ?_, ?_, ?_, ?_, ?_, ?_⟩
  · rw [hid]; exact hpart p0 (by simp)
  · rw [hmaster]
    split
    · exact hpart p3 (by simp)
    · simp
  · rw [hmaster]
    split
    · assumption
    · simp
  · obtain ⟨h1, h2, _⟩ := Atoi_ok _ _ hping; exact ⟨h1, h2⟩
  · obtain ⟨h1, h2, _⟩ := Atoi_ok _ _ hpong; exact ⟨h1, h2⟩
  · obtain ⟨h1, h2, _⟩ := Atoi_ok _ _ hepoch; exact ⟨h1, h2⟩
  · rw [hlink]; exact hpart p7 (by simp)
  · intro x hx
    rw [hslots, mem_sortInts, List.mem_flatten] at hx
    obtain ⟨l, hl, hxl⟩ := hx
    obtain ⟨tok, htok, rfl⟩ := List.mem_map.1 hl
    have : ParseHashSlots tok = ((ParseHashSlots tok).1, none) := by rw [← hrest tok htok]
    exact ParseHashSlots_ok tok _ this x hxl
  · rw [hslots]; exact sorted_sortInts _

/-- The fields of a line built by `ClusterNode.String`. -/
theorem ClusterNode_String_split (n : ClusterNode) (hid : ' ' ∉ ClusterNodeID.String n.ID)
    (haddr : ' ' ∉ n.Address.String) (hmaster : ' ' ∉ ClusterNodeID.String n.MasterID)
    (hlink : ' ' ∉ n.LinkState) (hslots : ∀ x ∈ n.Slots, 0 ≤ x ∧ x < 2 ^ 63) :
    Split ' ' n.String =
      ClusterNodeID.String n.ID :: n.Address.String :: n.Flags.String ::
        ClusterNodeID.String n.MasterID :: Itoa n.PingSent :: Itoa n.PongReceived ::
        Itoa n.Epoch :: n.LinkState :: (maximalRuns n.Slots).map formatRun := by
  unfold ClusterNode.String
  simp only [List.append_assoc, List.cons_append]
  by_cases hs : n.Slots = []
  · rw [if_neg (by simp [hs]), hs]
    simp only [maximalRuns, List.map_nil]
    rw [Split_append_sep ' ' _ _ hid, Split_append_sep ' ' _ _ haddr,
      Split_append_sep ' ' _ _ (String_flags_chars n.Flags).1, Split_append_sep ' ' _ _ hmaster,
      Split_append_sep ' ' _ _ (space_not_mem_Itoa _), Split_append_sep ' ' _ _ (space_not_mem_Itoa _),
      Split_append_sep ' ' _ _ (space_not_mem_Itoa _), Split_of_not_mem ' ' _ hlink]
  · rw [if_pos (by simpa [List.length_pos] using hs)]
    rw [Split_append_sep ' ' _ _ hid, Split_append_sep ' ' _ _ haddr,
      Split_append_sep ' ' _ _ (String_flags_chars n.Flags).1, Split_append_sep ' ' _ _ hmaster,
      Split_append_sep ' ' _ _ (space_not_mem_Itoa _), Split_append_sep ' ' _ _ (space_not_mem_Itoa _),
      Split_append_sep ' ' _ _ (space_not_mem_Itoa _), Split_append_sep ' ' _ _ hlink,
      HashSlots_String_eq_runs n.Slots hslots,
      Split_Join ' ' _ (by simpa using maximalRuns_ne_nil n.Slots hs)
        (fun p hp => by
          obtain ⟨r, _, rfl⟩ := List.mem_map.1 hp
          exact space_not_mem_formatRun r)]

/-- The result of `ParseClusterNode` on a line whose fields are all accepted. -/
theorem ParseClusterNode_of_fields (line : Str) (p0 p1 p2 p3 p4 p5 p6 p7 : Str)
    (rest : List Str) (a : ClusterNodeAddress) (f : ClusterNodeFlags) (ping pong epoch : Int)
    (hsplit : Split ' ' line = p0 :: p1 :: p2 :: p3 :: p4 :: p5 :: p6 :: p7 :: rest)
    (haddr : ParseClusterNodeAddress p1 = (a, none))
    (hflags : ParseClusterNodeFlags p2 = (f, none))
    (hping : Atoi p4 = (ping, none)) (hpong : Atoi p5 = (pong, none))
    (hepoch : Atoi p6 = (epoch, none))
    (hrest : ∀ tok ∈ rest, (ParseHashSlots tok).2 = none) :
    ParseClusterNode line =
      (⟨p0, a, f, if p3 ≠ ['-'] then p3 else [], ping, pong, epoch, p7,
        sortInts ((rest.map (fun tok => (ParseHashSlots tok).1)).flatten)⟩, none) := by
  unfold ParseClusterNode
  rw [hsplit]
  simp only [haddr, hflags, hping, hpong, hepoch]
  rw [slotsLoop_of_ok _ _ _ hrest]
  by_cases hp3 : p3 = ['-']
  · simp [hp3, ClusterNode.zero]
  · simp [hp3, ClusterNode.zero]

theorem maximalRuns_cover (s : List Int) :
    ((maximalRuns s).map (fun r => consecutive r.1 r.2)).flatten = s := by
  cases s with
  | nil => simp [maximalRuns]
  | cons x xs =>
    simp only [maximalRuns]
    rw [runsFrom_cover xs x x (le_refl x), consecutive_self]
    simp

theorem maximalRuns_le (s : List Int) : ∀ r ∈ maximalRuns s, r.1 ≤ r.2 := by
  cases s with
  | nil => simp [maximalRuns]
  | cons x xs => exact runsFrom_le xs x x (le_refl x)

/-- A slot list whose runs have at most two elements is the list of its run ends. -/
theorem runEnds_of_short_runs (s : HashSlots) (h : ∀ r ∈ maximalRuns s, r.2 ≤ r.1 + 1) :
    runEnds s = s := by
  unfold runEnds
  conv_rhs => rw [← maximalRuns_cover s]
  congr 1
  apply List.map_congr_left
  intro r hr
  have h1 := maximalRuns_le s r hr
  have h2 := h r hr
  by_cases he : r.1 = r.2
  · rw [if_pos he, ← he, consecutive_self]
  · rw [if_neg he]
    have : r.2 = r.1 + 1 := by omega
    rw [this, consecutive_succ r.1 r.1 (le_refl _), consecutive_self]
    simp

theorem ClusterNodeID_String_no_space (i : ClusterNodeID) (h : ' ' ∉ i) :
    ' ' ∉ ClusterNodeID.String i := by
  unfold ClusterNodeID.String
  split
  · decide
  · exact h

theorem ClusterNodeAddress_String_no_space (a : ClusterNodeAddress)
    (hp : ∀ c ∈ a.Port, isDigit c = true) (hc : ∀ c ∈ a.ClusterPort, isDigit c = true) :
    ' ' ∉ a.String ∧ '\n' ∉ a.String := by
  constructor <;> intro hm <;>
    rcases ClusterNodeAddress_String_chars a hp hc _ hm with h | h | h | h <;>
    exact absurd h (by decide)

/-- Node round trip: the text of a well-formed node with a non-empty identifier parses to
the node itself, its slots replaced by the ends of their runs. -/
theorem ParseClusterNode_String (n : ClusterNode) (hw : n.WellFormed) (hid : n.ID ≠ []) :
    ParseClusterNode n.String = ({ n with Slots := sortInts (runEnds n.Slots) }, none) := by
  have hsplit := ClusterNode_String_split n (ClusterNodeID_String_no_space _ hw.id_no_space)
    (ClusterNodeAddress_String_no_space _ hw.port_digits hw.clusterPort_digits).1
    (ClusterNodeID_String_no_space _ hw.master_no_space) hw.linkState_no_space hw.slots_range
  have hruns : ∀ r ∈ maximalRuns n.Slots,
      ParseHashSlots (formatRun r) = (if r.1 = r.2 then [r.1] else [r.1, r.2], none) := by
    intro r hr
    obtain ⟨h1, h2⟩ := maximalRuns_mem n.Slots r hr
    exact ParseHashSlots_formatRun r (hw.slots_range _ h1) (hw.slots_range _ h2)
  rw [ParseClusterNode_of_fields n.String _ _ _ _ _ _ _ _ _ n.Address n.Flags n.PingSent
    n.PongReceived n.Epoch hsplit
    (ParseClusterNodeAddress_String _ hw.port_digits hw.clusterPort_digits hw.ip_octets)
    (ParseClusterNodeFlags_String _) (Atoi_Itoa _ hw.pingSent_range)
    (Atoi_Itoa _ hw.pongReceived_range) (Atoi_Itoa _ hw.epoch_range)
    (fun tok htok => by
      obtain ⟨r, hr, rfl⟩ := List.mem_map.1 htok
      rw [hruns r hr])]
  have hidS : ClusterNodeID.String n.ID = n.ID := by
    unfold ClusterNodeID.String
    rw [if_neg hid]
  have hmS : (if ClusterNodeID.String n.MasterID ≠ ['-'] then ClusterNodeID.String n.MasterID
      else []) = n.MasterID := by
    unfold ClusterNodeID.String
    by_cases hm : n.MasterID = []
    · simp [hm]
    · rw [if_neg hm, if_pos hw.master_not_dash]
  have hsl : ((maximalRuns n.Slots).map formatRun).map (fun tok => (ParseHashSlots tok).1) =
      (maximalRuns n.Slots).map (fun r => if r.1 = r.2 then [r.1] else [r.1, r.2]) := by
    rw [List.map_map]
    apply List.map_congr_left
    intro r hr
    simp only [Function.comp_apply, hruns r hr]
  rw [hidS, hmS, hsl]
  rfl

theorem mem_Join_of_mem (sep : Str) (l : List Str) (p : Str) (c : Char) (hp : p ∈ l)
    (hc : c ∈ p) : c ∈ Join sep l := by
  induction l with
  | nil => simp at hp
  | cons q qs ih =>
    cases qs with
    | nil =>
      simp only [List.mem_singleton] at hp
      subst hp
      simpa [Join] using hc
    | cons q2 qs2 =>
      simp only [Join, List.append_assoc, List.mem_append]
      rcases List.mem_cons.1 hp with rfl | hp
      · exact Or.inl hc
      · exact Or.inr (Or.inr (ih hp))

theorem mem_of_mem_Split (sep : Char) (s p : Str) (c : Char) (hp : p ∈ Split sep s)
    (hc : c ∈ p) : c ∈ s := by
  have := mem_Join_of_mem [sep] (Split sep s) p c hp hc
  rwa [Join_Split] at this

/-- The text of a node read from a line without a newline has no newline. -/
theorem ClusterNode_String_no_newline (line : Str) (n : ClusterNode)
    (h : ParseClusterNode line = (n, none)) (hnl : '\n' ∉ line) : '\n' ∉ n.String := by
  have hw := ParseClusterNode_wellFormed line n h
  obtain ⟨p0, p1, p2, p3, p4, p5, p6, p7, rest, hsplit, hid, _, _, hmaster, _, _, _, hlink, _, _⟩ :=
    ParseClusterNode_ok line n h
  have hpart : ∀ p ∈ Split ' ' line, '\n' ∉ p :=
    fun p hp hc => hnl (mem_of_mem_Split ' ' line p _ hp hc)
  rw [hsplit] at hpart
  have hS := ClusterNode_String_split n (ClusterNodeID_String_no_space _ hw.id_no_space)
    (ClusterNodeAddress_String_no_space _ hw.port_digits hw.clusterPort_digits).1
    (ClusterNodeID_String_no_space _ hw.master_no_space) hw.linkState_no_space hw.slots_range
  intro hm
  rw [← Join_Split ' ' n.String, hS] at hm
  rcases mem_Join _ _ _ hm with hm | ⟨p, hp, hm⟩
  · simp at hm
  · simp only [List.mem_cons, List.mem_map] at hp
    rcases hp with rfl | rfl | rfl | rfl | rfl | rfl | rfl | rfl | ⟨r, _, rfl⟩
    · unfold ClusterNodeID.String at hm
      split at hm
      · simp at hm
      · rw [hid] at hm; exact hpart p0 (by simp) hm
    · exact (ClusterNodeAddress_String_no_space _ hw.port_digits hw.clusterPort_digits).2 hm
    · exact (String_flags_chars n.Flags).2 hm
    · unfold ClusterNodeID.String at hm
      split at hm
      · simp at hm
      · rw [hmaster] at hm
        split at hm
        · exact hpart p3 (by simp) hm
        · simp at hm
    · exact newline_not_mem_Itoa _ hm
    · exact newline_not_mem_Itoa _ hm
    · exact newline_not_mem_Itoa _ hm
    · rw [hlink] at hm; exact hpart p7 (by simp) hm
    · exact newline_not_mem_formatRun r hm

theorem ClusterNode_String_ne_nil (n : ClusterNode) : n.String ≠ [] := by
  unfold ClusterNode.String
  simp only
  split <;> simp

/-! ## Lists of nodes -/

theorem ParseClusterNodes_loop_ok (lines : List Str) (i : Nat) (acc L : ClusterNodes)
    (h : ParseClusterNodes.loop lines i acc = (L, none)) :
    ∃ ns, L = acc ++ ns ∧
      List.Forall₂ (fun line n => ParseClusterNode line = (n, none))
        (lines.filter (fun l => l ≠ [])) ns := by
  induction lines generalizing i acc with
  | nil =>
    simp only [ParseClusterNodes.loop, Prod.mk.injEq, and_true] at h
    exact ⟨[], by simp [h], by simp⟩
  | cons line lines ih =>
    rw [ParseClusterNodes.loop] at h
    split at h
    · rename_i hl
      obtain ⟨ns, h1, h2⟩ := ih _ _ h
      exact ⟨ns, h1, by simpa [hl] using h2⟩
    · rename_i hl
      split at h
      · simp at h
      · rename_i node hnode
        obtain ⟨ns, h1, h2⟩ := ih _ _ h
        refine ⟨node :: ns, by simp [h1], ?_⟩
        rw [List.filter_cons_of_pos (by simpa using hl)]
        exact List.Forall₂.cons hnode h2

theorem ParseClusterNodes_loop_of_forall (lines : List Str) (i : Nat) (acc ns : ClusterNodes)
    (h : List.Forall₂ (fun line n => ParseClusterNode line = (n, none))
      (lines.filter (fun l => l ≠ [])) ns) :
    ParseClusterNodes.loop lines i acc = (acc ++ ns, none) := by
  induction lines generalizing i acc ns with
  | nil =>
    simp only [List.filter_nil, List.forall₂_nil_left_iff] at h
    subst h
    simp [ParseClusterNodes.loop]
  | cons line lines ih =>
    rw [ParseClusterNodes.loop]
    by_cases hl : line = []
    · rw [if_pos hl]
      rw [List.filter_cons_of_neg (by simpa using hl)] at h
      exact ih _ _ _ h
    · rw [if_neg hl]
      rw [List.filter_cons_of_pos (by simpa using hl)] at h
      cases h with
      | cons hnode hrest =>
        rw [hnode]
        simp only
        rw [ih _ _ _ hrest]
        simp

/-- List round trip: the text of a parsed list whose nodes have non-empty identifiers
parses to the same nodes, the slots of each replaced by the ends of their runs. -/
theorem ParseClusterNodes_String (t : Str) (L : ClusterNodes)
    (h : ParseClusterNodes t = (L, none)) (hid : ∀ n ∈ L, n.ID ≠ []) :
    ParseClusterNodes (ClusterNodes.String L) =
      (L.map (fun n => { n with Slots := sortInts (runEnds n.Slots) }), none) := by
  unfold ParseClusterNodes at h
  obtain ⟨ns, hns, hall⟩ := ParseClusterNodes_loop_ok _ _ _ _ h
  simp only [List.nil_append] at hns
  subst hns
  have hline : ∀ n ∈ L, ∃ line, '\n' ∉ line ∧ ParseClusterNode line = (n, none) := by
    intro n hn
    obtain ⟨line, hl, hp⟩ := Forall₂_exists_left _ _ _ hall n hn
    exact ⟨line, not_mem_of_mem_Split '\n' t line (List.mem_filter.1 hl).1, hp⟩
  by_cases hL : L = []
  · subst hL; decide
  · unfold ParseClusterNodes ClusterNodes.String
    rw [Split_Join '\n' _ (by simpa using hL) (fun p hp => by
      obtain ⟨n, hn, rfl⟩ := List.mem_map.1 hp
      obtain ⟨line, hnl, hparse⟩ := hline n hn
      exact ClusterNode_String_no_newline line n hparse hnl)]
    have hfilter : (L.map ClusterNode.String).filter (fun l => l ≠ []) =
        L.map ClusterNode.String := by
      apply List.filter_eq_self.2
      intro p hp
      obtain ⟨n, _, rfl⟩ := List.mem_map.1 hp
      simpa using ClusterNode_String_ne_nil n
    rw [ParseClusterNodes_loop_of_forall _ 0 []
      (L.map (fun n => { n with Slots := sortInts (runEnds n.Slots) }))]
    · simp
    · rw [hfilter, List.forall₂_map_left_iff, List.forall₂_map_right_iff]
      apply List.forall₂_same.2
      intro n hn
      obtain ⟨line, _, hparse⟩ := hline n hn
      exact ParseClusterNode_String n (ParseClusterNode_wellFormed line n hparse) (hid n hn)

/-- Claim C2, as the code has it: when `ParseClusterNodes` succeeds with a list whose nodes
all have a non-empty identifier, it succeeds on the `String` of that list, and the list it
returns agrees with the first, node by node, on every field but the slots. The slots agree
too when no run of consecutive slots of any node has more than two elements. -/
theorem C2_round_trip_up_to_slots (t : Str) (L : ClusterNodes)
    (h : ParseClusterNodes t = (L, none)) (hid : ∀ n ∈ L, n.ID ≠ []) :
    ∃ L', ParseClusterNodes (ClusterNodes.String L) = (L', none) ∧
      L'.map withoutSlots = L.map withoutSlots ∧
      ((∀ n ∈ L, ∀ r ∈ maximalRuns n.Slots, r.2 ≤ r.1 + 1) → L' = L) := by
  refine ⟨_, ParseClusterNodes_String t L h hid, ?_, ?_⟩
  · rw [List.map_map]
    apply List.map_congr_left
    intro n _
    rfl
  · intro hshort
    conv_rhs => rw [← List.map_id L]
    apply List.map_congr_left
    intro n hn
    unfold ParseClusterNodes at h
    obtain ⟨ns, hns, hall⟩ := ParseClusterNodes_loop_ok _ _ _ _ h
    simp only [List.nil_append] at hns
    subst hns
    obtain ⟨line, _, hp⟩ := Forall₂_exists_left _ _ _ hall n hn
    have hw := ParseClusterNode_wellFormed line n hp
    have h1 : sortInts (runEnds n.Slots) = n.Slots := by
      rw [runEnds_of_short_runs n.Slots (hshort n hn)]
      exact List.Sorted.insertionSort_eq hw.slots_sorted
    simp only [h1, id_eq]

set_option maxRecDepth 100000 in
/-- Witness of claim C2 at a text of two nodes, one of them with the slots `0`, `1`, `5`. -/
theorem C2_round_trip_up_to_slots_witness :
    (ParseClusterNodes twoNodeText).2 = none ∧
    ∃ L', ParseClusterNodes (ClusterNodes.String (ParseClusterNodes twoNodeText).1) =
        (L', none) ∧
      L'.map withoutSlots = (ParseClusterNodes twoNodeText).1.map withoutSlots ∧
      ((∀ n ∈ (ParseClusterNodes twoNodeText).1, ∀ r ∈ maximalRuns n.Slots, r.2 ≤ r.1 + 1) →
        L' = (ParseClusterNodes twoNodeText).1) :=
  ⟨by decide,
    C2_round_trip_up_to_slots twoNodeText (ParseClusterNodes twoNodeText).1 (by decide)
      (by decide)⟩

set_option maxRecDepth 100000 in
/-- Claim C2, the claim as stated fails: `ParseClusterNodes` succeeds on `lossyText` and on
the `String` of the list it returns, but the second list is not the first. The node with
the empty identifier comes back with the identifier `-`, and the slots `1`, `2`, `3` come
back as `1`, `3`. -/
theorem C2_round_trip_fails :
    (ParseClusterNodes lossyText).2 = none ∧
    (ParseClusterNodes (ClusterNodes.String (ParseClusterNodes lossyText).1)).2 = none ∧
    (ParseClusterNodes (ClusterNodes.String (ParseClusterNodes lossyText).1)).1 ≠
      (ParseClusterNodes lossyText).1 ∧
    (ParseClusterNodes lossyText).1.map (fun n => (n.ID, n.Slots)) =
      [([], []), ("b".toList, [1, 2, 3])] ∧
    (ParseClusterNodes (ClusterNodes.String (ParseClusterNodes lossyText).1)).1.map
        (fun n => (n.ID, n.Slots)) =
      [("-".toList, []), ("b".toList, [1, 3])] := by
  decide

/-! ## `ClusterNodes.Self` on nodes with non-empty identifiers -/

theorem Self_loop_skip (pre rest : List ClusterNode) (result : ClusterNode)
    (h : ∀ n ∈ pre, FlagMyself ∉ n.Flags) :
    ClusterNodes.Self.loop (pre ++ rest) result = ClusterNodes.Self.loop rest result := by
  induction pre with
  | nil => rfl
  | cons n ns ih =>
    rw [List.cons_append, ClusterNodes.Self.loop, if_neg (h n (by simp))]
    exact ih (fun m hm => h m (by simp [hm]))

/-- A list without a `myself` node: `Self` fails with the error of the missing node. -/
theorem Self_no_myself (L : ClusterNodes) (h : ∀ n ∈ L, FlagMyself ∉ n.Flags) :
    ClusterNodes.Self L = (ClusterNode.zero, some .noSelf) := by
  have := Self_loop_skip L [] ClusterNode.zero h
  rw [List.append_nil] at this
  rw [ClusterNodes.Self, this]
  rfl

/-- A list with one `myself` node, whose identifier is not empty: `Self` returns it. -/
theorem Self_unique (pre post : List ClusterNode) (n : ClusterNode)
    (hpre : ∀ m ∈ pre, FlagMyself ∉ m.Flags) (hpost : ∀ m ∈ post, FlagMyself ∉ m.Flags)
    (hn : FlagMyself ∈ n.Flags) (hid : n.ID ≠ []) :
    ClusterNodes.Self (pre ++ n :: post) = (n, none) := by
  rw [ClusterNodes.Self, Self_loop_skip pre _ _ hpre, ClusterNodes.Self.loop, if_pos hn,
    if_neg (by simp [ClusterNode.zero])]
  have := Self_loop_skip post [] n hpost
  rw [List.append_nil] at this
  rw [this, ClusterNodes.Self.loop, if_neg hid]

/-- A list with two `myself` nodes or more, the first with a non-empty identifier: `Self`
fails with the error of the multiple nodes as soon as it meets the second. -/
theorem Self_multiple (pre mid post : List ClusterNode) (n m : ClusterNode)
    (hpre : ∀ k ∈ pre, FlagMyself ∉ k.Flags) (hmid : ∀ k ∈ mid, FlagMyself ∉ k.Flags)
    (hn : FlagMyself ∈ n.Flags) (hm : FlagMyself ∈ m.Flags) (hid : n.ID ≠ []) :
    ClusterNodes.Self (pre ++ n :: (mid ++ m :: post)) = (n, some .multipleSelf) := by
  rw [ClusterNodes.Self, Self_loop_skip pre _ _ hpre, ClusterNodes.Self.loop, if_pos hn,
    if_neg (by simp [ClusterNode.zero]), Self_loop_skip mid _ _ hmid, ClusterNodes.Self.loop,
    if_pos hm, if_pos hid]

/-! ## The acceptance condition of `ParseClusterNode` -/

theorem pair_of_snd_none {α : Type} (x : α × Option Error) (h : x.2 = none) : x = (x.1, none) := by
  rw [← h]

/-- A line with fewer than eight fields is rejected, with the zero node. -/
theorem ParseClusterNode_too_few (line : Str) (h : (Split ' ' line).length < 8) :
    ParseClusterNode line = (ClusterNode.zero, some (.notEnoughParts line)) := by
  unfold ParseClusterNode
  split
  · rename_i hs
    rw [hs] at h
    simp at h
    omega
  · rfl

/-- A line with eight fields or more is accepted exactly when its address, its flags, its
three integers and its slot tokens are. -/
theorem ParseClusterNode_accept_iff (line p0 p1 p2 p3 p4 p5 p6 p7 : Str) (rest : List Str)
    (hsplit : Split ' ' line = p0 :: p1 :: p2 :: p3 :: p4 :: p5 :: p6 :: p7 :: rest) :
    (ParseClusterNode line).2 = none ↔
      (ParseClusterNodeAddress p1).2 = none ∧ (ParseClusterNodeFlags p2).2 = none ∧
      (Atoi p4).2 = none ∧ (Atoi p5).2 = none ∧ (Atoi p6).2 = none ∧
      ∀ tok ∈ rest, (ParseHashSlots tok).2 = none := by
  constructor
  · intro h
    obtain ⟨q0, q1, q2, q3, q4, q5, q6, q7, rest', hs, _, haddr, hflags, _, hping, hpong,
      hepoch, _, hrest, _⟩ := ParseClusterNode_ok line _ (pair_of_snd_none _ h)
    rw [hsplit] at hs
    simp only [List.cons.injEq] at hs
    obtain ⟨_, rfl, rfl, _, rfl, rfl, rfl, _, rfl⟩ := hs
    rw [haddr, hflags, hping, hpong, hepoch]
    exact ⟨rfl, rfl, rfl, rfl, rfl, hrest⟩
  · rintro ⟨haddr, hflags, hping, hpong, hepoch, hrest⟩
    rw [ParseClusterNode_of_fields line p0 p1 p2 p3 p4 p5 p6 p7 rest _ _ _ _ _ hsplit
      (pair_of_snd_none _ haddr) (pair_of_snd_none _ hflags) (pair_of_snd_none _ hping)
      (pair_of_snd_none _ hpong) (pair_of_snd_none _ hepoch) hrest]

/-- Claim C11. Acceptance condition of `ParseClusterNode`: a line with fewer than eight
fields, split on single spaces, is rejected with the error of the missing parts; a line
with eight fields or more is accepted if and only if its second field is accepted by
`ParseClusterNodeAddress`, its third by `ParseClusterNodeFlags`, its fifth, sixth and
seventh by `Atoi`, and every field after the eighth by `ParseHashSlots`; the `MasterID` of
an accepted line is empty when the fourth field is `-` and is the fourth field otherwise. -/
theorem C11_ParseClusterNode_acceptance :
    (∀ line : Str, (Split ' ' line).length < 8 →
      ParseClusterNode line = (ClusterNode.zero, some (.notEnoughParts line))) ∧
    (∀ (line p0 p1 p2 p3 p4 p5 p6 p7 : Str) (rest : List Str),
      Split ' ' line = p0 :: p1 :: p2 :: p3 :: p4 :: p5 :: p6 :: p7 :: rest →
      ((ParseClusterNode line).2 = none ↔
        (ParseClusterNodeAddress p1).2 = none ∧ (ParseClusterNodeFlags p2).2 = none ∧
        (Atoi p4).2 = none ∧ (Atoi p5).2 = none ∧ (Atoi p6).2 = none ∧
        ∀ tok ∈ rest, (ParseHashSlots tok).2 = none) ∧
      ((ParseClusterNode line).2 = none →
        (ParseClusterNode line).1.MasterID = if p3 = ['-'] then [] else p3)) := by
  refine ⟨ParseClusterNode_too_few, ?_⟩
  intro line p0 p1 p2 p3 p4 p5 p6 p7 rest hsplit
  refine ⟨ParseClusterNode_accept_iff line p0 p1 p2 p3 p4 p5 p6 p7 rest hsplit, ?_⟩
  intro h
  obtain ⟨q0, q1, q2, q3, q4, q5, q6, q7, rest', hs, _, _, _, hmaster, _⟩ :=
    ParseClusterNode_ok line _ (pair_of_snd_none _ h)
  rw [hsplit] at hs
  simp only [List.cons.injEq] at hs
  obtain ⟨_, _, _, rfl, _⟩ := hs
  rw [hmaster]
  by_cases hp : p3 = ['-'] <;> simp [hp]

/-- Witness of claim C11 at the line `a :1 master - 0 0 0 connected 5` and at the line
`a b`, which has two fields. -/
theorem C11_ParseClusterNode_acceptance_witness :
    ParseClusterNode "a b".toList = (ClusterNode.zero, some (.notEnoughParts "a b".toList)) ∧
    ((ParseClusterNode "a :1 master - 0 0 0 connected 5".toList).2 = none ↔
      (ParseClusterNodeAddress ":1".toList).2 = none ∧
      (ParseClusterNodeFlags "master".toList).2 = none ∧
      (Atoi "0".toList).2 = none ∧ (Atoi "0".toList).2 = none ∧ (Atoi "0".toList).2 = none ∧
      ∀ tok ∈ ["5".toList], (ParseHashSlots tok).2 = none) ∧
    ((ParseClusterNode "a :1 master - 0 0 0 connected 5".toList).2 = none →
      (ParseClusterNode "a :1 master - 0 0 0 connected 5".toList).1.MasterID =
        if "-".toList = ['-'] then [] else "-".toList) :=
  ⟨C11_ParseClusterNode_acceptance.1 "a b".toList (by decide),
    C11_ParseClusterNode_acceptance.2 "a :1 master - 0 0 0 connected 5".toList "a".toList
      ":1".toList "master".toList "-".toList "0".toList "0".toList "0".toList
      "connected".toList ["5".toList] (by decide)⟩

/-! ## The lines of `ParseClusterNodes` -/

/-- The loop of `ParseClusterNodes` over lines that are all empty or accepted. -/
theorem ParseClusterNodes_loop_accept (lines : List Str) (i : Nat) (acc : ClusterNodes)
    (h : ∀ line ∈ lines, line ≠ [] → (ParseClusterNode line).2 = none) :
    ParseClusterNodes.loop lines i acc =
      (acc ++ (lines.filter (fun l => l ≠ [])).map (fun l => (ParseClusterNode l).1), none) := by
  induction lines generalizing i acc with
  | nil => simp [ParseClusterNodes.loop]
  | cons line lines ih =>
    have hrest : ∀ l ∈ lines, l ≠ [] → (ParseClusterNode l).2 = none :=
      fun l hl => h l (by simp [hl])
    rw [ParseClusterNodes.loop]
    by_cases hl : line = []
    · rw [if_pos hl, ih _ _ hrest, List.filter_cons_of_neg (by simpa using hl)]
    · rw [if_neg hl, pair_of_snd_none _ (h line (by simp) hl)]
      simp only
      rw [ih _ _ hrest, List.filter_cons_of_pos (by simpa using hl)]
      simp

/-- The loop of `ParseClusterNodes` up to the first line that is rejected: it returns the
nodes of the lines before it and the index of the line. -/
theorem ParseClusterNodes_loop_reject (pre post : List Str) (line : Str) (e : Error) (i : Nat)
    (acc : ClusterNodes) (hpre : ∀ l ∈ pre, l ≠ [] → (ParseClusterNode l).2 = none)
    (hline : line ≠ []) (he : (ParseClusterNode line).2 = some e) :
    ParseClusterNodes.loop (pre ++ line :: post) i acc =
      (acc ++ (pre.filter (fun l => l ≠ [])).map (fun l => (ParseClusterNode l).1),
        some (.line (i + pre.length) e)) := by
  induction pre generalizing i acc with
  | nil =>
    have hp : ParseClusterNode line = ((ParseClusterNode line).1, some e) := by rw [← he]
    rw [List.nil_append, ParseClusterNodes.loop, if_neg hline, hp]
    simp
  | cons l ls ih =>
    have hrest : ∀ x ∈ ls, x ≠ [] → (ParseClusterNode x).2 = none :=
      fun x hx => hpre x (by simp [hx])
    rw [List.cons_append, ParseClusterNodes.loop]
    by_cases hl : l = []
    · rw [if_pos hl, ih _ _ hrest, List.filter_cons_of_neg (by simpa using hl)]
      simp only [List.length_cons]
      congr 3
      omega
    · rw [if_neg hl, pair_of_snd_none _ (hpre l (by simp) hl)]
      simp only
      rw [ih _ _ hrest, List.filter_cons_of_pos (by simpa using hl)]
      simp only [List.length_cons, List.map_cons, List.append_assoc, List.singleton_append]
      congr 3
      omega

/-- Claim C12. Line handling of `ParseClusterNodes`: when every non-empty line of the
text, split on newlines, is accepted by `ParseClusterNode`, the result is the list of the
nodes of the non-empty lines, in line order; otherwise the call fails with the line error
that carries the position, counted from zero among all the lines, of the first non-empty
line that `ParseClusterNode` rejects, and the error of that line. -/
theorem C12_ParseClusterNodes_lines :
    (∀ t : Str, (∀ line ∈ Split '\n' t, line ≠ [] → (ParseClusterNode line).2 = none) →
      ParseClusterNodes t =
        (((Split '\n' t).filter (fun l => l ≠ [])).map (fun l => (ParseClusterNode l).1),
          none)) ∧
    (∀ (t : Str) (pre post : List Str) (line : Str) (e : Error),
      Split '\n' t = pre ++ line :: post →
      (∀ l ∈ pre, l ≠ [] → (ParseClusterNode l).2 = none) →
      line ≠ [] → (ParseClusterNode line).2 = some e →
      (ParseClusterNodes t).2 = some (.line pre.length e)) := by
  constructor
  · intro t h
    rw [ParseClusterNodes, ParseClusterNodes_loop_accept _ 0 [] h]
    simp
  · intro t pre post line e hsplit hpre hline he
    rw [ParseClusterNodes, hsplit, ParseClusterNodes_loop_reject pre post line e 0 [] hpre hline he]
    simp

set_option maxRecDepth 100000 in
/-- Witness of claim C12 at a text of two accepted lines with an empty line between
them, and at a text whose fourth line, at index `3`, is the first one rejected. -/
theorem C12_ParseClusterNodes_lines_witness :
    ParseClusterNodes "a :1 master - 0 0 0 up\n\nb :2 slave a 1 2 3 up".toList =
      ((["a :1 master - 0 0 0 up".toList, "b :2 slave a 1 2 3 up".toList]).map
        (fun l => (ParseClusterNode l).1), none) ∧
    (ParseClusterNodes "a :1 master - 0 0 0 up\n\n\nbad\nb :2 slave a 1 2 3 up".toList).2 =
      some (.line 3 (.notEnoughParts "bad".toList)) :=
  ⟨C12_ParseClusterNodes_lines.1 "a :1 master - 0 0 0 up\n\nb :2 slave a 1 2 3 up".toList
      (by decide),
    C12_ParseClusterNodes_lines.2 "a :1 master - 0 0 0 up\n\n\nbad\nb :2 slave a 1 2 3 up".toList
      ["a :1 master - 0 0 0 up".toList, [], []] ["b :2 slave a 1 2 3 up".toList]
      "bad".toList (.notEnoughParts "bad".toList) (by decide) (by decide) (by decide)
      (by decide)⟩

/-! ## The value returned alongside an error -/

theorem pair_of_snd_some {α : Type} (x : α × Option Error) (c : Error) (h : x.2 = some c) :
    x = (x.1, some c) := by
  rw [← h]

theorem ParseClusterNodeAddress_reject (s : Str) (c : Error)
    (h : (ParseClusterNodeAddress s).2 = some c) :
    ParseClusterNodeAddress s = (ClusterNodeAddress.zero, some c) := by
  unfold ParseClusterNodeAddress at h ⊢
  split
  · rename_i hm
    rw [hm] at h
    simp at h
  · rename_i hm
    split at h
    · simp at h
    · simp only at h
      rw [h]

/-- The loop over the slot tokens up to the first one that is rejected: the slots of the
tokens before it stay in the node. -/
theorem slotsLoop_reject (s : Str) (pre post : List Str) (tok : Str) (c : Error)
    (res : ClusterNode) (hpre : ∀ t ∈ pre, (ParseHashSlots t).2 = none)
    (htok : (ParseHashSlots tok).2 = some c) :
    ParseClusterNode.slotsLoop s (pre ++ tok :: post) res =
      ({ res with
        Slots := res.Slots ++ (pre.map (fun t => (ParseHashSlots t).1)).flatten },
        some (.parsing s c)) := by
  induction pre generalizing res with
  | nil =>
    rw [List.nil_append, ParseClusterNode.slotsLoop, pair_of_snd_some _ c htok]
    simp
  | cons t ts ih =>
    rw [List.cons_append, ParseClusterNode.slotsLoop, pair_of_snd_none _ (hpre t (by simp))]
    simp only
    rw [ih _ (fun x hx => hpre x (by simp [hx]))]
    simp

/-- The node that `ParseClusterNode` returns alongside each of its errors, for a line with
eight fields or more. -/
theorem ParseClusterNode_reject (line p0 p1 p2 p3 p4 p5 p6 p7 : Str) (rest : List Str)
    (hsplit : Split ' ' line = p0 :: p1 :: p2 :: p3 :: p4 :: p5 :: p6 :: p7 :: rest)
    (c : Error) :
    ((ParseClusterNodeAddress p1).2 = some c →
      ParseClusterNode line =
        (⟨p0, ClusterNodeAddress.zero, ∅, [], 0, 0, 0, [], []⟩, some (.parsing line c))) ∧
    ((ParseClusterNodeAddress p1).2 = none → (ParseClusterNodeFlags p2).2 = some c →
      ParseClusterNode line =
        (⟨p0, (ParseClusterNodeAddress p1).1, (ParseClusterNodeFlags p2).1, [], 0, 0, 0, [], []⟩,
          some (.parsing line c))) ∧
    ((ParseClusterNodeAddress p1).2 = none → (ParseClusterNodeFlags p2).2 = none →
      (Atoi p4).2 = some c →
      ParseClusterNode line =
        (⟨p0, (ParseClusterNodeAddress p1).1, (ParseClusterNodeFlags p2).1,
          if p3 = ['-'] then [] else p3, (Atoi p4).1, 0, 0, [], []⟩,
          some (.parsing line c))) ∧
    ((ParseClusterNodeAddress p1).2 = none → (ParseClusterNodeFlags p2).2 = none →
      (Atoi p4).2 = none → (Atoi p5).2 = some c →
      ParseClusterNode line =
        (⟨p0, (ParseClusterNodeAddress p1).1, (ParseClusterNodeFlags p2).1,
          if p3 = ['-'] then [] else p3, (Atoi p4).1, (Atoi p5).1, 0, [], []⟩,
          some (.parsing line c))) ∧
    ((ParseClusterNodeAddress p1).2 = none → (ParseClusterNodeFlags p2).2 = none →
      (Atoi p4).2 = none → (Atoi p5).2 = none → (Atoi p6).2 = some c →
      ParseClusterNode line =
        (⟨p0, (ParseClusterNodeAddress p1).1, (ParseClusterNodeFlags p2).1,
          if p3 = ['-'] then [] else p3, (Atoi p4).1, (Atoi p5).1, (Atoi p6).1, [], []⟩,
          some (.parsing line c))) ∧
    ((ParseClusterNodeAddress p1).2 = none → (ParseClusterNodeFlags p2).2 = none →
      (Atoi p4).2 = none → (Atoi p5).2 = none → (Atoi p6).2 = none →
      ∀ (pre post : List Str) (tok : Str), rest = pre ++ tok :: post →
      (∀ t ∈ pre, (ParseHashSlots t).2 = none) → (ParseHashSlots tok).2 = some c →
      ParseClusterNode line =
        (⟨p0, (ParseClusterNodeAddress p1).1, (ParseClusterNodeFlags p2).1,
          if p3 = ['-'] then [] else p3, (Atoi p4).1, (Atoi p5).1, (Atoi p6).1, p7,
          (pre.map (fun t => (ParseHashSlots t).1)).flatten⟩,
          some (.parsing line c))) := by
  refine ⟨?_, ?_, ?_, ?_, ?_, ?_⟩
  · intro h1
    unfold ParseClusterNode
    rw [hsplit]
    simp only [ParseClusterNodeAddress_reject p1 c h1, ClusterNode.zero]
  · intro h1 h2
    unfold ParseClusterNode
    rw [hsplit]
    dsimp only
    generalize ParseClusterNodeAddress p1 = xa at h1 ⊢
    generalize ParseClusterNodeFlags p2 = xf at h2 ⊢
    obtain ⟨a, ea⟩ := xa
    obtain ⟨f, ef⟩ := xf
    simp only at h1 h2
    subst h1 h2
    simp only [ClusterNode.zero]
  · intro h1 h2 h3
    unfold ParseClusterNode
    rw [hsplit]
    dsimp only
    generalize ParseClusterNodeAddress p1 = xa at h1 ⊢
    generalize ParseClusterNodeFlags p2 = xf at h2 ⊢
    generalize Atoi p4 = x4 at h3 ⊢
    obtain ⟨a, ea⟩ := xa
    obtain ⟨f, ef⟩ := xf
    obtain ⟨v4, e4⟩ := x4
    simp only at h1 h2 h3
    subst h1 h2 h3
    by_cases hp : p3 = ['-'] <;> simp [hp, ClusterNode.zero]
  · intro h1 h2 h3 h4
    unfold ParseClusterNode
    rw [hsplit]
    dsimp only
    generalize ParseClusterNodeAddress p1 = xa at h1 ⊢
    generalize ParseClusterNodeFlags p2 = xf at h2 ⊢
    generalize Atoi p4 = x4 at h3 ⊢
    generalize Atoi p5 = x5 at h4 ⊢
    obtain ⟨a, ea⟩ := xa
    obtain ⟨f, ef⟩ := xf
    obtain ⟨v4, e4⟩ := x4
    obtain ⟨v5, e5⟩ := x5
    simp only at h1 h2 h3 h4
    subst h1 h2 h3 h4
    by_cases hp : p3 = ['-'] <;> simp [hp, ClusterNode.zero]
  · intro h1 h2 h3 h4 h5
    unfold ParseClusterNode
    rw [hsplit]
    dsimp only
    generalize ParseClusterNodeAddress p1 = xa at h1 ⊢
    generalize ParseClusterNodeFlags p2 = xf at h2 ⊢
    generalize Atoi p4 = x4 at h3 ⊢
    generalize Atoi p5 = x5 at h4 ⊢
    generalize Atoi p6 = x6 at h5 ⊢
    obtain ⟨a, ea⟩ := xa
    obtain ⟨f, ef⟩ := xf
    obtain ⟨v4, e4⟩ := x4
    obtain ⟨v5, e5⟩ := x5
    obtain ⟨v6, e6⟩ := x6
    simp only at h1 h2 h3 h4 h5
    subst h1 h2 h3 h4 h5
    by_cases hp : p3 = ['-'] <;> simp [hp, ClusterNode.zero]
  · intro h1 h2 h3 h4 h5 pre post tok hrest hpre htok
    unfold ParseClusterNode
    rw [hsplit, hrest]
    dsimp only
    simp only [slotsLoop_reject _ pre post tok c _ hpre htok]
    generalize ParseClusterNodeAddress p1 = xa at h1 ⊢
    generalize ParseClusterNodeFlags p2 = xf at h2 ⊢
    generalize Atoi p4 = x4 at h3 ⊢
    generalize Atoi p5 = x5 at h4 ⊢
    generalize Atoi p6 = x6 at h5 ⊢
    obtain ⟨a, ea⟩ := xa
    obtain ⟨f, ef⟩ := xf
    obtain ⟨v4, e4⟩ := x4
    obtain ⟨v5, e5⟩ := x5
    obtain ⟨v6, e6⟩ := x6
    simp only at h1 h2 h3 h4 h5
    subst h1 h2 h3 h4 h5
    by_cases hp : p3 = ['-'] <;> simp [hp, ClusterNode.zero]

/-- Claim C13, as the code has it: the value returned alongside an error is the value
built so far. `ParseClusterNode` returns the zero node alongside the error of the missing
parts; alongside any other error it returns the node that holds the first field as `ID`
and what was assigned before the failing step: nothing more when the address is rejected,
the address and the flags collected so far when the flags are rejected, also `MasterID`
and the value returned by `Atoi` when an integer is rejected, and all eight fields with
the unsorted slots of the tokens before it when a slot token is rejected.
`ParseClusterNodes` returns alongside a line error the nodes of the lines before the
failing one. -/
theorem C13_value_alongside_error :
    (∀ line : Str, (Split ' ' line).length < 8 →
      ParseClusterNode line = (ClusterNode.zero, some (.notEnoughParts line))) ∧
    (∀ (line p0 p1 p2 p3 p4 p5 p6 p7 : Str) (rest : List Str) (c : Error),
      Split ' ' line = p0 :: p1 :: p2 :: p3 :: p4 :: p5 :: p6 :: p7 :: rest →
      ((ParseClusterNodeAddress p1).2 = some c →
        ParseClusterNode line =
          (⟨p0, ClusterNodeAddress.zero, ∅, [], 0, 0, 0, [], []⟩, some (.parsing line c))) ∧
      ((ParseClusterNodeAddress p1).2 = none → (ParseClusterNodeFlags p2).2 = some c →
        ParseClusterNode line =
          (⟨p0, (ParseClusterNodeAddress p1).1, (ParseClusterNodeFlags p2).1, [], 0, 0, 0, [],
            []⟩, some (.parsing line c))) ∧
      ((ParseClusterNodeAddress p1).2 = none → (ParseClusterNodeFlags p2).2 = none →
        (Atoi p4).2 = some c →
        ParseClusterNode line =
          (⟨p0, (ParseClusterNodeAddress p1).1, (ParseClusterNodeFlags p2).1,
            if p3 = ['-'] then [] else p3, (Atoi p4).1, 0, 0, [], []⟩,
            some (.parsing line c))) ∧
      ((ParseClusterNodeAddress p1).2 = none → (ParseClusterNodeFlags p2).2 = none →
        (Atoi p4).2 = none → (Atoi p5).2 = some c →
        ParseClusterNode line =
          (⟨p0, (ParseClusterNodeAddress p1).1, (ParseClusterNodeFlags p2).1,
            if p3 = ['-'] then [] else p3, (Atoi p4).1, (Atoi p5).1, 0, [], []⟩,
            some (.parsing line c))) ∧
      ((ParseClusterNodeAddress p1).2 = none → (ParseClusterNodeFlags p2).2 = none →
        (Atoi p4).2 = none → (Atoi p5).2 = none → (Atoi p6).2 = some c →
        ParseClusterNode line =
          (⟨p0, (ParseClusterNodeAddress p1).1, (ParseClusterNodeFlags p2).1,
            if p3 = ['-'] then [] else p3, (Atoi p4).1, (Atoi p5).1, (Atoi p6).1, [], []⟩,
            some (.parsing line c))) ∧
      ((ParseClusterNodeAddress p1).2 = none → (ParseClusterNodeFlags p2).2 = none →
        (Atoi p4).2 = none → (Atoi p5).2 = none → (Atoi p6).2 = none →
        ∀ (pre post : List Str) (tok : Str), rest = pre ++ tok :: post →
        (∀ t ∈ pre, (ParseHashSlots t).2 = none) → (ParseHashSlots tok).2 = some c →
        ParseClusterNode line =
          (⟨p0, (ParseClusterNodeAddress p1).1, (ParseClusterNodeFlags p2).1,
            if p3 = ['-'] then [] else p3, (Atoi p4).1, (Atoi p5).1, (Atoi p6).1, p7,
            (pre.map (fun t => (ParseHashSlots t).1)).flatten⟩,
            some (.parsing line c)))) ∧
    (∀ (t : Str) (pre post : List Str) (line : Str) (e : Error),
      Split '\n' t = pre ++ line :: post →
      (∀ l ∈ pre, l ≠ [] → (ParseClusterNode l).2 = none) →
      line ≠ [] → (ParseClusterNode line).2 = some e →
      ParseClusterNodes t =
        ((pre.filter (fun l => l ≠ [])).map (fun l => (ParseClusterNode l).1),
          some (.line pre.length e))) := by
  refine ⟨ParseClusterNode_too_few, ?_, ?_⟩
  · intro line p0 p1 p2 p3 p4 p5 p6 p7 rest c hsplit
    exact ParseClusterNode_reject line p0 p1 p2 p3 p4 p5 p6 p7 rest hsplit c
  · intro t pre post line e hsplit hpre hline he
    rw [ParseClusterNodes, hsplit, ParseClusterNodes_loop_reject pre post line e 0 [] hpre hline he]
    simp

set_option maxRecDepth 100000 in
/-- Witness of claim C13: the line `a b`, the line `a :1 master - 0 0 0 up 5 x`, whose
last slot token is rejected, and a text whose second line is rejected. -/
theorem C13_value_alongside_error_witness :
    ParseClusterNode "a b".toList = (ClusterNode.zero, some (.notEnoughParts "a b".toList)) ∧
    ParseClusterNode "a :1 master - 0 0 0 up 5 x".toList =
      (⟨"a".toList, ⟨none, "1".toList, []⟩, {FlagMaster}, [], 0, 0, 0, "up".toList, [5]⟩,
        some (.parsing "a :1 master - 0 0 0 up 5 x".toList
          (.parsing "x".toList (.notANumber "x".toList)))) ∧
    ParseClusterNodes "a :1 master - 0 0 0 up\nbad".toList =
      ([(ParseClusterNode "a :1 master - 0 0 0 up".toList).1],
        some (.line 1 (.notEnoughParts "bad".toList))) :=
  ⟨C13_value_alongside_error.1 "a b".toList (by decide),
    (C13_value_alongside_error.2.1 "a :1 master - 0 0 0 up 5 x".toList "a".toList ":1".toList
      "master".toList "-".toList "0".toList "0".toList "0".toList "up".toList
      ["5".toList, "x".toList] (.parsing "x".toList (.notANumber "x".toList))
      (by decide)).2.2.2.2.2 (by decide) (by decide) (by decide) (by decide) (by decide)
      ["5".toList] [] "x".toList (by decide) (by decide) (by decide),
    C13_value_alongside_error.2.2 "a :1 master - 0 0 0 up\nbad".toList
      ["a :1 master - 0 0 0 up".toList] [] "bad".toList (.notEnoughParts "bad".toList)
      (by decide) (by decide) (by decide) (by decide)⟩

set_option maxRecDepth 100000 in
/-- Claim C13, the claim as stated fails: `ParseClusterNode` returns, alongside the error
for the rejected address `b`, a node that is not the zero node (its `ID` is `a`), and
`ParseClusterNodes` returns, alongside the error for the rejected second line, a list of
one node. -/
theorem C13_partial_value_returned :
    (ParseClusterNode "a b c d e f g h".toList).2 =
      some (.parsing "a b c d e f g h".toList (.invalidAddress "b".toList)) ∧
    (ParseClusterNode "a b c d e f g h".toList).1 ≠ ClusterNode.zero ∧
    (ParseClusterNode "a b c d e f g h".toList).1.ID = "a".toList ∧
    (ParseClusterNodes "a :1 master - 0 0 0 up\nbad".toList).2 =
      some (.line 1 (.notEnoughParts "bad".toList)) ∧
    (ParseClusterNodes "a :1 master - 0 0 0 up\nbad".toList).1.length = 1 := by
  decide

/-! ## The slots of a parsed node -/

/-- Claim C15. Slots of a parsed node: the `Slots` of a node accepted by `ParseClusterNode`
is the ascending sort of the concatenation, in field order, of what `ParseHashSlots`
returns for each field after the eighth; it is sorted in non-decreasing order and its
elements are non-negative. A line of exactly eight fields whose address, flags and
integers are accepted is accepted, with empty `Slots`. -/
theorem C15_parsed_slots :
    (∀ (line : Str) (n : ClusterNode), ParseClusterNode line = (n, none) →
      n.Slots = sortInts ((((Split ' ' line).drop 8).map
        (fun tok => (ParseHashSlots tok).1)).flatten) ∧
      n.Slots.Sorted (fun a b => a ≤ b) ∧ (∀ x ∈ n.Slots, 0 ≤ x) ∧
      ((Split ' ' line).length = 8 → n.Slots = [])) ∧
    (∀ (line p0 p1 p2 p3 p4 p5 p6 p7 : Str),
      Split ' ' line = [p0, p1, p2, p3, p4, p5, p6, p7] →
      (ParseClusterNodeAddress p1).2 = none → (ParseClusterNodeFlags p2).2 = none →
      (Atoi p4).2 = none → (Atoi p5).2 = none → (Atoi p6).2 = none →
      (ParseClusterNode line).2 = none ∧ (ParseClusterNode line).1.Slots = []) := by
  constructor
  · intro line n h
    have hw := ParseClusterNode_wellFormed line n h
    obtain ⟨p0, p1, p2, p3, p4, p5, p6, p7, rest, hsplit, _, _, _, _, _, _, _, _, _, hslots⟩ :=
      ParseClusterNode_ok line n h
    refine ⟨?_, hw.slots_sorted, fun x hx => (hw.slots_range x hx).1, ?_⟩
    · rw [hslots, hsplit]
      rfl
    · intro hlen
      rw [hsplit] at hlen
      have : rest = [] := List.length_eq_zero.1 (by simpa using hlen)
      rw [hslots, this]
      rfl
  · intro line p0 p1 p2 p3 p4 p5 p6 p7 hsplit h1 h2 h3 h4 h5
    rw [ParseClusterNode_of_fields line p0 p1 p2 p3 p4 p5 p6 p7 [] _ _ _ _ _ hsplit
      (pair_of_snd_none _ h1) (pair_of_snd_none _ h2) (pair_of_snd_none _ h3)
      (pair_of_snd_none _ h4) (pair_of_snd_none _ h5) (by simp)]
    exact ⟨rfl, rfl⟩

set_option maxRecDepth 100000 in
/-- Witness of claim C15 at the line `a :1 master - 0 0 0 up 7 3-5 1`, whose slots are
`1, 3, 5, 7`, and at the line `a :1 master - 0 0 0 up`, which has eight fields. -/
theorem C15_parsed_slots_witness :
    (ParseClusterNode "a :1 master - 0 0 0 up 7 3-5 1".toList).1.Slots = [1, 3, 5, 7] ∧
    ((ParseClusterNode "a :1 master - 0 0 0 up 7 3-5 1".toList).1.Slots =
        sortInts ((((Split ' ' "a :1 master - 0 0 0 up 7 3-5 1".toList).drop 8).map
          (fun tok => (ParseHashSlots tok).1)).flatten) ∧
      (ParseClusterNode "a :1 master - 0 0 0 up 7 3-5 1".toList).1.Slots.Sorted
        (fun a b => a ≤ b) ∧
      (∀ x ∈ (ParseClusterNode "a :1 master - 0 0 0 up 7 3-5 1".toList).1.Slots, 0 ≤ x) ∧
      ((Split ' ' "a :1 master - 0 0 0 up 7 3-5 1".toList).length = 8 →
        (ParseClusterNode "a :1 master - 0 0 0 up 7 3-5 1".toList).1.Slots = [])) ∧
    ((ParseClusterNode "a :1 master - 0 0 0 up".toList).2 = none ∧
      (ParseClusterNode "a :1 master - 0 0 0 up".toList).1.Slots = []) :=
  ⟨by decide,
    C15_parsed_slots.1 "a :1 master - 0 0 0 up 7 3-5 1".toList _ (by decide),
    C15_parsed_slots.2 "a :1 master - 0 0 0 up".toList "a".toList ":1".toList "master".toList
      "-".toList "0".toList "0".toList "0".toList "up".toList (by decide) (by decide)
      (by decide) (by decide) (by decide) (by decide)⟩

/-! ## The host of a parsed instance -/

theorem dropWhile_append_singleton_ne_nil (p : Char → Bool) (l : Str) (c : Char)
    (h : p c = false) : (l ++ [c]).dropWhile p ≠ [] := by
  induction l with
  | nil => simp [List.dropWhile, h]
  | cons a as ih =>
    rw [List.cons_append]
    by_cases ha : p a = true
    · rw [List.dropWhile_cons_of_pos ha]; exact ih
    · rw [List.dropWhile_cons_of_neg ha]; simp

theorem TrimSpace_ne_nil_of_head (u : Str) (c : Char) (xs : Str) (hu : u = c :: xs)
    (hc : isSpace c = false) : TrimSpace u ≠ [] := by
  subst hu
  unfold TrimSpace
  rw [List.dropWhile_cons_of_neg (by simp [hc]), List.reverse_cons]
  intro h
  rw [List.reverse_eq_nil_iff] at h
  exact dropWhile_append_singleton_ne_nil isSpace _ c hc h

/-- Claim C14, as the code has it: the `Hostname` of an instance that `ParseRedisInstance`
returns without an error contains no colon and has no white space at either end; it is
empty exactly when the trimmed text begins with a colon. -/
theorem C14_host_invariant (s : Str) (r : RedisInstance)
    (h : ParseRedisInstance s = (r, none)) :
    ':' ∉ r.Hostname ∧ Trimmed r.Hostname ∧
      (r.Hostname = [] ↔ (TrimSpace s).head? = some ':') := by
  obtain ⟨h1, _, h3, _, _, _⟩ := ParseRedisInstance_ok s r h
  refine ⟨h3, h1, ?_⟩
  have htr := Trimmed_TrimSpace s
  rw [ParseRedisInstance_eq] at h
  split at h
  · simp at h
  · rename_i hne
    split at h
    · rename_i h0
      injection h with h _
      subst h
      simp only
      constructor
      · intro e; exact absurd e hne
      · intro e
        exfalso
        have : ':' ∈ TrimSpace s := by
          cases ht : TrimSpace s with
          | nil => rw [ht] at e; simp at e
          | cons a as => rw [ht] at e; simp at e; simp [e]
        exact (List.count_eq_zero.1 h0) this
    · split at h
      · injection h with h _
        subst h
        simp only
        cases ht : TrimSpace s with
        | nil => exact absurd ht hne
        | cons a as =>
          by_cases ha : a = ':'
          · subst ha
            simp [List.takeWhile, TrimSpace]
          · have hsp : isSpace a = false := htr.1 a (by rw [ht]; rfl)
            have htw : List.takeWhile (fun c => decide (c ≠ ':')) (a :: as) =
                a :: List.takeWhile (fun c => decide (c ≠ ':')) as := by
              rw [List.takeWhile_cons_of_pos (by simpa using ha)]
            rw [htw]
            constructor
            · intro e
              exact absurd e (TrimSpace_ne_nil_of_head _ a _ rfl hsp)
            · intro e
              simp at e
              exact absurd e ha
      · simp at h

/-- Witness of claim C14 at the texts `redis-0:7000` and `:7000`. -/
theorem C14_host_invariant_witness :
    (':' ∉ "redis-0".toList ∧ Trimmed "redis-0".toList ∧
      ("redis-0".toList = [] ↔ (TrimSpace "redis-0:7000".toList).head? = some ':')) ∧
    (':' ∉ ([] : Str) ∧ Trimmed [] ∧
      (([] : Str) = [] ↔ (TrimSpace ":7000".toList).head? = some ':')) :=
  ⟨C14_host_invariant "redis-0:7000".toList ⟨"redis-0".toList, "7000".toList⟩ (by decide),
    C14_host_invariant ":7000".toList ⟨[], "7000".toList⟩ (by decide)⟩

/-- Claim C14, the claim as stated fails: `ParseRedisInstance` accepts the text `:7000` and
returns an instance with the empty `Hostname`. -/
theorem C14_empty_host_accepted :
    ParseRedisInstance ":7000".toList = (⟨[], "7000".toList⟩, none) := by
  decide

/-! ## The sentinel and the round trip of flag sets -/

/-- Claim C17. The sentinel is authoritative: when some token of the text, split on
commas, is `noflags` and every token before the first `noflags` is the name of one of the
seven flags, `ParseClusterNodeFlags` succeeds with the empty set, whatever the tokens
before and after the sentinel are. -/
theorem C17_sentinel_authoritative (s : Str) (pre post : List Str)
    (hsplit : Split ',' s = pre ++ flagNoFlags :: post)
    (hpre : ∀ p ∈ pre, ∃ flag : ClusterNodeFlag, p = flag.name) :
    ParseClusterNodeFlags s = (∅, none) := by
  have hpre' : ∀ p ∈ pre, flagOfName p ≠ none := by
    intro p hp
    obtain ⟨flag, rfl⟩ := hpre p hp
    rw [flagOfName_name]
    simp
  have hno : flagOfName flagNoFlags = none := by decide
  unfold ParseClusterNodeFlags
  rw [hsplit, ParseClusterNodeFlags_loop_prefix pre _ _ hpre', ParseClusterNodeFlags.loop, hno]
  simp

/-- Witness of claim C17 at the text `master,slave,noflags,bogus,myself`. -/
theorem C17_sentinel_authoritative_witness :
    ParseClusterNodeFlags "master,slave,noflags,bogus,myself".toList = (∅, none) :=
  C17_sentinel_authoritative "master,slave,noflags,bogus,myself".toList
    ["master".toList, "slave".toList] ["bogus".toList, "myself".toList] (by decide)
    (fun p hp => by
      simp only [List.mem_cons, List.mem_singleton, List.not_mem_nil, or_false] at hp
      rcases hp with rfl | rfl
      · exact ⟨FlagMaster, rfl⟩
      · exact ⟨FlagSlave, rfl⟩)

/-- Claim C18. Flag-set round trip: for every set of flags, the empty one included,
`ParseClusterNodeFlags` succeeds on the `String` of the set and returns the set. -/
theorem C18_flags_round_trip (f : ClusterNodeFlags) :
    ParseClusterNodeFlags f.String = (f, none) :=
  ParseClusterNodeFlags_String f

/-! ## The text of a parsed IP -/

theorem digitChar_digitVal (c : Char) (h : isDigit c = true) : digitChar (digitVal c) = c := by
  unfold isDigit at h
  simp only [Bool.and_eq_true, decide_eq_true_eq] at h
  unfold digitChar digitVal
  have : 48 + (c.toNat - 48) = c.toNat := by omega
  rw [this]
  exact Char.ofNat_toNat c

theorem digitVal_lt (c : Char) (h : isDigit c = true) : digitVal c < 10 := by
  unfold isDigit at h
  simp only [Bool.and_eq_true, decide_eq_true_eq] at h
  unfold digitVal
  omega

theorem parseUintLoop_value (s : Str) (k n : Nat) (h : parseUintLoop s k = .ok n) :
    n = s.foldl (fun a c => a * 10 + digitVal c) k := by
  induction s generalizing k with
  | nil => simp [parseUintLoop] at h; simp [h]
  | cons c cs ih =>
    rw [parseUintLoop] at h
    split at h
    · split at h
      · simp at h
      · split at h
        · simp at h
        · rw [List.foldl_cons]
          exact ih _ h
    · simp at h

/-- The decimal text of the value of a text of digits without a leading zero is that
text. -/
theorem utoa_value (s : Str) (hne : s ≠ []) (hd : ∀ c ∈ s, isDigit c = true)
    (hz : ∀ tl, s = '0' :: tl → tl = []) :
    utoa (s.foldl (fun a c => a * 10 + digitVal c) 0) = s := by
  induction s using List.reverseRecOn with
  | nil => exact absurd rfl hne
  | append_singleton l c ih =>
    have hc : isDigit c = true := hd c (by simp)
    rw [List.foldl_append]
    simp only [List.foldl_cons, List.foldl_nil]
    cases hl : l with
    | nil =>
      simp only [List.foldl_nil, zero_mul, zero_add, List.nil_append]
      rw [utoa_lt_ten _ (digitVal_lt c hc), digitChar_digitVal c hc]
    | cons a as =>
      have hl' : l ≠ [] := by rw [hl]; simp
      have ha0 : a ≠ '0' := by
        intro e
        have := hz (as ++ [c]) (by rw [hl, e]; rfl)
        simp at this
      have ihl := ih hl' (fun x hx => hd x (by simp [hx]))
        (fun tl htl => by rw [hl] at htl; injection htl with h1 _; exact absurd h1 ha0)
      rw [← hl]
      have hv : 1 ≤ l.foldl (fun a c => a * 10 + digitVal c) 0 := by
        by_contra hcon
        have h0 : l.foldl (fun a c => a * 10 + digitVal c) 0 = 0 := by omega
        rw [h0, utoa_lt_ten 0 (by decide), hl] at ihl
        injection ihl with h1 _
        exact ha0 (by rw [← h1]; decide)
      have hdv := digitVal_lt c hc
      rw [utoa_ge_ten _ (by omega)]
      have h1 : (l.foldl (fun a c => a * 10 + digitVal c) 0 * 10 + digitVal c) / 10 =
          l.foldl (fun a c => a * 10 + digitVal c) 0 := by omega
      have h2 : (l.foldl (fun a c => a * 10 + digitVal c) 0 * 10 + digitVal c) % 10 =
          digitVal c := by omega
      rw [h1, h2, ihl, digitChar_digitVal c hc]

theorem parseOctet_text (s : Str) (n : Nat) (h : parseOctet s = some n) : utoa n = s := by
  unfold parseOctet at h
  split at h
  · simp at h
  · rename_i c cs
    split at h
    · simp at h
    · rename_i hd
      split at h
      · simp at h
      · rename_i hz
        split at h
        · rename_i m hm
          split at h
          · injection h with h
            subst h
            rw [parseUintLoop_value _ _ _ hm]
            apply utoa_value _ (by simp)
            · simpa [List.all_eq_true] using hd
            · intro tl htl
              injection htl with h1 h2
              subst h1 h2
              simpa using hz
          · simp at h
        · simp at h

/-- The text that `ParseIP` accepts is the text of the IP it returns. -/
theorem ParseIP_text (X : Str) (ip : IPv4) (h : ParseIP X = some ip) : ip.String = X := by
  unfold ParseIP at h
  split at h
  · rename_i f1 f2 f3 f4 hs
    split at h
    · rename_i a b c d h1 h2 h3 h4
      injection h with h
      subst h
      unfold IPv4.String
      simp only
      rw [parseOctet_text _ _ h1, parseOctet_text _ _ h2, parseOctet_text _ _ h3,
        parseOctet_text _ _ h4]
      have := Join_Split '.' X
      rw [hs] at this
      simpa [Join] using this
    · simp at h
  · simp at h

/-! ## The grammar of addresses -/

theorem takeWhile_ne_of_not_mem (X rest : Str) (h : ':' ∉ X) :
    (X ++ ':' :: rest).takeWhile (fun c => decide (c ≠ ':')) = X ∧
      (X ++ ':' :: rest).dropWhile (fun c => decide (c ≠ ':')) = ':' :: rest := by
  have hall : ∀ c ∈ X, (fun c => decide (c ≠ ':')) c = true := by
    intro c hc
    have : c ≠ ':' := fun e => h (by rw [← e]; exact hc)
    simpa using this
  constructor
  · rw [List.takeWhile_append_of_pos hall, List.takeWhile_cons_of_neg (by simp)]
    simp
  · rw [List.dropWhile_append_of_pos hall, List.dropWhile_cons_of_neg (by simp)]

/-- The submatches of a text `X:P`. -/
theorem FindStringSubmatch_port (X P : Str) (hX : ':' ∉ X) (hP : ∀ c ∈ P, isDigit c = true) :
    FindStringSubmatch (X ++ ':' :: P) = [X ++ ':' :: P, X, P, [], []] := by
  unfold FindStringSubmatch
  simp only
  rw [(takeWhile_ne_of_not_mem X P hX).1, (takeWhile_ne_of_not_mem X P hX).2]
  simp only
  rw [List.takeWhile_eq_self_iff.2 hP, List.dropWhile_eq_nil_iff.2 hP]

/-- The submatches of a text `X:P@C`. -/
theorem FindStringSubmatch_clusterPort (X P C : Str) (hX : ':' ∉ X)
    (hP : ∀ c ∈ P, isDigit c = true) (hC : ∀ c ∈ C, isDigit c = true) :
    FindStringSubmatch (X ++ ':' :: (P ++ '@' :: C)) =
      [X ++ ':' :: (P ++ '@' :: C), X, P, '@' :: C, C] := by
  unfold FindStringSubmatch
  simp only
  rw [(takeWhile_ne_of_not_mem X _ hX).1, (takeWhile_ne_of_not_mem X _ hX).2]
  simp only
  have hat : ¬ (isDigit '@' = true) := by decide
  rw [List.takeWhile_append_of_pos hP, List.dropWhile_append_of_pos hP,
    List.takeWhile_cons_of_neg hat, List.dropWhile_cons_of_neg hat]
  have hall : C.all isDigit = true := List.all_eq_true.2 hC
  simp [hall]

/-- A text that `ParseClusterNodeAddress` accepts has the form `X:P` or `X:P@C`. -/
theorem ParseClusterNodeAddress_shape (s : Str) (h : (ParseClusterNodeAddress s).2 = none) :
    ∃ X P C : Str, ':' ∉ X ∧ (∀ c ∈ P, isDigit c = true) ∧ (∀ c ∈ C, isDigit c = true) ∧
      (s = X ++ ':' :: P ∨ s = X ++ ':' :: (P ++ '@' :: C)) := by
  have hsplit : s = s.takeWhile (fun c => decide (c ≠ ':')) ++
      s.dropWhile (fun c => decide (c ≠ ':')) := (List.takeWhile_append_dropWhile _ s).symm
  have hX : ':' ∉ s.takeWhile (fun c => decide (c ≠ ':')) := by
    intro hm
    have := List.mem_takeWhile_imp hm
    simp at this
  unfold ParseClusterNodeAddress FindStringSubmatch at h
  simp only at h
  cases hd : s.dropWhile (fun c => decide (c ≠ ':')) with
  | nil => rw [hd] at h; simp at h
  | cons a r =>
    have ha : a = ':' := by
      have := head_dropWhile (fun c => decide (c ≠ ':')) s a (by rw [hd]; simp)
      simpa using this
    subst ha
    have hr : r = r.takeWhile isDigit ++ r.dropWhile isDigit :=
      (List.takeWhile_append_dropWhile _ r).symm
    have hP : ∀ c ∈ r.takeWhile isDigit, isDigit c = true :=
      fun c hc => List.mem_takeWhile_imp hc
    rw [hd] at h
    simp only at h
    cases hd2 : r.dropWhile isDigit with
    | nil =>
      refine ⟨_, r.takeWhile isDigit, [], hX, hP, by simp, Or.inl ?_⟩
      rw [hd2, List.append_nil] at hr
      rw [← hr, ← hd]
      exact hsplit
    | cons b g4 =>
      rw [hd2] at h
      simp only at h
      by_cases hcond : (decide (b = '@') && g4.all isDigit) = true
      · simp only [Bool.and_eq_true, decide_eq_true_eq, List.all_eq_true] at hcond
        obtain ⟨hb, hg4⟩ := hcond
        subst hb
        refine ⟨_, r.takeWhile isDigit, g4, hX, hP, hg4, Or.inr ?_⟩
        rw [← hd2, ← hr, ← hd]
        exact hsplit
      · rw [if_neg hcond] at h
        simp at h

/-- Claim C16. NodeAddress grammar: `ParseClusterNodeAddress` succeeds exactly on the texts
`X:P` and `X:P@C` with `X` free of colons and `P`, `C` made of ASCII digits (each possibly
empty), and fails with the invalid-address error on every other text; on success `IP` is
what `ParseIP` makes of `X`, `Port` is `P` and `ClusterPort` is `C`, empty when there is no
`@` part; and `ClusterNodeAddress.String` is the text of the IP when there is one (the
text `X` itself, when `X` was read as an IP), then `:` and the port, then `@` and the
cluster port when the cluster port is not empty. -/
theorem C16_address_grammar :
    (∀ s : Str, (ParseClusterNodeAddress s).2 = none ↔
      ∃ X P C : Str, ':' ∉ X ∧ (∀ c ∈ P, isDigit c = true) ∧ (∀ c ∈ C, isDigit c = true) ∧
        (s = X ++ ':' :: P ∨ s = X ++ ':' :: (P ++ '@' :: C))) ∧
    (∀ s : Str, (ParseClusterNodeAddress s).2 ≠ none →
      ParseClusterNodeAddress s = (ClusterNodeAddress.zero, some (.invalidAddress s))) ∧
    (∀ X P C : Str, ':' ∉ X → (∀ c ∈ P, isDigit c = true) → (∀ c ∈ C, isDigit c = true) →
      ParseClusterNodeAddress (X ++ ':' :: P) = (⟨ParseIP X, P, []⟩, none) ∧
      ParseClusterNodeAddress (X ++ ':' :: (P ++ '@' :: C)) = (⟨ParseIP X, P, C⟩, none)) ∧
    (∀ a : ClusterNodeAddress, a.String =
      (match a.IP with | some ip => ip.String | none => []) ++
        ':' :: (a.Port ++ (if a.ClusterPort ≠ [] then '@' :: a.ClusterPort else []))) ∧
    (∀ (X : Str) (ip : IPv4), ParseIP X = some ip → ip.String = X) := by
  have hbuild : ∀ X P C : Str, ':' ∉ X → (∀ c ∈ P, isDigit c = true) →
      (∀ c ∈ C, isDigit c = true) →
      ParseClusterNodeAddress (X ++ ':' :: P) = (⟨ParseIP X, P, []⟩, none) ∧
      ParseClusterNodeAddress (X ++ ':' :: (P ++ '@' :: C)) = (⟨ParseIP X, P, C⟩, none) := by
    intro X P C hX hP hC
    constructor
    · unfold ParseClusterNodeAddress
      rw [FindStringSubmatch_port X P hX hP]
    · unfold ParseClusterNodeAddress
      rw [FindStringSubmatch_clusterPort X P C hX hP hC]
  refine ⟨?_, ?_, hbuild, ClusterNodeAddress_String_eq, ParseIP_text⟩
  · intro s
    constructor
    · exact ParseClusterNodeAddress_shape s
    · rintro ⟨X, P, C, hX, hP, hC, rfl | rfl⟩
      · rw [(hbuild X P C hX hP hC).1]
      · rw [(hbuild X P C hX hP hC).2]
  · intro s h
    unfold ParseClusterNodeAddress at h ⊢
    split
    · rename_i hm
      rw [hm] at h
      simp at h
    · rfl

/-- Witness of claim C16 at the texts `1.2.3.4:80` and `host:80@81`. -/
theorem C16_address_grammar_witness :
    (ParseClusterNodeAddress "1.2.3.4:80".toList =
        (⟨some ⟨1, 2, 3, 4⟩, "80".toList, []⟩, none) ∧
      ParseClusterNodeAddress "1.2.3.4:80@".toList =
        (⟨some ⟨1, 2, 3, 4⟩, "80".toList, []⟩, none)) ∧
    (ParseClusterNodeAddress "host:80".toList = (⟨none, "80".toList, []⟩, none) ∧
      ParseClusterNodeAddress "host:80@81".toList =
        (⟨none, "80".toList, "81".toList⟩, none)) ∧
    ParseClusterNodeAddress "host".toList =
      (ClusterNodeAddress.zero, some (.invalidAddress "host".toList)) ∧
    ClusterNodeAddress.String ⟨some ⟨1, 2, 3, 4⟩, "80".toList, "81".toList⟩ =
      "1.2.3.4:80@81".toList ∧
    ClusterNodeAddress.String ⟨none, "80".toList, []⟩ = ":80".toList :=
  ⟨C16_address_grammar.2.2.1 "1.2.3.4".toList "80".toList [] (by decide) (by decide)
      (by decide),
    C16_address_grammar.2.2.1 "host".toList "80".toList "81".toList (by decide) (by decide)
      (by decide),
    C16_address_grammar.2.1 "host".toList (by decide), by decide, by decide⟩

/-! ## The identifiers of a node that is read back -/

/-- Node round trip, any identifier: the text of a well-formed node parses to the node
with its identifier as `ClusterNodeID.String` shows it and its slots replaced by the ends
of their runs. -/
theorem ParseClusterNode_String_id (n : ClusterNode) (hw : n.WellFormed) :
    ParseClusterNode n.String =
      ({ n with ID := ClusterNodeID.String n.ID, Slots := sortInts (runEnds n.Slots) },
        none) := by
  have hsplit := ClusterNode_String_split n (ClusterNodeID_String_no_space _ hw.id_no_space)
    (ClusterNodeAddress_String_no_space _ hw.port_digits hw.clusterPort_digits).1
    (ClusterNodeID_String_no_space _ hw.master_no_space) hw.linkState_no_space hw.slots_range
  have hruns : ∀ r ∈ maximalRuns n.Slots,
      ParseHashSlots (formatRun r) = (if r.1 = r.2 then [r.1] else [r.1, r.2], none) := by
    intro r hr
    obtain ⟨h1, h2⟩ := maximalRuns_mem n.Slots r hr
    exact ParseHashSlots_formatRun r (hw.slots_range _ h1) (hw.slots_range _ h2)
  rw [ParseClusterNode_of_fields n.String _ _ _ _ _ _ _ _ _ n.Address n.Flags n.PingSent
    n.PongReceived n.Epoch hsplit
    (ParseClusterNodeAddress_String _ hw.port_digits hw.clusterPort_digits hw.ip_octets)
    (ParseClusterNodeFlags_String _) (Atoi_Itoa _ hw.pingSent_range)
    (Atoi_Itoa _ hw.pongReceived_range) (Atoi_Itoa _ hw.epoch_range)
    (fun tok htok => by
      obtain ⟨r, hr, rfl⟩ := List.mem_map.1 htok
      rw [hruns r hr])]
  have hmS : (if ClusterNodeID.String n.MasterID ≠ ['-'] then ClusterNodeID.String n.MasterID
      else []) = n.MasterID := by
    unfold ClusterNodeID.String
    by_cases hm : n.MasterID = []
    · simp [hm]
    · rw [if_neg hm, if_pos hw.master_not_dash]
  have hsl : ((maximalRuns n.Slots).map formatRun).map (fun tok => (ParseHashSlots tok).1) =
      (maximalRuns n.Slots).map (fun r => if r.1 = r.2 then [r.1] else [r.1, r.2]) := by
    rw [List.map_map]
    apply List.map_congr_left
    intro r hr
    simp only [Function.comp_apply, hruns r hr]
  rw [hmS, hsl]
  rfl

/-- Claim C19, as the code has it: for every line that `ParseClusterNode` accepts as a
node `n`, `ParseClusterNode` accepts the `String` of `n` and returns a node with the
`MasterID` of `n`; its `ID` is the `ID` of `n` when that is not empty, and `-` when it is. -/
theorem C19_identifier_round_trip (line : Str) (n : ClusterNode)
    (h : ParseClusterNode line = (n, none)) :
    ∃ n', ParseClusterNode n.String = (n', none) ∧ n'.MasterID = n.MasterID ∧
      n'.ID = (if n.ID = [] then ['-'] else n.ID) :=
  ⟨_, ParseClusterNode_String_id n (ParseClusterNode_wellFormed line n h), rfl, rfl⟩

set_option maxRecDepth 100000 in
/-- Witness of claim C19 at the example line of the documentation. -/
theorem C19_identifier_round_trip_witness :
    ∃ n', ParseClusterNode exampleNode.String = (n', none) ∧
      n'.MasterID = exampleNode.MasterID ∧
      n'.ID = (if exampleNode.ID = [] then ['-'] else exampleNode.ID) :=
  C19_identifier_round_trip exampleLine exampleNode (by decide)

set_option maxRecDepth 100000 in
/-- Claim C19, the claim as stated fails: `ParseClusterNode` accepts the line
` :1 master - 0 0 0 up` as a node with the empty `ID`, and reads the `String` of that
node as a node with the `ID` `-`. -/
theorem C19_empty_id_not_read_back :
    (ParseClusterNode " :1 master - 0 0 0 up".toList).2 = none ∧
    (ParseClusterNode " :1 master - 0 0 0 up".toList).1.ID = [] ∧
    (ParseClusterNode (ParseClusterNode " :1 master - 0 0 0 up".toList).1.String).2 = none ∧
    (ParseClusterNode (ParseClusterNode " :1 master - 0 0 0 up".toList).1.String).1.ID =
      "-".toList := by
  decide

/-! ## `NewHashSlotsFromRange` -/

theorem wrapInt_of_range (x : Int) (h : -2 ^ 63 ≤ x ∧ x < 2 ^ 63) : wrapInt x = x := by
  unfold wrapInt
  have : (x + 2 ^ 63) % 2 ^ 64 = x + 2 ^ 63 := Int.emod_eq_of_lt (by omega) (by omega)
  rw [this]
  omega

theorem wrapInt_range (x : Int) : -2 ^ 63 ≤ wrapInt x ∧ wrapInt x < 2 ^ 63 := by
  unfold wrapInt
  have h1 : 0 ≤ (x + 2 ^ 63) % 2 ^ 64 := Int.emod_nonneg _ (by norm_num)
  have h2 : (x + 2 ^ 63) % 2 ^ 64 < 2 ^ 64 := Int.emod_lt_of_pos _ (by norm_num)
  constructor <;> omega

theorem consecutive_nil (lo hi : Int) (h : hi < lo) : consecutive lo hi = [] := by
  unfold consecutive
  have : (hi - lo + 1).toNat = 0 := by omega
  rw [this]
  rfl

theorem consecutive_cons (lo hi : Int) (h : lo ≤ hi) :
    consecutive lo hi = lo :: consecutive (lo + 1) hi := by
  unfold consecutive
  have h1 : (hi - lo + 1).toNat = (hi - (lo + 1) + 1).toNat + 1 := by omega
  rw [h1, List.range_succ_eq_map, List.map_cons, List.map_map]
  congr 1
  · simp
  · apply List.map_congr_left
    intro i _
    simp only [Function.comp_apply, Int.ofNat_eq_coe, Nat.succ_eq_add_one, Nat.cast_add,
      Nat.cast_one]
    ring

theorem length_consecutive (lo hi : Int) : (consecutive lo hi).length = (hi - lo + 1).toNat := by
  simp [consecutive]

theorem mem_consecutive (lo hi x : Int) (h : x ∈ consecutive lo hi) : lo ≤ x ∧ x ≤ hi := by
  unfold consecutive at h
  obtain ⟨i, hi', rfl⟩ := List.mem_map.1 h
  rw [List.mem_range] at hi'
  simp only [Int.ofNat_eq_coe]
  omega

/-- With step `1` and an end below the largest integer, the loop ends and appends the
consecutive integers from `b` to `e`. -/
theorem NewHashSlotsFromRange_loop_eq (fuel : Nat) (b e : Int) (slots : HashSlots)
    (hb : -2 ^ 63 ≤ b) (hbe : b ≤ e + 1) (he : e < 2 ^ 63 - 1)
    (hfuel : (e - b + 2).toNat ≤ fuel) :
    NewHashSlotsFromRange.loop fuel b e 1 slots = some (slots ++ consecutive b e) := by
  induction fuel generalizing b slots with
  | zero => omega
  | succ fuel ih =>
    rw [NewHashSlotsFromRange.loop]
    by_cases hle : b ≤ e
    · rw [if_pos hle, wrapInt_of_range (b + 1) ⟨by omega, by omega⟩,
        ih (b + 1) _ (by omega) (by omega) (by omega), consecutive_cons b e hle]
      simp
    · rw [if_neg hle, consecutive_nil b e (by omega)]
      simp

/-- With the largest integer as end, the loop condition holds for every value of `begin`,
so the loop never ends. -/
theorem NewHashSlotsFromRange_loop_max (fuel : Nat) (b step : Int) (slots : HashSlots)
    (hb : b < 2 ^ 63) :
    NewHashSlotsFromRange.loop fuel b (2 ^ 63 - 1) step slots = none := by
  induction fuel generalizing b slots with
  | zero => rfl
  | succ fuel ih =>
    rw [NewHashSlotsFromRange.loop, if_pos (by omega)]
    exact ih _ _ (wrapInt_range _).2

theorem runsFrom_consecutive (b last e : Int) (h : last ≤ e) :
    runsFrom b last (consecutive (last + 1) e) = [(b, e)] := by
  obtain ⟨k, hk⟩ : ∃ k : Nat, k = (e - last).toNat := ⟨_, rfl⟩
  induction k generalizing last with
  | zero =>
    have : last = e := by omega
    subst this
    rw [consecutive_nil _ _ (by omega)]
    rfl
  | succ k ih =>
    rw [consecutive_cons (last + 1) e (by omega), runsFrom, if_pos rfl]
    exact ih (last + 1) (by omega) (by omega)

/-- The text of the consecutive slots from `b` to `e`: one run. -/
theorem HashSlots_String_consecutive (b e : Int) (hb : 0 ≤ b) (hbe : b ≤ e) (he : e < 2 ^ 63) :
    HashSlots.String (consecutive b e) = if b < e then Itoa b ++ '-' :: Itoa e else Itoa b := by
  rw [HashSlots_String_eq_runs _ (fun x hx => by
    obtain ⟨h1, h2⟩ := mem_consecutive b e x hx
    exact ⟨by omega, by omega⟩)]
  rw [consecutive_cons b e hbe]
  simp only [maximalRuns]
  rw [runsFrom_consecutive b b e hbe]
  simp only [List.map_cons, List.map_nil, Join, formatRun]
  by_cases h : b = e
  · rw [if_pos h, if_neg (by omega)]
  · rw [if_neg h, if_pos (by omega)]

/-- Claim C20, as the code has it: for `0 ≤ begin ≤ end` with `end` below the largest
integer, `NewHashSlotsFromRange(begin, end, 1)` ends, within `end - begin + 2` evaluations
of its condition, and returns the list `begin, begin+1, ..., end` of length
`end - begin + 1`; `HashSlots.String` of that list is `begin-end` when `begin < end` and
the bare `begin` when `begin = end`. -/
theorem C20_range_then_String (b e : Int) (hb : 0 ≤ b) (hbe : b ≤ e) (he : e < 2 ^ 63 - 1) :
    (∀ fuel : Nat, (e - b + 2).toNat ≤ fuel →
      NewHashSlotsFromRange fuel b e 1 = some (consecutive b e)) ∧
    (consecutive b e).length = (e - b + 1).toNat ∧
    (consecutive b e).head? = some b ∧ (consecutive b e).getLast? = some e ∧
    HashSlots.String (consecutive b e) =
      (if b < e then Itoa b ++ '-' :: Itoa e else Itoa b) := by
  refine ⟨?_, length_consecutive b e, ?_, ?_, HashSlots_String_consecutive b e hb hbe (by omega)⟩
  · intro fuel hfuel
    rw [NewHashSlotsFromRange, NewHashSlotsFromRange_loop_eq fuel b e [] (by omega) (by omega) he
      hfuel]
    simp
  · rw [consecutive_cons b e hbe]
    rfl
  · unfold consecutive
    have h1 : (e - b + 1).toNat = (e - b).toNat + 1 := by omega
    rw [h1, List.range_succ, List.map_append]
    simp only [List.map_cons, List.map_nil, Int.ofNat_eq_coe]
    rw [List.getLast?_append_of_ne_nil _ (by simp)]
    simp only [List.getLast?_singleton, Option.some.injEq]
    omega

/-- Witness of claim C20 at `begin = 3`, `end = 5`, which gives `[3, 4, 5]` and `3-5`. -/
theorem C20_range_then_String_witness :
    NewHashSlotsFromRange 4 3 5 1 = some [3, 4, 5] ∧
    HashSlots.String [3, 4, 5] = "3-5".toList ∧
    ((∀ fuel : Nat, ((5 : Int) - 3 + 2).toNat ≤ fuel →
        NewHashSlotsFromRange fuel 3 5 1 = some (consecutive 3 5)) ∧
      (consecutive 3 5).length = ((5 : Int) - 3 + 1).toNat ∧
      (consecutive 3 5).head? = some 3 ∧ (consecutive 3 5).getLast? = some 5 ∧
      HashSlots.String (consecutive 3 5) =
        (if (3 : Int) < 5 then Itoa 3 ++ '-' :: Itoa 5 else Itoa 3)) :=
  ⟨by decide, by decide, C20_range_then_String 3 5 (by decide) (by decide) (by decide)⟩

/-- Claim C20, the claim as stated fails: with `begin` and `end` both the largest integer
`2^63 - 1`, the addition `begin += 1` wraps to the smallest integer, the condition
`begin <= end` holds again, and `NewHashSlotsFromRange` never returns. -/
theorem C20_no_return_at_max :
    (0 : Int) ≤ 2 ^ 63 - 1 ∧ (2 ^ 63 - 1 : Int) ≤ 2 ^ 63 - 1 ∧
    wrapInt ((2 ^ 63 - 1) + 1) = -2 ^ 63 ∧
    ¬ ∃ (fuel : Nat) (slots : HashSlots),
      NewHashSlotsFromRange fuel (2 ^ 63 - 1) (2 ^ 63 - 1) 1 = some slots := by
  refine ⟨by norm_num, le_refl _, by decide, ?_⟩
  rintro ⟨fuel, slots, h⟩
  rw [NewHashSlotsFromRange, NewHashSlotsFromRange_loop_max fuel _ 1 [] (by norm_num)] at h
  simp at h

end Kredis
